import Mathlib

/-!
# gocontentful: the read-only Contentful delivery client

A shallow embedding of `contentful.go`.

* The package's own code (`New`, `query`, the six endpoint builders and the six
  fetchers) is translated function by function.
* The HTTP stack (`http.NewRequest`, `(*http.Client).Do`, `ioutil.ReadAll`) is a
  parameter, `Transport`: the package only hands it a request and looks at the
  status code, the status line and the body it gets back.
* `json.Unmarshal` is modelled for the Go types declared in the package, after
  the decoding rules of Go's `encoding/json`: the byte-level scanner, the
  literal conversions, the case-folded matching of object keys with struct
  fields, and the two ways a decoding error is reported (a saved
  `UnmarshalTypeError` that lets decoding go on, an `Unmarshaler` error that
  stops it).  A slice is kept with what its backing array holds past its
  length, which a repeated key brings back.  The two conversions that leave
  the package for good, RFC 3339 timestamps and 64-bit floats, are the
  parameter `Lib`.
* What a body stands for is said apart from the decoder: `renders` relates a
  JSON value to the Go value it renders in the API's shape, from the spelling
  of string literals (`spells`) up to the structs.  The statements about
  bodies are made over the JSON value the scanner reads and over its compact
  text (`JSON.render`), which `parseJSON_render` relates.
-/

namespace Contentful

/-- A Go `[]byte`. -/
abbrev Bytes := List UInt8

/-- The bytes of an ASCII string literal. -/
def ascii (s : String) : Bytes := s.toList.map (fun c => c.toNat.toUInt8)

/-! ## The client and its endpoints -/

def baseURL : String := "https://cdn.contentful.com/spaces/"

structure Client where
  AccessToken : String
  Space : String
deriving DecidableEq, Repr

def New (token : String) (space : String) : Client := Client.mk token space

def Client.getSpaceURL (client : Client) : String :=
  baseURL ++ client.Space

def Client.getContentTypesURL (client : Client) : String :=
  client.getSpaceURL ++ "/content_types"

def Client.getContentTypeURL (client : Client) (id : String) : String :=
  client.getContentTypesURL ++ "/" ++ id

def Client.getEntriesURL (client : Client) : String :=
  client.getSpaceURL ++ "/entries"

def Client.getEntryURL (client : Client) (id : String) : String :=
  client.getEntriesURL ++ "/" ++ id

def Client.getAssetsURL (client : Client) : String :=
  client.getSpaceURL ++ "/assets"

/-! ## The transport -/

/-- Go `error` values the package can return, by the place they come from. -/
inductive GoError where
  /-- Returned by `http.NewRequest` (the endpoint does not parse as a URL). -/
  | newRequest (cause : String)
  /-- Returned by `(*http.Client).Do`. -/
  | send (cause : String)
  /-- Returned by `ioutil.ReadAll` on the response body. -/
  | readBody (cause : String)
  /-- Made by `errors.New(res.Status)`: its message is the status line. -/
  | status (line : String)
  /-- A `*json.SyntaxError`: the body is not a JSON text. -/
  | invalidJSON
  /-- A `*json.UnmarshalTypeError`: JSON `value` does not fit Go type `goType`. -/
  | unmarshalType (value : String) (goType : String)
  /-- The error of a `json.Unmarshaler`, here `(*time.Time).UnmarshalJSON`. -/
  | unmarshaler (cause : String)
deriving DecidableEq, Repr

/-- The errors `json.Unmarshal` returns. -/
def GoError.isDecodeError : GoError → Bool
  | .invalidJSON => true
  | .unmarshalType _ _ => true
  | .unmarshaler _ => true
  | _ => false

/-- An `*http.Request` as far as the package sets it up. -/
structure Request where
  Method : String
  URL : String
  Header : List (String × String)
  Body : Option Bytes
deriving DecidableEq, Repr

/-- An `*http.Response` as far as the package looks at it.  `Body` and `readErr`
are what `ioutil.ReadAll(res.Body)` returns. -/
structure Response where
  StatusCode : Int
  Status : String
  Body : Bytes
  readErr : Option String
deriving DecidableEq, Repr

def StatusOK : Int := 200

/-- The HTTP stack under the package. `urlError` is the error of `url.Parse`
inside `http.NewRequest` (`none` when the endpoint parses), `Do` is
`(*http.Client).Do`. -/
structure Transport where
  urlError : String → Option String
  Do : Request → Except String Response

/-- `http.NewRequest(method, url, body)`: a request with an empty header. -/
def NewRequest (tr : Transport) (method : String) (url : String) (body : Option Bytes) :
    Except GoError Request :=
  match tr.urlError url with
  | some cause => .error (.newRequest cause)
  | none => .ok (Request.mk method url [] body)

/-- `Header.Set`: the key takes the one value. -/
def headerSet (h : List (String × String)) (key : String) (value : String) :
    List (String × String) :=
  h.filter (fun kv => kv.1 != key) ++ [(key, value)]

/-- What a method call leaves behind: the two results, the receiver's fields
after the call and the requests handed to `Do`, in order. -/
structure Outcome (α : Type) where
  resp : Option α
  err : Option GoError
  client : Client
  sent : List Request

def Client.query (tr : Transport) (client : Client) (endpoint : String)
    (_params : List (String × String)) : Outcome Bytes :=
  match NewRequest tr "GET" endpoint none with
  | .error e => Outcome.mk none (some e) client []
  | .ok req0 =>
    let req : Request :=
      Request.mk req0.Method req0.URL
        (headerSet req0.Header "Authorization" ("Bearer " ++ client.AccessToken)) req0.Body
    match tr.Do req with
    | .error cause => Outcome.mk none (some (.send cause)) client [req]
    | .ok res =>
      if res.StatusCode ≠ StatusOK then
        Outcome.mk none (some (.status res.Status)) client [req]
      else
        Outcome.mk (some res.Body) (res.readErr.map GoError.readBody) client [req]

/-- The request `query` builds for an endpoint. -/
def Client.request (client : Client) (endpoint : String) : Request :=
  Request.mk "GET" endpoint [("Authorization", "Bearer " ++ client.AccessToken)] none

/-! ## JSON texts -/

/-- A JSON value as the scanner delimits it.  String and number literals keep
their bytes (a string without its two quotes): the decoder converts them when
it knows the Go type they go to. -/
inductive JSON where
  | null : JSON
  | bool (b : Bool) : JSON
  | number (raw : Bytes) : JSON
  | string (raw : Bytes) : JSON
  | array (elems : List JSON) : JSON
  | object (members : List (Bytes × JSON)) : JSON
deriving Repr

/-- An entry of the scanner's `parseState` stack, with the part of the array
or object read so far (latest first). -/
inductive Frame where
  | parseObjectKey (members : List (Bytes × JSON)) (key : Bytes) : Frame
  | parseObjectValue (members : List (Bytes × JSON)) (key : Bytes) : Frame
  | parseArrayValue (elems : List JSON) : Frame
deriving Repr

/-- The scanner's `step` functions. -/
inductive Step where
  | beginValue | beginValueOrEmpty | beginStringOrEmpty | beginString
  | endValue | endTop
  | inString | inStringEsc | inStringEscU | inStringEscU1 | inStringEscU12 | inStringEscU123
  | neg | num0 | num1 | dot | dot0 | e | eSign | e0
  | t | tr | tru | f | fa | fal | fals | n | nu | nul
deriving DecidableEq, Repr

structure Scanner where
  step : Step
  parseState : List Frame
  /-- Bytes of the literal being read, latest first. -/
  lit : Bytes
  /-- The top-level value, once it is complete. -/
  top : Option JSON
deriving Repr

def maxNestingDepth : Nat := 10000

def isSpace (c : UInt8) : Bool := c.toNat = 32 || c.toNat = 9 || c.toNat = 13 || c.toNat = 10

def isDigit (c : UInt8) : Bool := 48 ≤ c.toNat && c.toNat ≤ 57

def isHex (c : UInt8) : Bool :=
  isDigit c || (97 ≤ c.toNat && c.toNat ≤ 102) || (65 ≤ c.toNat && c.toNat ≤ 70)

/-- A value is complete: it goes to the array or object being read, or it is
the top-level value.  A string read where a key is expected is the key. -/
def Scanner.emit (s : Scanner) (v : JSON) : Scanner :=
  match s.parseState with
  | [] => Scanner.mk .endValue [] [] (some v)
  | .parseArrayValue es :: ps => Scanner.mk .endValue (.parseArrayValue (v :: es) :: ps) [] s.top
  | .parseObjectValue ms k :: ps =>
    Scanner.mk .endValue (.parseObjectValue ((k, v) :: ms) k :: ps) [] s.top
  | .parseObjectKey ms k :: ps =>
    match v with
    | .string raw => Scanner.mk .endValue (.parseObjectKey ms raw :: ps) [] s.top
    | _ => Scanner.mk .endValue (.parseObjectKey ms k :: ps) [] s.top

def Scanner.pushParseState (s : Scanner) (f : Frame) (next : Step) : Option Scanner :=
  if s.parseState.length + 1 ≤ maxNestingDepth then
    some (Scanner.mk next (f :: s.parseState) [] s.top)
  else none

/-- The innermost array or object is complete (`popParseState`). -/
def Scanner.popParseState (s : Scanner) (ps : List Frame) (v : JSON) : Scanner :=
  let s1 := (Scanner.mk s.step ps [] s.top).emit v
  if ps.isEmpty then Scanner.mk .endTop s1.parseState s1.lit s1.top else s1

def stateEndValue (s : Scanner) (c : UInt8) : Option Scanner :=
  match s.parseState with
  | [] => if isSpace c then some (Scanner.mk .endTop [] s.lit s.top) else none
  | .parseObjectKey ms k :: ps =>
    if isSpace c then some (Scanner.mk .endValue s.parseState s.lit s.top)
    else if c.toNat = 58 then
      some (Scanner.mk .beginValue (.parseObjectValue ms k :: ps) s.lit s.top)
    else none
  | .parseObjectValue ms k :: ps =>
    if isSpace c then some (Scanner.mk .endValue s.parseState s.lit s.top)
    else if c.toNat = 44 then
      some (Scanner.mk .beginString (.parseObjectKey ms k :: ps) s.lit s.top)
    else if c.toNat = 125 then some (s.popParseState ps (.object ms.reverse))
    else none
  | .parseArrayValue es :: ps =>
    if isSpace c then some (Scanner.mk .endValue s.parseState s.lit s.top)
    else if c.toNat = 44 then some (Scanner.mk .beginValue s.parseState s.lit s.top)
    else if c.toNat = 93 then some (s.popParseState ps (.array es.reverse))
    else none

def stateBeginValue (s : Scanner) (c : UInt8) : Option Scanner :=
  if isSpace c then some s
  else if c.toNat = 123 then s.pushParseState (.parseObjectKey [] []) .beginStringOrEmpty
  else if c.toNat = 91 then s.pushParseState (.parseArrayValue []) .beginValueOrEmpty
  else if c.toNat = 34 then some (Scanner.mk .inString s.parseState [] s.top)
  else if c.toNat = 45 then some (Scanner.mk .neg s.parseState [c] s.top)
  else if c.toNat = 48 then some (Scanner.mk .num0 s.parseState [c] s.top)
  else if c.toNat = 116 then some (Scanner.mk .t s.parseState [] s.top)
  else if c.toNat = 102 then some (Scanner.mk .f s.parseState [] s.top)
  else if c.toNat = 110 then some (Scanner.mk .n s.parseState [] s.top)
  else if 49 ≤ c.toNat && c.toNat ≤ 57 then some (Scanner.mk .num1 s.parseState [c] s.top)
  else none

def stateBeginString (s : Scanner) (c : UInt8) : Option Scanner :=
  if isSpace c then some s
  else if c.toNat = 34 then some (Scanner.mk .inString s.parseState [] s.top)
  else none

/-- Go on reading the literal: `c` belongs to it. -/
def Scanner.more (s : Scanner) (next : Step) (c : UInt8) : Scanner :=
  Scanner.mk next s.parseState (c :: s.lit) s.top

/-- The number literal ended before `c`. -/
def Scanner.endNumber (s : Scanner) (c : UInt8) : Option Scanner :=
  stateEndValue (s.emit (.number s.lit.reverse)) c

def state0 (s : Scanner) (c : UInt8) : Option Scanner :=
  if c.toNat = 46 then some (s.more .dot c)
  else if c.toNat = 101 || c.toNat = 69 then some (s.more .e c)
  else s.endNumber c

def stateESign (s : Scanner) (c : UInt8) : Option Scanner :=
  if isDigit c then some (s.more .e0 c) else none

/-- One byte through the scanner; `none` is `scanError`. -/
def Scanner.next (s : Scanner) (c : UInt8) : Option Scanner :=
  match s.step with
  | .beginValue => stateBeginValue s c
  | .beginValueOrEmpty =>
    if isSpace c then some s
    else if c.toNat = 93 then stateEndValue s c
    else stateBeginValue s c
  | .beginStringOrEmpty =>
    if isSpace c then some s
    else if c.toNat = 125 then
      match s.parseState with
      | .parseObjectKey ms k :: ps =>
        stateEndValue (Scanner.mk s.step (.parseObjectValue ms k :: ps) s.lit s.top) c
      | _ => none
    else stateBeginString s c
  | .beginString => stateBeginString s c
  | .endValue => stateEndValue s c
  | .endTop => if isSpace c then some s else none
  | .inString =>
    if c.toNat = 34 then some (s.emit (.string s.lit.reverse))
    else if c.toNat = 92 then some (s.more .inStringEsc c)
    else if c.toNat < 32 then none
    else some (s.more .inString c)
  | .inStringEsc =>
    if c.toNat = 98 || c.toNat = 102 || c.toNat = 110 || c.toNat = 114 || c.toNat = 116 ||
        c.toNat = 92 || c.toNat = 47 || c.toNat = 34 then
      some (s.more .inString c)
    else if c.toNat = 117 then some (s.more .inStringEscU c)
    else none
  | .inStringEscU => if isHex c then some (s.more .inStringEscU1 c) else none
  | .inStringEscU1 => if isHex c then some (s.more .inStringEscU12 c) else none
  | .inStringEscU12 => if isHex c then some (s.more .inStringEscU123 c) else none
  | .inStringEscU123 => if isHex c then some (s.more .inString c) else none
  | .neg =>
    if c.toNat = 48 then some (s.more .num0 c)
    else if 49 ≤ c.toNat && c.toNat ≤ 57 then some (s.more .num1 c)
    else none
  | .num1 => if isDigit c then some (s.more .num1 c) else state0 s c
  | .num0 => state0 s c
  | .dot => if isDigit c then some (s.more .dot0 c) else none
  | .dot0 =>
    if isDigit c then some (s.more .dot0 c)
    else if c.toNat = 101 || c.toNat = 69 then some (s.more .e c)
    else s.endNumber c
  | .e => if c.toNat = 43 || c.toNat = 45 then some (s.more .eSign c) else stateESign s c
  | .eSign => stateESign s c
  | .e0 => if isDigit c then some (s.more .e0 c) else s.endNumber c
  | .t => if c.toNat = 114 then some (s.more .tr c) else none
  | .tr => if c.toNat = 117 then some (s.more .tru c) else none
  | .tru => if c.toNat = 101 then some (s.emit (.bool true)) else none
  | .f => if c.toNat = 97 then some (s.more .fa c) else none
  | .fa => if c.toNat = 108 then some (s.more .fal c) else none
  | .fal => if c.toNat = 115 then some (s.more .fals c) else none
  | .fals => if c.toNat = 101 then some (s.emit (.bool false)) else none
  | .n => if c.toNat = 117 then some (s.more .nu c) else none
  | .nu => if c.toNat = 108 then some (s.more .nul c) else none
  | .nul => if c.toNat = 108 then some (s.emit .null) else none

/-- The scanner's `eof`: a last space ends a pending number. -/
def Scanner.eof (s : Scanner) : Option JSON :=
  if s.step = .endTop then s.top
  else
    match s.next 32 with
    | some s1 => if s1.step = .endTop then s1.top else none
    | none => none

def Scanner.run (s : Scanner) : Bytes → Option Scanner
  | [] => some s
  | c :: cs =>
    match s.next c with
    | some s1 => s1.run cs
    | none => none

/-- The scanner over a whole text (`checkValid`), with the value it delimits;
`none` when the text is not valid JSON. -/
def parseJSON (data : Bytes) : Option JSON :=
  match (Scanner.mk .beginValue [] [] none).run data with
  | some s => s.eof
  | none => none

/-! ## Literal conversions -/

def RuneError : Nat := 0xFFFD

/-- Go's `utf8.DecodeRune`: the first rune of `p` and its width, `(RuneError, 1)`
for a byte sequence that is not UTF-8. -/
def decodeRune : Bytes → Nat × Nat
  | [] => (RuneError, 0)
  | p0 :: rest =>
    let b0 := p0.toNat
    if b0 < 0x80 then (b0, 1)
    else if b0 < 0xC2 || 0xF4 < b0 then (RuneError, 1)
    else
      let lo := if b0 = 0xE0 then 0xA0 else if b0 = 0xF0 then 0x90 else 0x80
      let hi := if b0 = 0xED then 0x9F else if b0 = 0xF4 then 0x8F else 0xBF
      match rest with
      | [] => (RuneError, 1)
      | p1 :: rest1 =>
        let b1 := p1.toNat
        if b1 < lo || hi < b1 then (RuneError, 1)
        else if b0 < 0xE0 then ((b0 % 32) * 64 + b1 % 64, 2)
        else
          match rest1 with
          | [] => (RuneError, 1)
          | p2 :: rest2 =>
            let b2 := p2.toNat
            if b2 < 0x80 || 0xBF < b2 then (RuneError, 1)
            else if b0 < 0xF0 then ((b0 % 16) * 4096 + (b1 % 64) * 64 + b2 % 64, 3)
            else
              match rest2 with
              | [] => (RuneError, 1)
              | p3 :: _ =>
                let b3 := p3.toNat
                if b3 < 0x80 || 0xBF < b3 then (RuneError, 1)
                else ((b0 % 8) * 262144 + (b1 % 64) * 4096 + (b2 % 64) * 64 + b3 % 64, 4)

def hexValue (c : UInt8) : Option Nat :=
  if 48 ≤ c.toNat && c.toNat ≤ 57 then some (c.toNat - 48)
  else if 97 ≤ c.toNat && c.toNat ≤ 102 then some (c.toNat - 97 + 10)
  else if 65 ≤ c.toNat && c.toNat ≤ 70 then some (c.toNat - 65 + 10)
  else none

/-- Go's `getu4`: the code unit of a `\uXXXX` escape at the head of `s`. -/
def getu4 : Bytes → Option Nat
  | b :: u :: h1 :: h2 :: h3 :: h4 :: _ =>
    if b.toNat = 92 ∧ u.toNat = 117 then
      match hexValue h1, hexValue h2, hexValue h3, hexValue h4 with
      | some a, some b, some c, some d => some (((a * 16 + b) * 16 + c) * 16 + d)
      | _, _, _, _ => none
    else none
  | _ => none

def isSurrogate (r : Nat) : Bool := 0xD800 ≤ r && r < 0xE000

/-- Go's `utf16.DecodeRune`: the rune of a surrogate pair, `RuneError` for
anything else. -/
def utf16DecodeRune (r1 : Nat) (r2 : Nat) : Nat :=
  if 0xD800 ≤ r1 ∧ r1 < 0xDC00 ∧ 0xDC00 ≤ r2 ∧ r2 < 0xE000 then
    (r1 - 0xD800) * 1024 + (r2 - 0xDC00) + 0x10000
  else RuneError

/-- One step of `unquoteBytes`: the rune the head of `s` stands for and the
number of bytes it takes; `none` where `unquoteBytes` gives up. -/
def unquoteRune (s : Bytes) : Option (Nat × Nat) :=
  match s with
  | [] => none
  | c :: rest =>
    if c.toNat = 92 then
      match rest with
      | [] => none
      | e :: _ =>
        if e.toNat = 34 ∨ e.toNat = 92 ∨ e.toNat = 47 ∨ e.toNat = 39 then some (e.toNat, 2)
        else if e.toNat = 98 then some (8, 2)
        else if e.toNat = 102 then some (12, 2)
        else if e.toNat = 110 then some (10, 2)
        else if e.toNat = 114 then some (13, 2)
        else if e.toNat = 116 then some (9, 2)
        else if e.toNat = 117 then
          match getu4 s with
          | none => none
          | some rr =>
            if isSurrogate rr then
              let dec := utf16DecodeRune rr ((getu4 (s.drop 6)).getD RuneError)
              if dec ≠ RuneError then some (dec, 12) else some (RuneError, 6)
            else some (rr, 6)
        else none
    else if c.toNat = 34 ∨ c.toNat < 32 then none
    else if c.toNat < 128 then some (c.toNat, 1)
    else some (decodeRune s)

/-- The runes of a string literal from byte `skip` of `s` on. -/
def unquoteFrom : Bytes → Nat → List Char
  | [], _ => []
  | _ :: rest, skip + 1 => unquoteFrom rest skip
  | c :: rest, 0 =>
    match unquoteRune (c :: rest) with
    | none => []
    | some (r, size) => Char.ofNat r :: unquoteFrom rest (size - 1)

/-- Go's `unquoteBytes` on the bytes between the quotes of a string literal.
The decoder applies it to literals the scanner has accepted; on any other
bytes `unquoteBytes` gives up where this function stops. -/
def unquote (raw : Bytes) : String := String.mk (unquoteFrom raw 0)

/-- The folding of `foldName` on one rune: ASCII letters go to upper case; of
the other runes only U+017F and U+212A fold to an ASCII letter. -/
def foldRune (c : Char) : Char :=
  if 97 ≤ c.toNat ∧ c.toNat ≤ 122 then Char.ofNat (c.toNat - 32)
  else if c.toNat = 0x17F then Char.ofNat 83
  else if c.toNat = 0x212A then Char.ofNat 75
  else c

/-- Go's `foldName`, as far as names that fold to ASCII names go. -/
def foldName (s : String) : String := String.mk (s.toList.map foldRune)

/-- The index of the struct field an object key goes to: the field of that
name, or else the field whose name folds like the key (`byExactName`, then
`byFoldedName`). -/
def fieldIndex (names : List String) (key : String) : Option Nat :=
  match names.indexOf? key with
  | some i => some i
  | none => (names.map foldName).indexOf? (foldName key)

def digitsValue : Bytes → Nat → Option Nat
  | [], acc => some acc
  | c :: cs, acc => if isDigit c then digitsValue cs (acc * 10 + (c.toNat - 48)) else none

/-- Go's `strconv.ParseInt(s, 10, 64)`; `none` for a syntax or a range error. -/
def ParseInt (s : Bytes) : Option Int :=
  match s with
  | [] => none
  | c :: rest =>
    let neg := c.toNat = 45
    let ds := if c.toNat = 45 ∨ c.toNat = 43 then rest else s
    match ds with
    | [] => none
    | _ :: _ =>
      match digitsValue ds 0 with
      | none => none
      | some n =>
        if neg then (if n ≤ 2 ^ 63 then some (-(n : Int)) else none)
        else (if n < 2 ^ 63 then some (n : Int) else none)

/-- The two conversions the decoder takes from other packages:
`time.Time`, its zero value and the RFC 3339 parsing of
`(*time.Time).UnmarshalJSON` (on the bytes between the quotes), and
`strconv.ParseFloat(s, 64)` (`none` for a range error). -/
structure Lib (Time : Type) (Float64 : Type) where
  zeroTime : Time
  parseRFC3339 : Bytes → Except String Time
  ParseFloat : Bytes → Option Float64

/-- The values `encoding/json` stores in an `interface{}`: `nil`, `bool`,
`float64`, `string`, `[]interface{}` and `map[string]interface{}` (the entries
of a map in the order the keys were first set). -/
inductive GoAny (Float64 : Type) where
  | nil : GoAny Float64
  | bool (b : Bool) : GoAny Float64
  | float64 (f : Float64) : GoAny Float64
  | string (s : String) : GoAny Float64
  | slice (xs : List (GoAny Float64)) : GoAny Float64
  | map (kvs : List (String × GoAny Float64)) : GoAny Float64

/-! ## The data model -/

/-- A Go slice: `nil`, or the elements up to its length and, in `spare`, the
values its backing array holds from there on.  `spare` lists the values a
shorter array left behind when the decoder cut the slice (`SetLen`); the slots
after them, up to the capacity, hold zero values as the slots of a newly made
array do, so that the capacity itself does not show in what is decoded. -/
inductive Slice (α : Type) where
  | nil : Slice α
  | mk (elems : List α) (spare : List α) : Slice α
deriving DecidableEq, Repr

/-- The elements of a slice, `s[0]` to `s[len(s)-1]`. -/
def Slice.elems {α : Type} : Slice α → List α
  | .nil => []
  | .mk elems _ => elems

/-- What the backing array holds past the length of the slice. -/
def Slice.spare {α : Type} : Slice α → List α
  | .nil => []
  | .mk _ spare => spare

structure SystemProperties (Time : Type) (Float64 : Type) where
  Space : GoAny Float64
  Type_ : String
  Id : String
  ContentType : GoAny Float64
  Revision : Int
  CreatedAt : Time
  UpdatedAt : Time

structure Locale where
  Code : String
  Default : Bool
  Name : String
deriving DecidableEq, Repr

structure Space (Time : Type) (Float64 : Type) where
  Sys : SystemProperties Time Float64
  Name : String
  Locales : Slice Locale

structure FieldItemType where
  Type_ : String
deriving DecidableEq, Repr

structure Field where
  Id : String
  Name : String
  Type_ : String
  LinkType : String
  Items : FieldItemType
  Required : Bool
  Localized : Bool
deriving DecidableEq, Repr

structure ContentType (Time : Type) (Float64 : Type) where
  Sys : SystemProperties Time Float64
  Name : String
  Description : String
  Fields : Slice Field

structure ContentTypes (Time : Type) (Float64 : Type) where
  Sys : SystemProperties Time Float64
  Total : Int
  Skip : Int
  Limit : Int
  Items : Slice (ContentType Time Float64)

structure Entry (Time : Type) (Float64 : Type) where
  Sys : SystemProperties Time Float64
  Fields : GoAny Float64

structure Entries (Time : Type) (Float64 : Type) where
  Sys : SystemProperties Time Float64
  Total : Int
  Skip : Int
  Limit : Int
  Items : Slice (Entry Time Float64)

structure File (Float64 : Type) where
  FileName : String
  ContentType : String
  URL : String
  Details : GoAny Float64

/-- The anonymous struct type of `Asset.Fields`. -/
structure AssetFields (Float64 : Type) where
  Title : String
  File : File Float64

structure Asset (Time : Type) (Float64 : Type) where
  Sys : SystemProperties Time Float64
  Fields : AssetFields Float64

structure Assets (Time : Type) (Float64 : Type) where
  Sys : SystemProperties Time Float64
  Total : Int
  Skip : Int
  Limit : Int
  Items : Slice (Asset Time Float64)

section Zero

variable {Time Float64 : Type}

/-! The zero values of the struct types. -/

def SystemProperties.zero (lib : Lib Time Float64) : SystemProperties Time Float64 :=
  SystemProperties.mk .nil "" "" .nil 0 lib.zeroTime lib.zeroTime

def Locale.zero : Locale := Locale.mk "" false ""

def Space.zero (lib : Lib Time Float64) : Space Time Float64 :=
  Space.mk (SystemProperties.zero lib) "" .nil

def FieldItemType.zero : FieldItemType := FieldItemType.mk ""

def Field.zero : Field := Field.mk "" "" "" "" FieldItemType.zero false false

def ContentType.zero (lib : Lib Time Float64) : ContentType Time Float64 :=
  ContentType.mk (SystemProperties.zero lib) "" "" .nil

def ContentTypes.zero (lib : Lib Time Float64) : ContentTypes Time Float64 :=
  ContentTypes.mk (SystemProperties.zero lib) 0 0 0 .nil

def Entry.zero (lib : Lib Time Float64) : Entry Time Float64 :=
  Entry.mk (SystemProperties.zero lib) .nil

def Entries.zero (lib : Lib Time Float64) : Entries Time Float64 :=
  Entries.mk (SystemProperties.zero lib) 0 0 0 .nil

def File.zero : File Float64 := File.mk "" "" "" .nil

def AssetFields.zero : AssetFields Float64 := AssetFields.mk "" File.zero

def Asset.zero (lib : Lib Time Float64) : Asset Time Float64 :=
  Asset.mk (SystemProperties.zero lib) AssetFields.zero

def Assets.zero (lib : Lib Time Float64) : Assets Time Float64 :=
  Assets.mk (SystemProperties.zero lib) 0 0 0 .nil

end Zero

/-! ## Decoding -/

/-- What decoding a JSON value into a Go value comes to: the Go value after
it, the errors handed to `saveError` on the way (decoding goes on after them,
and `json.Unmarshal` returns the first), and the error that stopped the
decoding, if one did (`d.value` returned it). -/
structure Decoded (α : Type) where
  val : α
  saved : List GoError
  stopped : Option GoError

/-- A decoder of JSON values into a Go value of type `α`, from the value there
before. -/
abbrev Decoder (α : Type) := JSON → α → Decoded α

/-- The decoded value is stored in a field of a larger value. -/
def Decoded.store {α β : Type} (r : Decoded α) (f : α → β) : Decoded β :=
  Decoded.mk (f r.val) r.saved r.stopped

/-- The error `json.Unmarshal` returns after decoding: the error that stopped
it, or else the first saved error. -/
def Decoded.result {α : Type} (r : Decoded α) : Option GoError :=
  match r.stopped with
  | some e => some e
  | none => r.saved.head?

/-- The `Value` of an `UnmarshalTypeError` for a JSON value of the wrong kind. -/
def JSON.kind : JSON → String
  | .null => "null"
  | .bool _ => "bool"
  | .number _ => "number"
  | .string _ => "string"
  | .array _ => "array"
  | .object _ => "object"

/-- A JSON value that does not fit the Go type: `null` leaves the Go value as
it is, anything else saves an `UnmarshalTypeError`. -/
def mismatch {α : Type} (goType : String) : Decoder α := fun j v =>
  match j with
  | .null => Decoded.mk v [] none
  | _ => Decoded.mk v [.unmarshalType j.kind goType] none

def decodeString : Decoder String := fun j v =>
  match j with
  | .string raw => Decoded.mk (unquote raw) [] none
  | _ => mismatch "string" j v

def decodeBool : Decoder Bool := fun j v =>
  match j with
  | .bool b => Decoded.mk b [] none
  | _ => mismatch "bool" j v

/-- The text of a literal, `string(item)`. -/
def literalText (raw : Bytes) : String := String.mk (raw.map (fun b => Char.ofNat b.toNat))

def decodeInt64 : Decoder Int := fun j v =>
  match j with
  | .number raw =>
    match ParseInt raw with
    | some n => Decoded.mk n [] none
    | none => Decoded.mk v [.unmarshalType ("number " ++ literalText raw) "int64"] none
  | _ => mismatch "int64" j v

section Decode

variable {Time Float64 : Type}

/-- `(*time.Time).UnmarshalJSON`, which `encoding/json` calls for every JSON
value that goes to a `time.Time`; its error stops the decoding. -/
def decodeTime (lib : Lib Time Float64) : Decoder Time := fun j t =>
  match j with
  | .null => Decoded.mk t [] none
  | .string raw =>
    match lib.parseRFC3339 raw with
    | .ok t1 => Decoded.mk t1 [] none
    | .error cause => Decoded.mk lib.zeroTime [] (some (.unmarshaler cause))
  | _ => Decoded.mk t [] (some (.unmarshaler "Time.UnmarshalJSON: input is not a JSON string"))

/-- `m[key] = x` on a map kept as a list of entries. -/
def mapSet {α : Type} : List (String × α) → String → α → List (String × α)
  | [], key, x => [(key, x)]
  | (k, y) :: m, key, x => if k = key then (k, x) :: m else (k, y) :: mapSet m key x

mutual
/-- The decoder's `valueInterface`: the Go value of a JSON value inside an
`interface{}`, and the errors saved.  A number out of the range of `float64`
becomes `nil` and saves an error. -/
def valueInterface (lib : Lib Time Float64) : JSON → GoAny Float64 × List GoError
  | .null => (.nil, [])
  | .bool b => (.bool b, [])
  | .string raw => (.string (unquote raw), [])
  | .number raw =>
    match lib.ParseFloat raw with
    | some f => (.float64 f, [])
    | none => (.nil, [.unmarshalType ("number " ++ literalText raw) "float64"])
  | .array es =>
    let r := arrayInterface lib es
    (.slice r.1, r.2)
  | .object ms =>
    let r := objectInterface lib ms []
    (.map r.1, r.2)
def arrayInterface (lib : Lib Time Float64) : List JSON → List (GoAny Float64) × List GoError
  | [] => ([], [])
  | e :: es =>
    let r := valueInterface lib e
    let rs := arrayInterface lib es
    (r.1 :: rs.1, r.2 ++ rs.2)
def objectInterface (lib : Lib Time Float64) :
    List (Bytes × JSON) → List (String × GoAny Float64) →
      List (String × GoAny Float64) × List GoError
  | [], m => (m, [])
  | (k, j) :: ms, m =>
    let r := valueInterface lib j
    let rs := objectInterface lib ms (mapSet m (unquote k) r.1)
    (rs.1, r.2 ++ rs.2)
end

/-- A JSON value into an `interface{}` field: the value it held is replaced.
A top-level number out of range leaves it as it was. -/
def decodeAny (lib : Lib Time Float64) : Decoder (GoAny Float64) := fun j v =>
  match j with
  | .number raw =>
    match lib.ParseFloat raw with
    | some f => Decoded.mk (.float64 f) [] none
    | none => Decoded.mk v [.unmarshalType ("number " ++ literalText raw) "float64"] none
  | _ => Decoded.mk (valueInterface lib j).1 (valueInterface lib j).2 none

end Decode

/-- The loop of the decoder's `array` into a slice, over the backing array
from the first element on: element `i` of the JSON array is decoded into slot
`i` of the backing array, a zero value where the array ends (the decoder then
makes a larger array).  The result is the slots decoded and the slots after
them.  An error that stops the decoding leaves the slots after it as they
were. -/
def decodeElems {α : Type} (zero : α) (dec : Decoder α) :
    List JSON → List α → Decoded (List α × List α)
  | [], old => Decoded.mk ([], old) [] none
  | j :: js, old =>
    let r := dec j (old.headD zero)
    match r.stopped with
    | some e => Decoded.mk ([r.val], old.tail) r.saved (some e)
    | none =>
      let rs := decodeElems zero dec js old.tail
      Decoded.mk (r.val :: rs.val.1, rs.val.2) (r.saved ++ rs.saved) rs.stopped

/-- A JSON value into a slice of `α` (the decoder's `array`): the slice ends
with the array, what the slice held after that stays in the backing array, and
the empty array gives a new empty slice; `null` sets the slice to nil.  When
an error stops the decoding the slice keeps the larger of its length and the
number of elements begun. -/
def decodeSlice {α : Type} (goType : String) (zero : α) (dec : Decoder α) :
    Decoder (Slice α) := fun j v =>
  match j with
  | .array es =>
    let r := decodeElems zero dec es (v.elems ++ v.spare)
    match r.stopped with
    | some e =>
      let n := max v.elems.length r.val.1.length
      Decoded.mk (Slice.mk ((r.val.1 ++ r.val.2).take n) ((r.val.1 ++ r.val.2).drop n))
        r.saved (some e)
    | none =>
      match es with
      | [] => Decoded.mk (Slice.mk [] []) r.saved none
      | _ :: _ => Decoded.mk (Slice.mk r.val.1 r.val.2) r.saved none
  | .null => Decoded.mk Slice.nil [] none
  | _ => mismatch goType j v

/-- The loop of the decoder's `object` into a struct: every member goes
through `field`, which gets the unquoted key. -/
def decodeMembers {α : Type} (field : String → Decoder α) :
    List (Bytes × JSON) → α → Decoded α
  | [], v => Decoded.mk v [] none
  | (k, j) :: ms, v =>
    let r := field (unquote k) j v
    match r.stopped with
    | some e => Decoded.mk r.val r.saved (some e)
    | none =>
      let rs := decodeMembers field ms r.val
      Decoded.mk rs.val (r.saved ++ rs.saved) rs.stopped

/-- A JSON value into a struct. -/
def decodeStruct {α : Type} (goType : String) (field : String → Decoder α) : Decoder α :=
  fun j v =>
    match j with
    | .object ms => decodeMembers field ms v
    | _ => mismatch goType j v

section Structs

variable {Time Float64 : Type}

def SystemProperties.names : List String :=
  ["Space", "Type", "Id", "ContentType", "Revision", "CreatedAt", "UpdatedAt"]

def SystemProperties.field (lib : Lib Time Float64) (key : String) :
    Decoder (SystemProperties Time Float64) := fun j v =>
  match fieldIndex SystemProperties.names key with
  | some 0 => (decodeAny lib j v.Space).store (fun x => { v with Space := x })
  | some 1 => (decodeString j v.Type_).store (fun x => { v with Type_ := x })
  | some 2 => (decodeString j v.Id).store (fun x => { v with Id := x })
  | some 3 => (decodeAny lib j v.ContentType).store (fun x => { v with ContentType := x })
  | some 4 => (decodeInt64 j v.Revision).store (fun x => { v with Revision := x })
  | some 5 => (decodeTime lib j v.CreatedAt).store (fun x => { v with CreatedAt := x })
  | some 6 => (decodeTime lib j v.UpdatedAt).store (fun x => { v with UpdatedAt := x })
  | _ => Decoded.mk v [] none

def SystemProperties.decode (lib : Lib Time Float64) : Decoder (SystemProperties Time Float64) :=
  decodeStruct "contentful.SystemProperties" (SystemProperties.field lib)

def Locale.names : List String := ["Code", "Default", "Name"]

def Locale.field (key : String) : Decoder Locale := fun j v =>
  match fieldIndex Locale.names key with
  | some 0 => (decodeString j v.Code).store (fun x => { v with Code := x })
  | some 1 => (decodeBool j v.Default).store (fun x => { v with Default := x })
  | some 2 => (decodeString j v.Name).store (fun x => { v with Name := x })
  | _ => Decoded.mk v [] none

def Locale.decode : Decoder Locale := decodeStruct "contentful.Locale" Locale.field

def Space.names : List String := ["Sys", "Name", "Locales"]

def Space.field (lib : Lib Time Float64) (key : String) : Decoder (Space Time Float64) :=
  fun j v =>
  match fieldIndex Space.names key with
  | some 0 => (SystemProperties.decode lib j v.Sys).store (fun x => { v with Sys := x })
  | some 1 => (decodeString j v.Name).store (fun x => { v with Name := x })
  | some 2 =>
    (decodeSlice "[]contentful.Locale" Locale.zero Locale.decode j v.Locales).store
      (fun x => { v with Locales := x })
  | _ => Decoded.mk v [] none

def Space.decode (lib : Lib Time Float64) : Decoder (Space Time Float64) :=
  decodeStruct "contentful.Space" (Space.field lib)

def FieldItemType.names : List String := ["Type"]

def FieldItemType.field (key : String) : Decoder FieldItemType := fun j v =>
  match fieldIndex FieldItemType.names key with
  | some 0 => (decodeString j v.Type_).store (fun x => { v with Type_ := x })
  | _ => Decoded.mk v [] none

def FieldItemType.decode : Decoder FieldItemType :=
  decodeStruct "contentful.FieldItemType" FieldItemType.field

def Field.names : List String :=
  ["Id", "Name", "Type", "LinkType", "Items", "Required", "Localized"]

def Field.field (key : String) : Decoder Field := fun j v =>
  match fieldIndex Field.names key with
  | some 0 => (decodeString j v.Id).store (fun x => { v with Id := x })
  | some 1 => (decodeString j v.Name).store (fun x => { v with Name := x })
  | some 2 => (decodeString j v.Type_).store (fun x => { v with Type_ := x })
  | some 3 => (decodeString j v.LinkType).store (fun x => { v with LinkType := x })
  | some 4 => (FieldItemType.decode j v.Items).store (fun x => { v with Items := x })
  | some 5 => (decodeBool j v.Required).store (fun x => { v with Required := x })
  | some 6 => (decodeBool j v.Localized).store (fun x => { v with Localized := x })
  | _ => Decoded.mk v [] none

def Field.decode : Decoder Field := decodeStruct "contentful.Field" Field.field

def ContentType.names : List String := ["Sys", "Name", "Description", "Fields"]

def ContentType.field (lib : Lib Time Float64) (key : String) :
    Decoder (ContentType Time Float64) := fun j v =>
  match fieldIndex ContentType.names key with
  | some 0 => (SystemProperties.decode lib j v.Sys).store (fun x => { v with Sys := x })
  | some 1 => (decodeString j v.Name).store (fun x => { v with Name := x })
  | some 2 => (decodeString j v.Description).store (fun x => { v with Description := x })
  | some 3 =>
    (decodeSlice "[]contentful.Field" Field.zero Field.decode j v.Fields).store
      (fun x => { v with Fields := x })
  | _ => Decoded.mk v [] none

def ContentType.decode (lib : Lib Time Float64) : Decoder (ContentType Time Float64) :=
  decodeStruct "contentful.ContentType" (ContentType.field lib)

/-- The field names of the three collection types. -/
def collectionNames : List String := ["Sys", "Total", "Skip", "Limit", "Items"]

def ContentTypes.field (lib : Lib Time Float64) (key : String) :
    Decoder (ContentTypes Time Float64) := fun j v =>
  match fieldIndex collectionNames key with
  | some 0 => (SystemProperties.decode lib j v.Sys).store (fun x => { v with Sys := x })
  | some 1 => (decodeInt64 j v.Total).store (fun x => { v with Total := x })
  | some 2 => (decodeInt64 j v.Skip).store (fun x => { v with Skip := x })
  | some 3 => (decodeInt64 j v.Limit).store (fun x => { v with Limit := x })
  | some 4 =>
    (decodeSlice "[]contentful.ContentType" (ContentType.zero lib) (ContentType.decode lib) j
        v.Items).store
      (fun x => { v with Items := x })
  | _ => Decoded.mk v [] none

def ContentTypes.decode (lib : Lib Time Float64) : Decoder (ContentTypes Time Float64) :=
  decodeStruct "contentful.ContentTypes" (ContentTypes.field lib)

def Entry.names : List String := ["Sys", "Fields"]

def Entry.field (lib : Lib Time Float64) (key : String) : Decoder (Entry Time Float64) :=
  fun j v =>
  match fieldIndex Entry.names key with
  | some 0 => (SystemProperties.decode lib j v.Sys).store (fun x => { v with Sys := x })
  | some 1 => (decodeAny lib j v.Fields).store (fun x => { v with Fields := x })
  | _ => Decoded.mk v [] none

def Entry.decode (lib : Lib Time Float64) : Decoder (Entry Time Float64) :=
  decodeStruct "contentful.Entry" (Entry.field lib)

def Entries.field (lib : Lib Time Float64) (key : String) :
    Decoder (Entries Time Float64) := fun j v =>
  match fieldIndex collectionNames key with
  | some 0 => (SystemProperties.decode lib j v.Sys).store (fun x => { v with Sys := x })
  | some 1 => (decodeInt64 j v.Total).store (fun x => { v with Total := x })
  | some 2 => (decodeInt64 j v.Skip).store (fun x => { v with Skip := x })
  | some 3 => (decodeInt64 j v.Limit).store (fun x => { v with Limit := x })
  | some 4 =>
    (decodeSlice "[]contentful.Entry" (Entry.zero lib) (Entry.decode lib) j v.Items).store
      (fun x => { v with Items := x })
  | _ => Decoded.mk v [] none

def Entries.decode (lib : Lib Time Float64) : Decoder (Entries Time Float64) :=
  decodeStruct "contentful.Entries" (Entries.field lib)

def File.names : List String := ["FileName", "ContentType", "URL", "Details"]

def File.field (lib : Lib Time Float64) (key : String) : Decoder (File Float64) :=
  fun j v =>
  match fieldIndex File.names key with
  | some 0 => (decodeString j v.FileName).store (fun x => { v with FileName := x })
  | some 1 => (decodeString j v.ContentType).store (fun x => { v with ContentType := x })
  | some 2 => (decodeString j v.URL).store (fun x => { v with URL := x })
  | some 3 => (decodeAny lib j v.Details).store (fun x => { v with Details := x })
  | _ => Decoded.mk v [] none

def File.decode (lib : Lib Time Float64) : Decoder (File Float64) :=
  decodeStruct "contentful.File" (File.field lib)

def AssetFields.names : List String := ["Title", "File"]

def AssetFields.field (lib : Lib Time Float64) (key : String) :
    Decoder (AssetFields Float64) := fun j v =>
  match fieldIndex AssetFields.names key with
  | some 0 => (decodeString j v.Title).store (fun x => { v with Title := x })
  | some 1 => (File.decode lib j v.File).store (fun x => { v with File := x })
  | _ => Decoded.mk v [] none

def AssetFields.decode (lib : Lib Time Float64) : Decoder (AssetFields Float64) :=
  decodeStruct "struct { Title string; File contentful.File }" (AssetFields.field lib)

def Asset.names : List String := ["Sys", "Fields"]

def Asset.field (lib : Lib Time Float64) (key : String) : Decoder (Asset Time Float64) :=
  fun j v =>
  match fieldIndex Asset.names key with
  | some 0 => (SystemProperties.decode lib j v.Sys).store (fun x => { v with Sys := x })
  | some 1 => (AssetFields.decode lib j v.Fields).store (fun x => { v with Fields := x })
  | _ => Decoded.mk v [] none

def Asset.decode (lib : Lib Time Float64) : Decoder (Asset Time Float64) :=
  decodeStruct "contentful.Asset" (Asset.field lib)

def Assets.field (lib : Lib Time Float64) (key : String) :
    Decoder (Assets Time Float64) := fun j v =>
  match fieldIndex collectionNames key with
  | some 0 => (SystemProperties.decode lib j v.Sys).store (fun x => { v with Sys := x })
  | some 1 => (decodeInt64 j v.Total).store (fun x => { v with Total := x })
  | some 2 => (decodeInt64 j v.Skip).store (fun x => { v with Skip := x })
  | some 3 => (decodeInt64 j v.Limit).store (fun x => { v with Limit := x })
  | some 4 =>
    (decodeSlice "[]contentful.Asset" (Asset.zero lib) (Asset.decode lib) j v.Items).store
      (fun x => { v with Items := x })
  | _ => Decoded.mk v [] none

def Assets.decode (lib : Lib Time Float64) : Decoder (Assets Time Float64) :=
  decodeStruct "contentful.Assets" (Assets.field lib)

end Structs

/-- A JSON value into a pointer to a struct, as the fetchers have it in
`&resp`: `null` sets the pointer to nil, any other value goes to the struct it
points to, a new zero struct when the pointer is nil. -/
def decodePointer {α : Type} (zero : α) (dec : Decoder α) : Decoder (Option α)
  | .null, _ => Decoded.mk none [] none
  | j, p => (dec j (p.getD zero)).store some

/-- Go's `json.Unmarshal(data, &resp)` for a pointer `resp` to a struct: a text
that is not valid JSON is an error and leaves `resp` alone. -/
def Unmarshal {α : Type} (zero : α) (dec : Decoder α) (data : Bytes) (resp : Option α) :
    Option α × Option GoError :=
  match parseJSON data with
  | none => (resp, some .invalidJSON)
  | some j =>
    let r := decodePointer zero dec j resp
    (r.val, r.result)

/-! ## The fetchers -/

/-- The body shared by the six fetchers: `query`, then `json.Unmarshal` into
the nil `resp` unless `query` failed. -/
def Client.fetch {α : Type} (tr : Transport) (client : Client) (endpoint : String)
    (zero : α) (dec : Decoder α) : Outcome α :=
  let q := client.query tr endpoint []
  match q.err with
  | some e => Outcome.mk none (some e) q.client q.sent
  | none =>
    let r := Unmarshal zero dec (q.resp.getD []) none
    Outcome.mk r.1 r.2 q.client q.sent

section Fetchers

variable {Time Float64 : Type}

def Client.GetSpace (lib : Lib Time Float64) (tr : Transport) (client : Client) :
    Outcome (Contentful.Space Time Float64) :=
  client.fetch tr client.getSpaceURL (Contentful.Space.zero lib) (Contentful.Space.decode lib)

def Client.GetContentTypes (lib : Lib Time Float64) (tr : Transport) (client : Client) :
    Outcome (ContentTypes Time Float64) :=
  client.fetch tr client.getContentTypesURL (ContentTypes.zero lib) (ContentTypes.decode lib)

def Client.GetContentType (lib : Lib Time Float64) (tr : Transport) (client : Client)
    (id : String) : Outcome (ContentType Time Float64) :=
  client.fetch tr (client.getContentTypeURL id) (ContentType.zero lib) (ContentType.decode lib)

def Client.getEntries (lib : Lib Time Float64) (tr : Transport) (client : Client) :
    Outcome (Entries Time Float64) :=
  client.fetch tr client.getEntriesURL (Entries.zero lib) (Entries.decode lib)

def Client.getEntry (lib : Lib Time Float64) (tr : Transport) (client : Client)
    (id : String) : Outcome (Entry Time Float64) :=
  client.fetch tr (client.getEntryURL id) (Entry.zero lib) (Entry.decode lib)

def Client.getAssets (lib : Lib Time Float64) (tr : Transport) (client : Client) :
    Outcome (Assets Time Float64) :=
  client.fetch tr client.getAssetsURL (Assets.zero lib) (Assets.decode lib)

end Fetchers

/-! ## Stand-ins for evaluation -/

/-- A stand-in for the two library conversions, to run the decoder on concrete
bodies: a time is the text of a timestamp `YYYY-MM-DDTHH:MM:SSZ`, a float is the
text of its literal. -/
def textLib : Lib Bytes Bytes where
  zeroTime := ascii "0001-01-01T00:00:00Z"
  parseRFC3339 := fun raw =>
    if raw.length = 20 ∧ raw.getD 4 0 = 45 ∧ raw.getD 7 0 = 45 ∧ raw.getD 10 0 = 84 ∧
        raw.getD 13 0 = 58 ∧ raw.getD 16 0 = 58 ∧ raw.getD 19 0 = 90 then .ok raw
    else .error "parsing time: cannot parse as RFC 3339"
  ParseFloat := fun raw => some raw

/-- A transport that answers every request with `res`. -/
def stub (res : Response) : Transport where
  urlError := fun _ => none
  Do := fun _ => .ok res

/-- A transport that gives every request the one answer: `urlError` from
`http.NewRequest`, `answer` from `Do`. -/
def answering (urlError : Option String) (answer : Except String Response) : Transport where
  urlError := fun _ => urlError
  Do := fun _ => answer

def ok200 (body : Bytes) : Response := Response.mk 200 "200 OK" body none

/-! ## The calls and their endpoints -/

/-- The six calls of the package, with the id where the call takes one. -/
inductive Call where
  | space : Call
  | contentTypes : Call
  | contentType (id : String) : Call
  | entries : Call
  | entry (id : String) : Call
  | assets : Call
deriving DecidableEq, Repr

/-- The endpoint a call requests: the URL of the fetcher's builder. -/
def Call.url (client : Client) : Call → String
  | .space => client.getSpaceURL
  | .contentTypes => client.getContentTypesURL
  | .contentType id => client.getContentTypeURL id
  | .entries => client.getEntriesURL
  | .entry id => client.getEntryURL id
  | .assets => client.getAssetsURL

/-- The path a call adds to the URL of the space. -/
def Call.path : Call → List Char
  | .space => []
  | .contentTypes => "/content_types".data
  | .contentType id => "/content_types/".data ++ id.data
  | .entries => "/entries".data
  | .entry id => "/entries/".data ++ id.data
  | .assets => "/assets".data


/-! ## The outcomes of a fetcher -/

/-- The outcome `o` of a fetcher on the endpoint `url`, by what the transport
does with the request.  The endpoint does not parse, `Do` fails, the status is
not 200, or the body cannot be read to its end: no value, and the error of
that step.  The body is not JSON: no value, and the syntax error.  The body
is `null`: no value and no error.  The body is another JSON value: the value
the decoder makes of it in a new zero struct, next to the decoder's error,
which is nil when the decoder rejected nothing. -/
def Settled {α : Type} (tr : Transport) (c : Client) (url : String) (zero : α)
    (dec : Decoder α) (o : Outcome α) : Prop :=
  (∀ cause, tr.urlError url = some cause →
    o.resp = none ∧ o.err = some (.newRequest cause)) ∧
  (tr.urlError url = none →
    (∀ cause, tr.Do (c.request url) = .error cause →
      o.resp = none ∧ o.err = some (.send cause)) ∧
    (∀ res, tr.Do (c.request url) = .ok res →
      (res.StatusCode ≠ 200 → o.resp = none ∧ o.err = some (.status res.Status)) ∧
      (res.StatusCode = 200 →
        (∀ cause, res.readErr = some cause →
          o.resp = none ∧ o.err = some (.readBody cause)) ∧
        (res.readErr = none →
          (parseJSON res.Body = none → o.resp = none ∧ o.err = some .invalidJSON) ∧
          (parseJSON res.Body = some .null → o.resp = none ∧ o.err = none) ∧
          (∀ j, parseJSON res.Body = some j → j ≠ .null →
            o.resp = some (dec j zero).val ∧ o.err = (dec j zero).result)))))

/-! ## Objects with further members -/

/-- The list `ms1` is `ms` with further members put in, anywhere, whose keys
go to no field among `names`. -/
inductive Extended (names : List String) :
    List (Bytes × JSON) → List (Bytes × JSON) → Prop where
  | nil : Extended names [] []
  | keep (m : Bytes × JSON) {ms ms1 : List (Bytes × JSON)} :
      Extended names ms ms1 → Extended names (m :: ms) (m :: ms1)
  | extra (k : Bytes) (j : JSON) {ms ms1 : List (Bytes × JSON)} :
      fieldIndex names (unquote k) = none → Extended names ms ms1 →
      Extended names ms ((k, j) :: ms1)

/-! ## Objects with members left out -/

/-- The members of an object without those that go to a field whose index is
in `K`. -/
def leaveOut (names : List String) (K : Nat → Bool) (ms : List (Bytes × JSON)) :
    List (Bytes × JSON) :=
  ms.filter (fun m =>
    match fieldIndex names (unquote m.1) with
    | some n => !K n
    | none => true)

section Agree

variable {Time Float64 : Type}

/-! Two structs agree on the fields whose index (the place of the field in
the struct declaration, from 0) is in `S`. -/

def SystemProperties.agree (S : Nat → Bool) (v w : SystemProperties Time Float64) : Prop :=
  (S 0 = true → v.Space = w.Space) ∧ (S 1 = true → v.Type_ = w.Type_) ∧
  (S 2 = true → v.Id = w.Id) ∧ (S 3 = true → v.ContentType = w.ContentType) ∧
  (S 4 = true → v.Revision = w.Revision) ∧ (S 5 = true → v.CreatedAt = w.CreatedAt) ∧
  (S 6 = true → v.UpdatedAt = w.UpdatedAt)

def Locale.agree (S : Nat → Bool) (v w : Locale) : Prop :=
  (S 0 = true → v.Code = w.Code) ∧ (S 1 = true → v.Default = w.Default) ∧
  (S 2 = true → v.Name = w.Name)

def Space.agree (S : Nat → Bool) (v w : Contentful.Space Time Float64) : Prop :=
  (S 0 = true → v.Sys = w.Sys) ∧ (S 1 = true → v.Name = w.Name) ∧
  (S 2 = true → v.Locales = w.Locales)

def FieldItemType.agree (S : Nat → Bool) (v w : FieldItemType) : Prop :=
  (S 0 = true → v.Type_ = w.Type_)

def Field.agree (S : Nat → Bool) (v w : Field) : Prop :=
  (S 0 = true → v.Id = w.Id) ∧ (S 1 = true → v.Name = w.Name) ∧
  (S 2 = true → v.Type_ = w.Type_) ∧ (S 3 = true → v.LinkType = w.LinkType) ∧
  (S 4 = true → v.Items = w.Items) ∧ (S 5 = true → v.Required = w.Required) ∧
  (S 6 = true → v.Localized = w.Localized)

def ContentType.agree (S : Nat → Bool) (v w : ContentType Time Float64) : Prop :=
  (S 0 = true → v.Sys = w.Sys) ∧ (S 1 = true → v.Name = w.Name) ∧
  (S 2 = true → v.Description = w.Description) ∧ (S 3 = true → v.Fields = w.Fields)

def ContentTypes.agree (S : Nat → Bool) (v w : ContentTypes Time Float64) : Prop :=
  (S 0 = true → v.Sys = w.Sys) ∧ (S 1 = true → v.Total = w.Total) ∧
  (S 2 = true → v.Skip = w.Skip) ∧ (S 3 = true → v.Limit = w.Limit) ∧
  (S 4 = true → v.Items = w.Items)

def Entry.agree (S : Nat → Bool) (v w : Entry Time Float64) : Prop :=
  (S 0 = true → v.Sys = w.Sys) ∧ (S 1 = true → v.Fields = w.Fields)

def Entries.agree (S : Nat → Bool) (v w : Entries Time Float64) : Prop :=
  (S 0 = true → v.Sys = w.Sys) ∧ (S 1 = true → v.Total = w.Total) ∧
  (S 2 = true → v.Skip = w.Skip) ∧ (S 3 = true → v.Limit = w.Limit) ∧
  (S 4 = true → v.Items = w.Items)

def File.agree (S : Nat → Bool) (v w : File Float64) : Prop :=
  (S 0 = true → v.FileName = w.FileName) ∧ (S 1 = true → v.ContentType = w.ContentType) ∧
  (S 2 = true → v.URL = w.URL) ∧ (S 3 = true → v.Details = w.Details)

def AssetFields.agree (S : Nat → Bool) (v w : AssetFields Float64) : Prop :=
  (S 0 = true → v.Title = w.Title) ∧ (S 1 = true → v.File = w.File)

def Asset.agree (S : Nat → Bool) (v w : Asset Time Float64) : Prop :=
  (S 0 = true → v.Sys = w.Sys) ∧ (S 1 = true → v.Fields = w.Fields)

def Assets.agree (S : Nat → Bool) (v w : Assets Time Float64) : Prop :=
  (S 0 = true → v.Sys = w.Sys) ∧ (S 1 = true → v.Total = w.Total) ∧
  (S 2 = true → v.Skip = w.Skip) ∧ (S 3 = true → v.Limit = w.Limit) ∧
  (S 4 = true → v.Items = w.Items)

end Agree

/-- What the field function of a struct has to do for `agree`: a key that goes
to no field changes nothing, a key that goes to field `n` changes field `n`
only, and what it does there comes from the JSON value and field `n` alone. -/
structure FieldWise {α : Type} (names : List String) (field : String → Decoder α)
    (agree : (Nat → Bool) → α → α → Prop) : Prop where
  refl : ∀ S v, agree S v v
  symm : ∀ S v w, agree S v w → agree S w v
  trans : ∀ S u v w, agree S u v → agree S v w → agree S u w
  unknown : ∀ key j v, fieldIndex names key = none → field key j v = Decoded.mk v [] none
  only : ∀ key n j v S, fieldIndex names key = some n → S n = false →
    agree S (field key j v).val v
  congr : ∀ key n j v w S, fieldIndex names key = some n → S n = true → agree S v w →
    (field key j v).saved = (field key j w).saved ∧
    (field key j v).stopped = (field key j w).stopped ∧
    agree S (field key j v).val (field key j w).val

/-! ## Integer literals -/

def digitByte (d : Nat) : UInt8 := UInt8.ofNat (48 + d)

/-- The decimal digits of `n` before `acc`; `fuel` is more than `n`. -/
def natDigits : Nat → Nat → Bytes → Bytes
  | 0, _, acc => acc
  | fuel + 1, n, acc =>
    if n < 10 then digitByte n :: acc
    else natDigits fuel (n / 10) (digitByte (n % 10) :: acc)

def formatNat (n : Nat) : Bytes := natDigits (n + 1) n []

/-- The JSON number literal of an integer. -/
def formatInt (i : Int) : Bytes :=
  if i < 0 then 45 :: formatNat i.natAbs else formatNat i.natAbs

/-! ## JSON texts of JSON values -/

mutual
/-- The compact JSON text of a value. -/
def JSON.render : JSON → Bytes
  | .null => [110, 117, 108, 108]
  | .bool true => [116, 114, 117, 101]
  | .bool false => [102, 97, 108, 115, 101]
  | .number raw => raw
  | .string raw => 34 :: (raw ++ [34])
  | .array [] => [91, 93]
  | .array (e :: es) => 91 :: (JSON.render e ++ JSON.renderTail es)
  | .object [] => [123, 125]
  | .object ((k, v) :: ms) =>
    123 :: 34 :: (k ++ 34 :: 58 :: (JSON.render v ++ JSON.renderMembersTail ms))
/-- The text of an array after an element. -/
def JSON.renderTail : List JSON → Bytes
  | [] => [93]
  | e :: es => 44 :: (JSON.render e ++ JSON.renderTail es)
/-- The text of an object after a member. -/
def JSON.renderMembersTail : List (Bytes × JSON) → Bytes
  | [] => [125]
  | (k, v) :: ms =>
    44 :: 34 :: (k ++ 34 :: 58 :: (JSON.render v ++ JSON.renderMembersTail ms))
end

mutual
/-- The number of arrays and objects around the innermost value. -/
def JSON.depth : JSON → Nat
  | .array es => 1 + JSON.depthElems es
  | .object ms => 1 + JSON.depthMembers ms
  | _ => 0
def JSON.depthElems : List JSON → Nat
  | [] => 0
  | e :: es => max (JSON.depth e) (JSON.depthElems es)
def JSON.depthMembers : List (Bytes × JSON) → Nat
  | [] => 0
  | (_, v) :: ms => max (JSON.depth v) (JSON.depthMembers ms)
end

/-- The states of a string literal between its quotes. -/
def stringNext : Step → UInt8 → Option Step
  | .inString, c =>
    if c.toNat = 34 then none
    else if c.toNat = 92 then some .inStringEsc
    else if c.toNat < 32 then none
    else some .inString
  | .inStringEsc, c =>
    if c.toNat = 98 || c.toNat = 102 || c.toNat = 110 || c.toNat = 114 || c.toNat = 116 ||
        c.toNat = 92 || c.toNat = 47 || c.toNat = 34 then some .inString
    else if c.toNat = 117 then some .inStringEscU
    else none
  | .inStringEscU, c => if isHex c then some .inStringEscU1 else none
  | .inStringEscU1, c => if isHex c then some .inStringEscU12 else none
  | .inStringEscU12, c => if isHex c then some .inStringEscU123 else none
  | .inStringEscU123, c => if isHex c then some .inString else none
  | _, _ => none

/-- The bytes are what stands between the quotes of a JSON string literal. -/
def isStringBody : Step → Bytes → Bool
  | st, [] => st = .inString
  | st, c :: cs =>
    match stringNext st c with
    | some st1 => isStringBody st1 cs
    | none => false

/-- The states of a number literal. -/
def numberNext : Step → UInt8 → Option Step
  | .beginValue, c =>
    if c.toNat = 45 then some .neg
    else if c.toNat = 48 then some .num0
    else if 49 ≤ c.toNat && c.toNat ≤ 57 then some .num1
    else none
  | .neg, c =>
    if c.toNat = 48 then some .num0
    else if 49 ≤ c.toNat && c.toNat ≤ 57 then some .num1
    else none
  | .num1, c =>
    if isDigit c then some .num1
    else if c.toNat = 46 then some .dot
    else if c.toNat = 101 || c.toNat = 69 then some .e
    else none
  | .num0, c =>
    if c.toNat = 46 then some .dot
    else if c.toNat = 101 || c.toNat = 69 then some .e
    else none
  | .dot, c => if isDigit c then some .dot0 else none
  | .dot0, c =>
    if isDigit c then some .dot0
    else if c.toNat = 101 || c.toNat = 69 then some .e
    else none
  | .e, c =>
    if c.toNat = 43 || c.toNat = 45 then some .eSign
    else if isDigit c then some .e0
    else none
  | .eSign, c => if isDigit c then some .e0 else none
  | .e0, c => if isDigit c then some .e0 else none
  | _, _ => none

/-- The states a number literal may end in. -/
def numberFinal : Step → Bool
  | .num0 => true
  | .num1 => true
  | .dot0 => true
  | .e0 => true
  | _ => false

/-- The bytes are a JSON number literal. -/
def isNumberLit : Step → Bytes → Bool
  | st, [] => numberFinal st
  | st, c :: cs =>
    match numberNext st c with
    | some st1 => isNumberLit st1 cs
    | none => false

mutual
/-- The literals of the value are JSON literals. -/
def JSON.wellFormed : JSON → Bool
  | .null => true
  | .bool _ => true
  | .number raw => isNumberLit .beginValue raw
  | .string raw => isStringBody .inString raw
  | .array es => JSON.wellFormedElems es
  | .object ms => JSON.wellFormedMembers ms
def JSON.wellFormedElems : List JSON → Bool
  | [] => true
  | e :: es => JSON.wellFormed e && JSON.wellFormedElems es
def JSON.wellFormedMembers : List (Bytes × JSON) → Bool
  | [] => true
  | (k, v) :: ms => isStringBody .inString k && JSON.wellFormed v && JSON.wellFormedMembers ms
end

/-- A byte that may follow a value: comma, closing bracket or brace, space. -/
def isDelim (d : UInt8) : Bool :=
  d.toNat = 44 || d.toNat = 93 || d.toNat = 125 || d.toNat = 32

/-- The scanner is where a value begins, not where an object key does. -/
def ValueStart (s : Scanner) : Prop :=
  (s.step = .beginValue ∨ s.step = .beginValueOrEmpty) ∧
  ∀ ms k ps, s.parseState ≠ .parseObjectKey ms k :: ps

/-! ## What a string literal spells -/

/-- The UTF-8 encoding of a code point (RFC 3629). -/
def utf8 (n : Nat) : Bytes :=
  if n < 0x80 then [UInt8.ofNat n]
  else if n < 0x800 then [UInt8.ofNat (0xC0 + n / 64), UInt8.ofNat (0x80 + n % 64)]
  else if n < 0x10000 then
    [UInt8.ofNat (0xE0 + n / 4096), UInt8.ofNat (0x80 + n / 64 % 64),
      UInt8.ofNat (0x80 + n % 64)]
  else
    [UInt8.ofNat (0xF0 + n / 262144), UInt8.ofNat (0x80 + n / 4096 % 64),
      UInt8.ofNat (0x80 + n / 64 % 64), UInt8.ofNat (0x80 + n % 64)]

/-- What follows the bytes `p` at the head of `b`, when `b` starts with them. -/
def after : Bytes → Bytes → Option Bytes
  | [], b => some b
  | _ :: _, [] => none
  | x :: p, y :: b => if x.toNat = y.toNat then after p b else none

/-- The letter of the two-character escape of a code point that has one
(RFC 8259, section 7). -/
def shortEscape (n : Nat) : Option Nat :=
  if n = 34 then some 34
  else if n = 92 then some 92
  else if n = 47 then some 47
  else if n = 8 then some 98
  else if n = 12 then some 102
  else if n = 10 then some 110
  else if n = 13 then some 114
  else if n = 9 then some 116
  else none

/-- The byte `b` is the hexadecimal digit of `d`, in either case. -/
def isHexOf (d : Nat) (b : UInt8) : Bool :=
  if d < 10 then b.toNat = 48 + d else b.toNat = 87 + d || b.toNat = 55 + d

/-- What follows the escape `\uXXXX` of the code unit `n` at the head of `b`. -/
def afterUnit (n : Nat) : Bytes → Option Bytes
  | b0 :: b1 :: h1 :: h2 :: h3 :: h4 :: rest =>
    if b0.toNat = 92 ∧ b1.toNat = 117 ∧ isHexOf (n / 4096) h1 = true ∧
        isHexOf (n / 256 % 16) h2 = true ∧ isHexOf (n / 16 % 16) h3 = true ∧
        isHexOf (n % 16) h4 = true then some rest
    else none
  | _ => none

/-- What follows the character of code point `n` written as itself, in UTF-8:
every character but the quote, the backslash and the control characters may
be. -/
def afterPlain (n : Nat) (b : Bytes) : Option Bytes :=
  if 32 ≤ n ∧ n ≠ 34 ∧ n ≠ 92 then after (utf8 n) b else none

/-- What follows the two-character escape of the code point `n`. -/
def afterShort (n : Nat) (b : Bytes) : Option Bytes :=
  match shortEscape n with
  | some e => after [92, UInt8.ofNat e] b
  | none => none

/-- What follows the `\u` escape of the code point `n`: one code unit in the
basic plane, a surrogate pair beyond it. -/
def afterHex (n : Nat) (b : Bytes) : Option Bytes :=
  if n < 65536 then afterUnit n b
  else
    match afterUnit (55296 + (n - 65536) / 1024) b with
    | some rest => afterUnit (56320 + (n - 65536) % 1024) rest
    | none => none

/-- What follows one spelling of the character `c` at the head of `b`: the
character itself, its two-character escape or its `\u` escape. -/
def spelled (c : Char) (b : Bytes) : Option Bytes :=
  match afterPlain c.toNat b with
  | some rest => some rest
  | none =>
    match afterShort c.toNat b with
    | some rest => some rest
    | none => afterHex c.toNat b

/-- The bytes `b` between the quotes of a string literal spell the characters
`cs`, each in one of its spellings. -/
def spells : List Char → Bytes → Bool
  | [], b => b.isEmpty
  | c :: cs, b =>
    match spelled c b with
    | some rest => spells cs rest
    | none => false

/-! ## What a JSON value renders -/

/-- The value fits an `int64`. -/
def inInt64 (i : Int) : Prop := -(2 ^ 63) ≤ i ∧ i < 2 ^ 63

/-- The JSON value is a string literal that spells `s`. -/
def rendersString (j : JSON) (s : String) : Prop :=
  match j with
  | .string raw => spells s.data raw = true
  | _ => False

def rendersBool (j : JSON) (b : Bool) : Prop := j = .bool b

/-- The JSON value is the decimal literal of the `int64` value `i`. -/
def rendersInt (j : JSON) (i : Int) : Prop := j = .number (formatInt i) ∧ inInt64 i

section Renders

variable {Time Float64 : Type}

/-- The JSON value is a string with the RFC 3339 text of the time `t`, as the
library reads it. -/
def rendersTime (lib : Lib Time Float64) (j : JSON) (t : Time) : Prop :=
  match j with
  | .string raw => lib.parseRFC3339 raw = .ok t
  | _ => False

mutual
/-- The JSON value renders the Go value of an `interface{}`: `null` is nil, a
number literal is the `float64` the library reads it as, a string literal
spells the string, an array renders the elements of a `[]interface{}` in
order, and an object renders a `map[string]interface{}`, each key once. -/
def GoAny.renders (lib : Lib Time Float64) : JSON → GoAny Float64 → Prop
  | j, .nil => j = .null
  | j, .bool b => j = .bool b
  | j, .float64 f =>
    match j with
    | .number raw => lib.ParseFloat raw = some f
    | _ => False
  | j, .string s => rendersString j s
  | j, .slice xs =>
    match j with
    | .array js => GoAny.rendersElems lib js xs
    | _ => False
  | j, .map kvs =>
    match j with
    | .object ms => (kvs.map Prod.fst).Nodup ∧ GoAny.rendersEntries lib ms kvs
    | _ => False
def GoAny.rendersElems (lib : Lib Time Float64) : List JSON → List (GoAny Float64) → Prop
  | js, [] => js = []
  | js, x :: xs =>
    match js with
    | j :: js1 => GoAny.renders lib j x ∧ GoAny.rendersElems lib js1 xs
    | [] => False
def GoAny.rendersEntries (lib : Lib Time Float64) :
    List (Bytes × JSON) → List (String × GoAny Float64) → Prop
  | ms, [] => ms = []
  | ms, (key, x) :: kvs =>
    match ms with
    | (k, j) :: ms1 =>
      spells key.data k = true ∧ GoAny.renders lib j x ∧ GoAny.rendersEntries lib ms1 kvs
    | [] => False
end

end Renders

/-- The JSON value is an array that renders the elements of the slice in
order; the slice is a new one, with nothing behind its length. -/
def rendersSlice {α : Type} (renders : JSON → α → Prop) (j : JSON) (s : Slice α) : Prop :=
  match j, s with
  | .array js, .mk xs [] => List.Forall₂ renders js xs
  | _, _ => False

/-- The values of the members of an object whose key spells `key`. -/
def pick (key : String) (ms : List (Bytes × JSON)) : List JSON :=
  (ms.filter (fun m => spells key.data m.1)).map Prod.snd

/-- A field of a struct, in an object that has the values `js` under the
field's key: the key is there once and its value renders the field, or the key
is not there and the field has its zero value. -/
def fieldIs {β : Type} (renders : JSON → β → Prop) (zero : β) (js : List JSON) (x : β) :
    Prop :=
  match js with
  | [] => x = zero
  | [j] => renders j x
  | _ => False

/-- Every member of the object has one of the keys `keys`, or a key that the
decoder matches with no field of the struct. -/
def known (keys : List String) (names : List String) (ms : List (Bytes × JSON)) : Bool :=
  ms.all (fun m =>
    keys.any (fun key => spells key.data m.1) || (fieldIndex names (unquote m.1)).isNone)

/-- A field on the way: with the values `js` still to come under its key, the
field holds `x0` and will hold `x`. -/
def pending {β : Type} (renders : JSON → β → Prop) (zero : β) (js : List JSON) (x0 x : β) :
    Prop :=
  match js with
  | [] => x0 = x
  | [j] => x0 = zero ∧ renders j x
  | _ => False

section RendersStructs

variable {Time Float64 : Type}

/-! The JSON values that render the structs in the API's shape: an object with
the fields under their keys in lower camel case, in any order and each in any
spelling; a field whose key is not there has its zero value; members with
other keys may be there when the decoder matches them with no field. -/

def SystemProperties.keys : List String :=
  ["space", "type", "id", "contentType", "revision", "createdAt", "updatedAt"]

def SystemProperties.renders (lib : Lib Time Float64) (j : JSON)
    (v : SystemProperties Time Float64) : Prop :=
  match j with
  | .object ms =>
    known SystemProperties.keys SystemProperties.names ms = true ∧
    fieldIs (GoAny.renders lib) GoAny.nil (pick "space" ms) v.Space ∧
    fieldIs rendersString "" (pick "type" ms) v.Type_ ∧
    fieldIs rendersString "" (pick "id" ms) v.Id ∧
    fieldIs (GoAny.renders lib) GoAny.nil (pick "contentType" ms) v.ContentType ∧
    fieldIs rendersInt 0 (pick "revision" ms) v.Revision ∧
    fieldIs (rendersTime lib) lib.zeroTime (pick "createdAt" ms) v.CreatedAt ∧
    fieldIs (rendersTime lib) lib.zeroTime (pick "updatedAt" ms) v.UpdatedAt
  | _ => False

def Locale.keys : List String := ["code", "default", "name"]

def Locale.renders (j : JSON) (v : Locale) : Prop :=
  match j with
  | .object ms =>
    known Locale.keys Locale.names ms = true ∧
    fieldIs rendersString "" (pick "code" ms) v.Code ∧
    fieldIs rendersBool false (pick "default" ms) v.Default ∧
    fieldIs rendersString "" (pick "name" ms) v.Name
  | _ => False

def Space.keys : List String := ["sys", "name", "locales"]

def Space.renders (lib : Lib Time Float64) (j : JSON) (v : Contentful.Space Time Float64) : Prop :=
  match j with
  | .object ms =>
    known Space.keys Space.names ms = true ∧
    fieldIs (SystemProperties.renders lib) (SystemProperties.zero lib) (pick "sys" ms) v.Sys ∧
    fieldIs rendersString "" (pick "name" ms) v.Name ∧
    fieldIs (rendersSlice Locale.renders) Slice.nil (pick "locales" ms) v.Locales
  | _ => False

def FieldItemType.keys : List String := ["type"]

def FieldItemType.renders (j : JSON) (v : FieldItemType) : Prop :=
  match j with
  | .object ms =>
    known FieldItemType.keys FieldItemType.names ms = true ∧
    fieldIs rendersString "" (pick "type" ms) v.Type_
  | _ => False

def Field.keys : List String := ["id", "name", "type", "linkType", "items", "required", "localized"]

def Field.renders (j : JSON) (v : Field) : Prop :=
  match j with
  | .object ms =>
    known Field.keys Field.names ms = true ∧
    fieldIs rendersString "" (pick "id" ms) v.Id ∧
    fieldIs rendersString "" (pick "name" ms) v.Name ∧
    fieldIs rendersString "" (pick "type" ms) v.Type_ ∧
    fieldIs rendersString "" (pick "linkType" ms) v.LinkType ∧
    fieldIs FieldItemType.renders FieldItemType.zero (pick "items" ms) v.Items ∧
    fieldIs rendersBool false (pick "required" ms) v.Required ∧
    fieldIs rendersBool false (pick "localized" ms) v.Localized
  | _ => False

def ContentType.keys : List String := ["sys", "name", "description", "fields"]

def ContentType.renders (lib : Lib Time Float64) (j : JSON) (v : ContentType Time Float64) : Prop :=
  match j with
  | .object ms =>
    known ContentType.keys ContentType.names ms = true ∧
    fieldIs (SystemProperties.renders lib) (SystemProperties.zero lib) (pick "sys" ms) v.Sys ∧
    fieldIs rendersString "" (pick "name" ms) v.Name ∧
    fieldIs rendersString "" (pick "description" ms) v.Description ∧
    fieldIs (rendersSlice Field.renders) Slice.nil (pick "fields" ms) v.Fields
  | _ => False

def ContentTypes.keys : List String := ["sys", "total", "skip", "limit", "items"]

def ContentTypes.renders (lib : Lib Time Float64) (j : JSON)
    (v : ContentTypes Time Float64) : Prop :=
  match j with
  | .object ms =>
    known ContentTypes.keys collectionNames ms = true ∧
    fieldIs (SystemProperties.renders lib) (SystemProperties.zero lib) (pick "sys" ms) v.Sys ∧
    fieldIs rendersInt 0 (pick "total" ms) v.Total ∧
    fieldIs rendersInt 0 (pick "skip" ms) v.Skip ∧
    fieldIs rendersInt 0 (pick "limit" ms) v.Limit ∧
    fieldIs (rendersSlice (ContentType.renders lib)) Slice.nil (pick "items" ms) v.Items
  | _ => False

def Entry.keys : List String := ["sys", "fields"]

def Entry.renders (lib : Lib Time Float64) (j : JSON) (v : Entry Time Float64) : Prop :=
  match j with
  | .object ms =>
    known Entry.keys Entry.names ms = true ∧
    fieldIs (SystemProperties.renders lib) (SystemProperties.zero lib) (pick "sys" ms) v.Sys ∧
    fieldIs (GoAny.renders lib) GoAny.nil (pick "fields" ms) v.Fields
  | _ => False

def Entries.keys : List String := ["sys", "total", "skip", "limit", "items"]

def Entries.renders (lib : Lib Time Float64) (j : JSON) (v : Entries Time Float64) : Prop :=
  match j with
  | .object ms =>
    known Entries.keys collectionNames ms = true ∧
    fieldIs (SystemProperties.renders lib) (SystemProperties.zero lib) (pick "sys" ms) v.Sys ∧
    fieldIs rendersInt 0 (pick "total" ms) v.Total ∧
    fieldIs rendersInt 0 (pick "skip" ms) v.Skip ∧
    fieldIs rendersInt 0 (pick "limit" ms) v.Limit ∧
    fieldIs (rendersSlice (Entry.renders lib)) Slice.nil (pick "items" ms) v.Items
  | _ => False

def File.keys : List String := ["fileName", "contentType", "url", "details"]

def File.renders (lib : Lib Time Float64) (j : JSON) (v : File Float64) : Prop :=
  match j with
  | .object ms =>
    known File.keys File.names ms = true ∧
    fieldIs rendersString "" (pick "fileName" ms) v.FileName ∧
    fieldIs rendersString "" (pick "contentType" ms) v.ContentType ∧
    fieldIs rendersString "" (pick "url" ms) v.URL ∧
    fieldIs (GoAny.renders lib) GoAny.nil (pick "details" ms) v.Details
  | _ => False

def AssetFields.keys : List String := ["title", "file"]

def AssetFields.renders (lib : Lib Time Float64) (j : JSON) (v : AssetFields Float64) : Prop :=
  match j with
  | .object ms =>
    known AssetFields.keys AssetFields.names ms = true ∧
    fieldIs rendersString "" (pick "title" ms) v.Title ∧
    fieldIs (File.renders lib) File.zero (pick "file" ms) v.File
  | _ => False

def Asset.keys : List String := ["sys", "fields"]

def Asset.renders (lib : Lib Time Float64) (j : JSON) (v : Asset Time Float64) : Prop :=
  match j with
  | .object ms =>
    known Asset.keys Asset.names ms = true ∧
    fieldIs (SystemProperties.renders lib) (SystemProperties.zero lib) (pick "sys" ms) v.Sys ∧
    fieldIs (AssetFields.renders lib) AssetFields.zero (pick "fields" ms) v.Fields
  | _ => False

def Assets.keys : List String := ["sys", "total", "skip", "limit", "items"]

def Assets.renders (lib : Lib Time Float64) (j : JSON) (v : Assets Time Float64) : Prop :=
  match j with
  | .object ms =>
    known Assets.keys collectionNames ms = true ∧
    fieldIs (SystemProperties.renders lib) (SystemProperties.zero lib) (pick "sys" ms) v.Sys ∧
    fieldIs rendersInt 0 (pick "total" ms) v.Total ∧
    fieldIs rendersInt 0 (pick "skip" ms) v.Skip ∧
    fieldIs rendersInt 0 (pick "limit" ms) v.Limit ∧
    fieldIs (rendersSlice (Asset.renders lib)) Slice.nil (pick "items" ms) v.Items
  | _ => False

end RendersStructs

/-! ## The claims about bodies -/

/-- The transport answers the request of `c` for `url` with the response
`res`, which has the status 200 and a body that is read to its end. -/
def Answers (tr : Transport) (c : Client) (url : String) (res : Response) : Prop :=
  tr.urlError url = none ∧ tr.Do (c.request url) = .ok res ∧ res.StatusCode = 200 ∧
    res.readErr = none

/-- The fetcher gives back what the body renders: when the transport answers
with a body that is a text of the JSON value `j` (the scanner reads the body as
`j`; the compact text of `j` is such a body), and `j` renders `v`, the fetcher
returns `v` and no error. -/
def RoundTrip {α : Type} (renders : JSON → α → Prop) (fetch : Transport → Outcome α)
    (c : Client) (url : String) : Prop :=
  ∀ (tr : Transport) (res : Response) (j : JSON) (v : α),
    Answers tr c url res → renders j v →
    (parseJSON res.Body = some j ∨
      (res.Body = j.render ∧ j.wellFormed = true ∧ j.depth ≤ maxNestingDepth)) →
    fetch tr = Outcome.mk (some v) none c [c.request url]

/-- Leaving members out of a JSON object that goes to a new struct: the object
of the members `ms` without the members of the fields in `K` gives a value
that has the zero value in the fields in `K`; and when the object of `ms`
renders `w`, it is decoded without an error and the value has the values of `w`
in the other fields. -/
def StructMissingZero {α : Type} (renders : JSON → α → Prop) (names : List String)
    (field : String → Decoder α) (zero : α) (agree : (Nat → Bool) → α → α → Prop) : Prop :=
  ∀ (K : Nat → Bool) (ms : List (Bytes × JSON)),
    agree K (decodeMembers field (leaveOut names K ms) zero).val zero ∧
    ∀ w, renders (.object ms) w →
      (decodeMembers field (leaveOut names K ms) zero).result = none ∧
      agree (fun n => !K n) (decodeMembers field (leaveOut names K ms) zero).val w

/-- Leaving members out of a JSON object body: when the transport answers with
a body that is the object of the members `ms` without the members of the
fields in `K`, the fetcher returns a value that has the zero value in the
fields in `K`; and when the object of `ms` renders `w`, the fetcher returns no
error and the value has the values of `w` in the other fields. -/
def MissingZero {α : Type} (renders : JSON → α → Prop) (fetch : Transport → Outcome α)
    (c : Client) (url : String) (names : List String) (zero : α)
    (agree : (Nat → Bool) → α → α → Prop) : Prop :=
  ∀ (tr : Transport) (res : Response) (K : Nat → Bool) (ms : List (Bytes × JSON)),
    Answers tr c url res →
    parseJSON res.Body = some (.object (leaveOut names K ms)) →
    ∃ v, (fetch tr).resp = some v ∧ agree K v zero ∧
      ∀ w, renders (.object ms) w →
        fetch tr = Outcome.mk (some v) none c [c.request url] ∧
        agree (fun n => !K n) v w

/-- The fetcher on the body `{}`: the zero struct and no error. -/
def EmptyZero {α : Type} (fetch : Transport → Outcome α) (c : Client) (url : String)
    (zero : α) : Prop :=
  ∀ (tr : Transport) (res : Response), Answers tr c url res →
    res.Body = ascii "\x7b\x7d" →
    fetch tr = Outcome.mk (some zero) none c [c.request url]

/-! ## Fixtures -/

/-- The client of the example at the end of the package's source. -/
def exampleClient : Client := New "b4c0n73n7fu1" "cfexampleapi"

def notFound : Response :=
  Response.mk 404 "404 Not Found"
    (ascii "\x7b\"sys\":\x7b\"type\":\"Error\",\"id\":\"NotFound\"\x7d\x7d") none

/-- The members of a small `Entry` object. -/
def catMembers : List (Bytes × JSON) :=
  [(ascii "sys", .object [(ascii "id", .string (ascii "nyancat"))]),
    (ascii "fields", .object [(ascii "name", .string (ascii "Nyan Cat"))])]

def catBody : Bytes :=
  ascii "\x7b\"sys\":\x7b\"id\":\"nyancat\"\x7d,\"fields\":\x7b\"name\":\"Nyan Cat\"\x7d\x7d"

/-- The members of `catMembers` among members with keys that `Entry` has no
field for. -/
def catMembersExtra : List (Bytes × JSON) :=
  [(ascii "Extra", .number (ascii "1")),
    (ascii "sys", .object [(ascii "id", .string (ascii "nyancat"))]),
    (ascii "metadata", .object [(ascii "tags", .array [])]),
    (ascii "fields", .object [(ascii "name", .string (ascii "Nyan Cat"))])]

def catBodyExtra : Bytes :=
  ascii ("\x7b\"Extra\":1,\"sys\":\x7b\"id\":\"nyancat\"\x7d,\"metadata\":\x7b\"tags\":[]\x7d," ++
    "\"fields\":\x7b\"name\":\"Nyan Cat\"\x7d\x7d")

/-- A `Space` with two locales. -/
def spaceValue : Space Bytes Bytes :=
  Space.mk
    (SystemProperties.mk .nil "Space" "cfexampleapi" .nil 0 (ascii "0001-01-01T00:00:00Z")
      (ascii "0001-01-01T00:00:00Z"))
    "Contentful Example API"
    (.mk [Locale.mk "en-US" true "English", Locale.mk "tlh" false "Klingon \"tlh\" ♥\n"] [])

/-- A body in the shape the API documents for a space, as the API writes it:
indented, `sys` with the type and the id only, and a member the package has no
field for.  The second locale has its keys in another order and a name with
escapes and a character in UTF-8. -/
def spaceBody : Bytes :=
  ascii ("\x7b\n  \"sys\": \x7b\"type\": \"Space\", \"id\": \"cfexampleapi\"\x7d,\n" ++
    "  \"name\": \"Contentful Example API\",\n  \"organization\": null,\n" ++
    "  \"locales\": [\n" ++
    "    \x7b\"code\": \"en-US\", \"default\": true, \"name\": \"English\"\x7d,\n" ++
    "    \x7b\"name\": \"Klingon \\\"tlh\\\" ") ++ [0xE2, 0x99, 0xA5] ++
  ascii "\\n\", \"default\": false, \"code\": \"tlh\"\x7d\n  ]\n\x7d\n"

/-- The JSON value of `spaceBody`. -/
def spaceJSON : JSON :=
  .object [
    (ascii "sys", .object [(ascii "type", .string (ascii "Space")),
      (ascii "id", .string (ascii "cfexampleapi"))]),
    (ascii "name", .string (ascii "Contentful Example API")),
    (ascii "organization", .null),
    (ascii "locales", .array [
      .object [(ascii "code", .string (ascii "en-US")), (ascii "default", .bool true),
        (ascii "name", .string (ascii "English"))],
      .object [(ascii "name",
          .string (ascii "Klingon \\\"tlh\\\" " ++ [0xE2, 0x99, 0xA5] ++ ascii "\\n")),
        (ascii "default", .bool false), (ascii "code", .string (ascii "tlh"))]])]

/-- A link to the resource `id` of kind `linkType`, as the decoder stores it. -/
def link (linkType : String) (id : String) : GoAny Bytes :=
  .map [("sys", .map [("type", .string "Link"), ("linkType", .string linkType),
    ("id", .string id)])]

/-- The JSON value of a link. -/
def linkJSON (linkType : String) (id : String) : JSON :=
  .object [(ascii "sys", .object [(ascii "type", .string (ascii "Link")),
    (ascii "linkType", .string (ascii linkType)), (ascii "id", .string (ascii id))])]

/-- An `Entry` with links in `Sys` and a payload in `Fields`. -/
def entryValue : Entry Bytes Bytes :=
  Entry.mk
    (SystemProperties.mk (link "Space" "cfexampleapi") "Entry" "nyancat"
      (link "ContentType" "cat") 5 (ascii "2013-06-27T22:46:19Z") (ascii "2013-09-04T09:19:39Z"))
    (.map [("name", .string "Nyan Cat"), ("likes", .slice [.string "rainbows", .string "fish"]),
      ("lives", .float64 (ascii "1337")), ("bestFriend", .nil), ("happy", .bool true)])

/-- The members of a JSON object for `entryValue`: `fields`, then `sys`. -/
def entryMembers : List (Bytes × JSON) :=
  [(ascii "fields", .object [(ascii "name", .string (ascii "Nyan Cat")),
      (ascii "likes", .array [.string (ascii "rainbows"), .string (ascii "fish")]),
      (ascii "lives", .number (ascii "1337")), (ascii "bestFriend", .null),
      (ascii "happy", .bool true)]),
    (ascii "sys", .object [(ascii "space", linkJSON "Space" "cfexampleapi"),
      (ascii "type", .string (ascii "Entry")), (ascii "id", .string (ascii "nyancat")),
      (ascii "contentType", linkJSON "ContentType" "cat"),
      (ascii "revision", .number (ascii "5")),
      (ascii "createdAt", .string (ascii "2013-06-27T22:46:19Z")),
      (ascii "updatedAt", .string (ascii "2013-09-04T09:19:39Z"))])]

/-- The text of the object `entryMembers`. -/
def entryBody : Bytes :=
  ascii ("\x7b\"fields\": \x7b\"name\": \"Nyan Cat\", \"likes\": [\"rainbows\", \"fish\"], " ++
    "\"lives\": 1337, \"bestFriend\": null, \"happy\": true\x7d,\n" ++
    " \"sys\": \x7b\"space\": \x7b\"sys\": \x7b\"type\": \"Link\", \"linkType\": \"Space\", " ++
    "\"id\": \"cfexampleapi\"\x7d\x7d, \"type\": \"Entry\", \"id\": \"nyancat\", " ++
    "\"contentType\": \x7b\"sys\": \x7b\"type\": \"Link\", \"linkType\": \"ContentType\", " ++
    "\"id\": \"cat\"\x7d\x7d, \"revision\": 5, \"createdAt\": \"2013-06-27T22:46:19Z\", " ++
    "\"updatedAt\": \"2013-09-04T09:19:39Z\"\x7d\x7d")

/-- The text of the object `entryMembers` without its member `sys`. -/
def entryFieldsBody : Bytes :=
  ascii ("\x7b\"fields\": \x7b\"name\": \"Nyan Cat\", \"likes\": [\"rainbows\", \"fish\"], " ++
    "\"lives\": 1337, \"bestFriend\": null, \"happy\": true\x7d\x7d")

/-- The field `Sys` of `Entry`, by its index. -/
def sysOnly (n : Nat) : Bool := n == 0

/-! ## Lemmas on `query` and the body of the fetchers -/

theorem query_eq (tr : Transport) (c : Client) (u : String) (p : List (String × String)) :
    c.query tr u p =
      match tr.urlError u with
      | some cause => Outcome.mk none (some (.newRequest cause)) c []
      | none =>
        match tr.Do (c.request u) with
        | .error cause => Outcome.mk none (some (.send cause)) c [c.request u]
        | .ok res =>
          if res.StatusCode = 200 then
            Outcome.mk (some res.Body) (res.readErr.map GoError.readBody) c [c.request u]
          else Outcome.mk none (some (.status res.Status)) c [c.request u] := by
  unfold Client.query NewRequest
  cases h : tr.urlError u with
  | some cause => rfl
  | none =>
    have hreq : Request.mk "GET" u (headerSet [] "Authorization" ("Bearer " ++ c.AccessToken))
        none = c.request u := rfl
    simp only [hreq]
    cases hd : tr.Do (c.request u) with
    | error cause => rfl
    | ok res =>
      by_cases hs : res.StatusCode = 200
      · simp [hs, StatusOK]
      · simp [hs, StatusOK]

theorem query_sent (tr : Transport) (c : Client) (u : String) (p : List (String × String)) :
    (c.query tr u p).sent = if (tr.urlError u).isNone then [c.request u] else [] := by
  rw [query_eq]
  cases tr.urlError u with
  | some cause => rfl
  | none =>
    cases tr.Do (c.request u) with
    | error cause => rfl
    | ok res => by_cases hs : res.StatusCode = 200 <;> simp [hs]

theorem query_client (tr : Transport) (c : Client) (u : String) (p : List (String × String)) :
    (c.query tr u p).client = c := by
  rw [query_eq]
  cases tr.urlError u with
  | some cause => rfl
  | none =>
    cases tr.Do (c.request u) with
    | error cause => rfl
    | ok res => by_cases hs : res.StatusCode = 200 <;> simp [hs]

theorem fetch_sent {α : Type} (tr : Transport) (c : Client) (u : String) (zero : α)
    (dec : Decoder α) : (c.fetch tr u zero dec).sent = (c.query tr u []).sent := by
  unfold Client.fetch
  dsimp only
  split <;> rfl

theorem fetch_client {α : Type} (tr : Transport) (c : Client) (u : String) (zero : α)
    (dec : Decoder α) : (c.fetch tr u zero dec).client = c := by
  unfold Client.fetch
  dsimp only
  split <;> simp [query_client]

/-- A response that is not `200 OK`: the fetcher returns the status line as
the error, no value, and has sent the one request. -/
theorem fetch_not_ok {α : Type} (tr : Transport) (c : Client) (u : String) (zero : α)
    (dec : Decoder α) (res : Response) (hu : tr.urlError u = none)
    (hd : tr.Do (c.request u) = .ok res) (hs : res.StatusCode ≠ 200) :
    c.fetch tr u zero dec = Outcome.mk none (some (.status res.Status)) c [c.request u] := by
  unfold Client.fetch
  rw [query_eq, hu]
  simp [hd, hs]

/-- A `200 OK` response read to its end: the fetcher returns what
`json.Unmarshal` makes of the body. -/
theorem fetch_ok {α : Type} (tr : Transport) (c : Client) (u : String) (zero : α)
    (dec : Decoder α) (res : Response) (hu : tr.urlError u = none)
    (hd : tr.Do (c.request u) = .ok res) (hs : res.StatusCode = 200)
    (hr : res.readErr = none) :
    c.fetch tr u zero dec =
      Outcome.mk (Unmarshal zero dec res.Body none).1 (Unmarshal zero dec res.Body none).2 c
        [c.request u] := by
  unfold Client.fetch
  rw [query_eq, hu]
  simp [hd, hs, hr]


/-! ## The endpoints -/

/-- C1: the six endpoint builders return the base URL, the space id and the
resource path put together, and every fetcher hands `query` the URL of its own
builder: the requests it sends are those `query` sends for that URL, which is
the one request `client.request url` (none when `http.NewRequest` rejects the
URL). -/
theorem C1_endpoints {Time Float64 : Type} (lib : Lib Time Float64) (tr : Transport)
    (c : Client) (i : String) :
    (c.getSpaceURL = "https://cdn.contentful.com/spaces/" ++ c.Space ∧
     c.getContentTypesURL = "https://cdn.contentful.com/spaces/" ++ c.Space ++ "/content_types" ∧
     c.getContentTypeURL i =
       "https://cdn.contentful.com/spaces/" ++ c.Space ++ "/content_types/" ++ i ∧
     c.getEntriesURL = c.getSpaceURL ++ "/entries" ∧
     c.getEntryURL i = c.getSpaceURL ++ "/entries/" ++ i ∧
     c.getAssetsURL = c.getSpaceURL ++ "/assets") ∧
    ((c.GetSpace lib tr).sent = (c.query tr c.getSpaceURL []).sent ∧
     (c.GetContentTypes lib tr).sent = (c.query tr c.getContentTypesURL []).sent ∧
     (c.GetContentType lib tr i).sent = (c.query tr (c.getContentTypeURL i) []).sent ∧
     (c.getEntries lib tr).sent = (c.query tr c.getEntriesURL []).sent ∧
     (c.getEntry lib tr i).sent = (c.query tr (c.getEntryURL i) []).sent ∧
     (c.getAssets lib tr).sent = (c.query tr c.getAssetsURL []).sent) ∧
    ((c.GetSpace lib tr).sent.map Request.URL =
       if (tr.urlError c.getSpaceURL).isNone then [c.getSpaceURL] else []) ∧
    ((c.GetContentTypes lib tr).sent.map Request.URL =
       if (tr.urlError c.getContentTypesURL).isNone then [c.getContentTypesURL] else []) ∧
    ((c.GetContentType lib tr i).sent.map Request.URL =
       if (tr.urlError (c.getContentTypeURL i)).isNone then [c.getContentTypeURL i] else []) ∧
    ((c.getEntries lib tr).sent.map Request.URL =
       if (tr.urlError c.getEntriesURL).isNone then [c.getEntriesURL] else []) ∧
    ((c.getEntry lib tr i).sent.map Request.URL =
       if (tr.urlError (c.getEntryURL i)).isNone then [c.getEntryURL i] else []) ∧
    ((c.getAssets lib tr).sent.map Request.URL =
       if (tr.urlError c.getAssetsURL).isNone then [c.getAssetsURL] else []) := by
  have hs : ∀ {α : Type} (u : String) (zero : α) (dec : Decoder α),
      (c.fetch tr u zero dec).sent.map Request.URL =
        if (tr.urlError u).isNone then [u] else [] := by
    intro α u zero dec
    rw [fetch_sent, query_sent]
    cases tr.urlError u <;> simp [Client.request]
  refine ⟨⟨rfl, rfl, ?_, rfl, ?_, rfl⟩, ⟨?_, ?_, ?_, ?_, ?_, ?_⟩, ?_, ?_, ?_, ?_, ?_,
    ?_⟩
  · simp [Client.getContentTypeURL, Client.getContentTypesURL, Client.getSpaceURL, baseURL,
      String.append_assoc]
  · simp [Client.getEntryURL, Client.getEntriesURL, String.append_assoc]
  all_goals first
    | exact fetch_sent tr c _ _ _
    | exact hs _ _ _

/-- C2: `New(t, s)` stores `t` as the access token and `s` as the space, and
for a non-empty token `query` hands `Do` one request and no other: a `GET` of
the endpoint with no body, whose only header is `Authorization: Bearer t`
(when `http.NewRequest` rejects the endpoint no request is made at all). -/
theorem C2_authorized_get (tr : Transport) (t s endpoint : String)
    (params : List (String × String)) (ht : t ≠ "") :
    (New t s).AccessToken = t ∧ (New t s).Space = s ∧
    ((New t s).query tr endpoint params).sent =
      (if (tr.urlError endpoint).isNone then
        [Request.mk "GET" endpoint [("Authorization", "Bearer " ++ t)] none]
      else []) ∧
    (∀ r ∈ ((New t s).query tr endpoint params).sent,
      r.Method = "GET" ∧ r.Body = none ∧ r.URL = endpoint ∧
      r.Header = [("Authorization", "Bearer " ++ t)] ∧ "Bearer " ++ t ≠ "Bearer ") := by
  have hb : "Bearer " ++ t ≠ "Bearer " := by
    intro h
    apply ht
    have h2 := congrArg String.data h
    rw [String.data_append] at h2
    have h3 : t.data = [] := by simpa using h2
    exact String.ext h3
  refine ⟨rfl, rfl, ?_, ?_⟩
  · rw [query_sent]; rfl
  · intro r hr
    rw [query_sent] at hr
    cases h : tr.urlError endpoint with
    | some cause => simp [h] at hr
    | none =>
      simp [h] at hr
      subst hr
      exact ⟨rfl, rfl, rfl, rfl, hb⟩

theorem C2_authorized_get_witness :
    (New "b4c0n73n7fu1" "cfexampleapi").AccessToken = "b4c0n73n7fu1" ∧
    (New "b4c0n73n7fu1" "cfexampleapi").Space = "cfexampleapi" ∧
    ((New "b4c0n73n7fu1" "cfexampleapi").query (stub notFound)
        "https://cdn.contentful.com/spaces/cfexampleapi" []).sent =
      (if ((stub notFound).urlError "https://cdn.contentful.com/spaces/cfexampleapi").isNone
      then
        [Request.mk "GET" "https://cdn.contentful.com/spaces/cfexampleapi"
          [("Authorization", "Bearer " ++ "b4c0n73n7fu1")] none]
      else []) ∧
    (∀ r ∈ ((New "b4c0n73n7fu1" "cfexampleapi").query (stub notFound)
        "https://cdn.contentful.com/spaces/cfexampleapi" []).sent,
      r.Method = "GET" ∧ r.Body = none ∧
      r.URL = "https://cdn.contentful.com/spaces/cfexampleapi" ∧
      r.Header = [("Authorization", "Bearer " ++ "b4c0n73n7fu1")] ∧
      "Bearer " ++ "b4c0n73n7fu1" ≠ "Bearer ") :=
  C2_authorized_get (stub notFound) "b4c0n73n7fu1" "cfexampleapi"
    "https://cdn.contentful.com/spaces/cfexampleapi" [] (by decide)

/-- The fetcher's results come from the answer to its one request alone. -/
theorem fetch_congr {α : Type} (tr tr1 : Transport) (c : Client) (u : String) (zero : α)
    (dec : Decoder α) (hu : tr.urlError u = tr1.urlError u)
    (hd : tr.Do (c.request u) = tr1.Do (c.request u)) :
    c.fetch tr u zero dec = c.fetch tr1 u zero dec := by
  unfold Client.fetch
  rw [query_eq, query_eq, hu, hd]

theorem Unmarshal_invalid {α : Type} (zero : α) (dec : Decoder α) (data : Bytes)
    (h : parseJSON data = none) : Unmarshal zero dec data none = (none, some .invalidJSON) := by
  unfold Unmarshal
  rw [h]

theorem Unmarshal_null {α : Type} (zero : α) (dec : Decoder α) (data : Bytes)
    (h : parseJSON data = some .null) : Unmarshal zero dec data none = (none, none) := by
  unfold Unmarshal
  rw [h]
  rfl

theorem Unmarshal_value {α : Type} (zero : α) (dec : Decoder α) (data : Bytes) (j : JSON)
    (h : parseJSON data = some j) (hj : j ≠ .null) :
    Unmarshal zero dec data none =
      (some (dec j zero).val, (dec j zero).result) := by
  unfold Unmarshal
  rw [h]
  cases j with
  | null => exact absurd rfl hj
  | _ => rfl

theorem fetch_settled {α : Type} (tr : Transport) (c : Client) (u : String) (zero : α)
    (dec : Decoder α) : Settled tr c u zero dec (c.fetch tr u zero dec) := by
  unfold Settled Client.fetch
  rw [query_eq]
  refine ⟨?_, ?_⟩
  · intro cause hu
    rw [hu]
    exact ⟨rfl, rfl⟩
  · intro hu
    rw [hu]
    refine ⟨?_, ?_⟩
    · intro cause hd
      rw [hd]
      exact ⟨rfl, rfl⟩
    · intro res hd
      rw [hd]
      refine ⟨?_, ?_⟩
      · intro hs
        dsimp only
        rw [if_neg hs]
        exact ⟨rfl, rfl⟩
      · intro hs
        dsimp only
        rw [if_pos hs]
        refine ⟨?_, ?_⟩
        · intro cause hr
          rw [hr]
          exact ⟨rfl, rfl⟩
        · intro hr
          rw [hr]
          refine ⟨?_, ?_, ?_⟩
          · intro hp
            show (Unmarshal zero dec res.Body none).1 = _ ∧
              (Unmarshal zero dec res.Body none).2 = _
            rw [Unmarshal_invalid zero dec _ hp]
            exact ⟨rfl, rfl⟩
          · intro hp
            show (Unmarshal zero dec res.Body none).1 = _ ∧
              (Unmarshal zero dec res.Body none).2 = _
            rw [Unmarshal_null zero dec _ hp]
            exact ⟨rfl, rfl⟩
          · intro j hp hj
            show (Unmarshal zero dec res.Body none).1 = _ ∧
              (Unmarshal zero dec res.Body none).2 = _
            rw [Unmarshal_value zero dec _ j hp hj]
            exact ⟨rfl, rfl⟩

/-! ## Errors -/

/-- C3: when the response to a fetcher's request has a status code other than
200, the fetcher returns the error whose message is the status line and a nil
value, whatever the body holds: the outcome is written without the body, and
it is the same for any two responses that differ in the body only. -/
theorem C3_status_error {Time Float64 : Type} (lib : Lib Time Float64) (tr : Transport)
    (c : Client) (i : String) (res : Response) (hs : res.StatusCode ≠ 200) :
    ((tr.urlError c.getSpaceURL = none → tr.Do (c.request c.getSpaceURL) = .ok res →
        c.GetSpace lib tr =
          Outcome.mk none (some (.status res.Status)) c [c.request c.getSpaceURL]) ∧
     (tr.urlError c.getContentTypesURL = none →
        tr.Do (c.request c.getContentTypesURL) = .ok res →
        c.GetContentTypes lib tr =
          Outcome.mk none (some (.status res.Status)) c [c.request c.getContentTypesURL]) ∧
     (tr.urlError (c.getContentTypeURL i) = none →
        tr.Do (c.request (c.getContentTypeURL i)) = .ok res →
        c.GetContentType lib tr i =
          Outcome.mk none (some (.status res.Status)) c [c.request (c.getContentTypeURL i)]) ∧
     (tr.urlError c.getEntriesURL = none → tr.Do (c.request c.getEntriesURL) = .ok res →
        c.getEntries lib tr =
          Outcome.mk none (some (.status res.Status)) c [c.request c.getEntriesURL]) ∧
     (tr.urlError (c.getEntryURL i) = none →
        tr.Do (c.request (c.getEntryURL i)) = .ok res →
        c.getEntry lib tr i =
          Outcome.mk none (some (.status res.Status)) c [c.request (c.getEntryURL i)]) ∧
     (tr.urlError c.getAssetsURL = none → tr.Do (c.request c.getAssetsURL) = .ok res →
        c.getAssets lib tr =
          Outcome.mk none (some (.status res.Status)) c [c.request c.getAssetsURL])) ∧
    (∀ (body : Bytes) (rerr : Option String),
      c.GetSpace lib (stub (Response.mk res.StatusCode res.Status body rerr)) =
        c.GetSpace lib (stub res) ∧
      c.GetContentTypes lib (stub (Response.mk res.StatusCode res.Status body rerr)) =
        c.GetContentTypes lib (stub res) ∧
      c.GetContentType lib (stub (Response.mk res.StatusCode res.Status body rerr)) i =
        c.GetContentType lib (stub res) i ∧
      c.getEntries lib (stub (Response.mk res.StatusCode res.Status body rerr)) =
        c.getEntries lib (stub res) ∧
      c.getEntry lib (stub (Response.mk res.StatusCode res.Status body rerr)) i =
        c.getEntry lib (stub res) i ∧
      c.getAssets lib (stub (Response.mk res.StatusCode res.Status body rerr)) =
        c.getAssets lib (stub res)) := by
  have hstub : ∀ {α : Type} (u : String) (zero : α) (dec : Decoder α) (body : Bytes)
      (rerr : Option String),
      c.fetch (stub (Response.mk res.StatusCode res.Status body rerr)) u zero dec =
        c.fetch (stub res) u zero dec := by
    intro α u zero dec body rerr
    rw [fetch_not_ok (stub res) c u zero dec res rfl rfl hs,
      fetch_not_ok (stub (Response.mk res.StatusCode res.Status body rerr)) c u zero dec
        (Response.mk res.StatusCode res.Status body rerr) rfl rfl hs]
  refine ⟨⟨?_, ?_, ?_, ?_, ?_, ?_⟩, ?_⟩
  · exact fun hu hd => fetch_not_ok tr c _ _ _ res hu hd hs
  · exact fun hu hd => fetch_not_ok tr c _ _ _ res hu hd hs
  · exact fun hu hd => fetch_not_ok tr c _ _ _ res hu hd hs
  · exact fun hu hd => fetch_not_ok tr c _ _ _ res hu hd hs
  · exact fun hu hd => fetch_not_ok tr c _ _ _ res hu hd hs
  · exact fun hu hd => fetch_not_ok tr c _ _ _ res hu hd hs
  · intro body rerr
    exact ⟨hstub _ _ _ _ _, hstub _ _ _ _ _, hstub _ _ _ _ _, hstub _ _ _ _ _, hstub _ _ _ _ _,
      hstub _ _ _ _ _⟩

theorem C3_status_error_witness :
    exampleClient.GetContentType textLib (stub notFound) "X" =
      Outcome.mk none (some (.status "404 Not Found")) exampleClient
        [exampleClient.request
          "https://cdn.contentful.com/spaces/cfexampleapi/content_types/X"] :=
  (C3_status_error textLib (stub notFound) exampleClient "X" notFound (by decide)).1.2.2.1
    rfl rfl

theorem parseJSON_not_json : parseJSON (ascii "not json") = none := rfl

theorem parseJSON_not_json_quoted :
    parseJSON (ascii "\"not json\"") = some (.string (ascii "not json")) := rfl

/-- A `200 OK` response whose body is `not json`. -/
theorem fetch_not_json {α : Type} (tr : Transport) (c : Client) (u : String) (zero : α)
    (dec : Decoder α) (res : Response) (hu : tr.urlError u = none)
    (hd : tr.Do (c.request u) = .ok res) (hs : res.StatusCode = 200)
    (hr : res.readErr = none) (hb : res.Body = ascii "not json") :
    c.fetch tr u zero dec = Outcome.mk none (some .invalidJSON) c [c.request u] := by
  rw [fetch_ok tr c u zero dec res hu hd hs hr, hb,
    Unmarshal_invalid zero dec _ parseJSON_not_json]

/-- C4: a `200 OK` response whose body is `not json` makes every fetcher return
the JSON syntax error, which is a decoding error and neither the status-line
error nor an error of the transport, and a nil value: no zero-valued
structure is returned. -/
theorem C4_malformed_body {Time Float64 : Type} (lib : Lib Time Float64) (tr : Transport)
    (c : Client) (i : String) (res : Response) (hs : res.StatusCode = 200)
    (hr : res.readErr = none) (hb : res.Body = ascii "not json") :
    ((tr.urlError c.getSpaceURL = none → tr.Do (c.request c.getSpaceURL) = .ok res →
        c.GetSpace lib tr = Outcome.mk none (some .invalidJSON) c [c.request c.getSpaceURL]) ∧
     (tr.urlError c.getContentTypesURL = none →
        tr.Do (c.request c.getContentTypesURL) = .ok res →
        c.GetContentTypes lib tr =
          Outcome.mk none (some .invalidJSON) c [c.request c.getContentTypesURL]) ∧
     (tr.urlError (c.getContentTypeURL i) = none →
        tr.Do (c.request (c.getContentTypeURL i)) = .ok res →
        c.GetContentType lib tr i =
          Outcome.mk none (some .invalidJSON) c [c.request (c.getContentTypeURL i)]) ∧
     (tr.urlError c.getEntriesURL = none → tr.Do (c.request c.getEntriesURL) = .ok res →
        c.getEntries lib tr =
          Outcome.mk none (some .invalidJSON) c [c.request c.getEntriesURL]) ∧
     (tr.urlError (c.getEntryURL i) = none →
        tr.Do (c.request (c.getEntryURL i)) = .ok res →
        c.getEntry lib tr i =
          Outcome.mk none (some .invalidJSON) c [c.request (c.getEntryURL i)]) ∧
     (tr.urlError c.getAssetsURL = none → tr.Do (c.request c.getAssetsURL) = .ok res →
        c.getAssets lib tr =
          Outcome.mk none (some .invalidJSON) c [c.request c.getAssetsURL])) ∧
    GoError.invalidJSON.isDecodeError = true ∧
    (∀ line, GoError.invalidJSON ≠ .status line ∧
      (GoError.status line).isDecodeError = false) ∧
    (∀ cause, GoError.invalidJSON ≠ .newRequest cause ∧
      GoError.invalidJSON ≠ .send cause ∧
      GoError.invalidJSON ≠ .readBody cause) := by
  refine ⟨⟨?_, ?_, ?_, ?_, ?_, ?_⟩, rfl, ?_, ?_⟩
  · exact fun hu hd => fetch_not_json tr c _ _ _ res hu hd hs hr hb
  · exact fun hu hd => fetch_not_json tr c _ _ _ res hu hd hs hr hb
  · exact fun hu hd => fetch_not_json tr c _ _ _ res hu hd hs hr hb
  · exact fun hu hd => fetch_not_json tr c _ _ _ res hu hd hs hr hb
  · exact fun hu hd => fetch_not_json tr c _ _ _ res hu hd hs hr hb
  · exact fun hu hd => fetch_not_json tr c _ _ _ res hu hd hs hr hb
  · intro line
    exact ⟨by simp, rfl⟩
  · intro cause
    simp

theorem C4_malformed_body_witness :
    exampleClient.getEntry textLib (stub (ok200 (ascii "not json"))) "nyancat" =
      Outcome.mk none (some .invalidJSON) exampleClient
        [exampleClient.request
          "https://cdn.contentful.com/spaces/cfexampleapi/entries/nyancat"] :=
  (C4_malformed_body textLib (stub (ok200 (ascii "not json"))) exampleClient "nyancat"
    (ok200 (ascii "not json")) rfl rfl rfl).1.2.2.2.2.1 rfl rfl

/-- The body `"not json"`, quotes included, is a JSON string: every fetcher
reports that a string does not fit the struct, next to the zero struct the
decoder had allocated. -/
theorem fetch_not_json_quoted {α : Type} (tr : Transport) (c : Client) (u : String)
    (zero : α) (goType : String) (field : String → Decoder α) (res : Response)
    (hu : tr.urlError u = none) (hd : tr.Do (c.request u) = .ok res)
    (hs : res.StatusCode = 200) (hr : res.readErr = none)
    (hb : res.Body = ascii "\"not json\"") :
    c.fetch tr u zero (decodeStruct goType field) =
      Outcome.mk (some zero) (some (.unmarshalType "string" goType)) c [c.request u] := by
  rw [fetch_ok tr c u zero _ res hu hd hs hr, hb,
    Unmarshal_value zero _ _ _ parseJSON_not_json_quoted (by simp)]
  rfl

/-- C5, as the code has it: the body `null` of a `200 OK` response gives
neither a value nor an error, and a body with a number where the string `name`
is expected gives both a value, with what was decoded of it, and an error. -/
theorem C5_counterexample :
    (exampleClient.GetSpace textLib (stub (ok200 (ascii "null")))).resp = none ∧
    (exampleClient.GetSpace textLib (stub (ok200 (ascii "null")))).err = none ∧
    (exampleClient.GetSpace textLib
        (stub (ok200 (ascii "\x7b\"name\":5,\"sys\":\x7b\"id\":\"cfexampleapi\"\x7d\x7d")))).resp
      = some (Space.mk
          (SystemProperties.mk .nil "" "cfexampleapi" .nil 0 textLib.zeroTime textLib.zeroTime)
          "" .nil) ∧
    (exampleClient.GetSpace textLib
        (stub (ok200 (ascii "\x7b\"name\":5,\"sys\":\x7b\"id\":\"cfexampleapi\"\x7d\x7d")))).err
      = some (.unmarshalType "number" "string") :=
  ⟨rfl, rfl, rfl, rfl⟩

/-- C5, amended: every fetcher ends in one of four ways, by what the
transport does with its one request.  A request that fails (the endpoint does
not parse, or `Do` returns an error), a status other than 200, a failed read
of the body and a body that is not valid JSON give a nil value and the error
of that step; a `200 OK` body that is valid JSON other than `null` gives a
non-nil value, with a nil error when no JSON value of the body was rejected
and else with the decoder's error next to the value decoded so far; the body
`null` gives a nil value and a nil error. -/
theorem C5_outcomes {Time Float64 : Type} (lib : Lib Time Float64) (tr : Transport)
    (c : Client) (i : String) :
    Settled tr c c.getSpaceURL (Space.zero lib) (Space.decode lib) (c.GetSpace lib tr) ∧
    Settled tr c c.getContentTypesURL (ContentTypes.zero lib) (ContentTypes.decode lib)
      (c.GetContentTypes lib tr) ∧
    Settled tr c (c.getContentTypeURL i) (ContentType.zero lib) (ContentType.decode lib)
      (c.GetContentType lib tr i) ∧
    Settled tr c c.getEntriesURL (Entries.zero lib) (Entries.decode lib)
      (c.getEntries lib tr) ∧
    Settled tr c (c.getEntryURL i) (Entry.zero lib) (Entry.decode lib)
      (c.getEntry lib tr i) ∧
    Settled tr c c.getAssetsURL (Assets.zero lib) (Assets.decode lib) (c.getAssets lib tr) :=
  ⟨fetch_settled tr c _ _ _, fetch_settled tr c _ _ _, fetch_settled tr c _ _ _,
    fetch_settled tr c _ _ _, fetch_settled tr c _ _ _, fetch_settled tr c _ _ _⟩

/-! ## Independence -/

/-- C9: every fetcher returns the client as it got it, and its outcome is a
function of the client, the id and the transport's answer to the fetcher's one
request: it is the outcome under the transport that gives that answer to every
request.  So `getEntry(b)` called after `getEntry(a)` returns what it returns
when called first, whatever the transport `tr1` answered to the call for
`a`. -/
theorem C9_independence {Time Float64 : Type} (lib : Lib Time Float64)
    (tr tr1 : Transport) (c : Client) (a b : String) :
    ((c.GetSpace lib tr).client = c ∧ (c.GetContentTypes lib tr).client = c ∧
      (c.GetContentType lib tr a).client = c ∧ (c.getEntries lib tr).client = c ∧
      (c.getEntry lib tr a).client = c ∧ (c.getAssets lib tr).client = c) ∧
    (c.GetSpace lib tr =
        c.GetSpace lib (answering (tr.urlError c.getSpaceURL)
          (tr.Do (c.request c.getSpaceURL))) ∧
      c.GetContentTypes lib tr =
        c.GetContentTypes lib (answering (tr.urlError c.getContentTypesURL)
          (tr.Do (c.request c.getContentTypesURL))) ∧
      c.GetContentType lib tr a =
        c.GetContentType lib (answering (tr.urlError (c.getContentTypeURL a))
          (tr.Do (c.request (c.getContentTypeURL a)))) a ∧
      c.getEntries lib tr =
        c.getEntries lib (answering (tr.urlError c.getEntriesURL)
          (tr.Do (c.request c.getEntriesURL))) ∧
      c.getEntry lib tr a =
        c.getEntry lib (answering (tr.urlError (c.getEntryURL a))
          (tr.Do (c.request (c.getEntryURL a)))) a ∧
      c.getAssets lib tr =
        c.getAssets lib (answering (tr.urlError c.getAssetsURL)
          (tr.Do (c.request c.getAssetsURL)))) ∧
    (c.getEntry lib tr a).client.getEntry lib tr b = c.getEntry lib tr b ∧
    (c.getEntry lib tr1 a).client.getEntry lib tr b = c.getEntry lib tr b ∧
    (c.getEntry lib tr1 a).client.getEntry lib tr b =
      c.getEntry lib (answering (tr.urlError (c.getEntryURL b))
        (tr.Do (c.request (c.getEntryURL b)))) b := by
  have h2 : (c.getEntry lib tr a).client = c := fetch_client tr c _ _ _
  have h3 : (c.getEntry lib tr1 a).client = c := fetch_client tr1 c _ _ _
  have h4 : ∀ {α : Type} (u : String) (zero : α) (dec : Decoder α),
      c.fetch tr u zero dec =
        c.fetch (answering (tr.urlError u) (tr.Do (c.request u))) u zero dec :=
    fun u zero dec => fetch_congr tr _ c u zero dec rfl rfl
  refine ⟨⟨fetch_client tr c _ _ _, fetch_client tr c _ _ _, fetch_client tr c _ _ _,
    fetch_client tr c _ _ _, h2, fetch_client tr c _ _ _⟩,
    ⟨h4 _ _ _, h4 _ _ _, h4 _ _ _, h4 _ _ _, h4 _ _ _, h4 _ _ _⟩, ?_, ?_, ?_⟩
  · rw [h2]
  · rw [h3]
  · rw [h3]
    exact h4 _ _ _

/-! ## Distinct calls, distinct endpoints -/

theorem Call.url_data (c : Client) (k : Call) :
    (k.url c).data = baseURL.data ++ (c.Space.data ++ k.path) := by
  cases k <;>
    simp [Call.url, Call.path, Client.getSpaceURL, Client.getContentTypesURL,
      Client.getContentTypeURL, Client.getEntriesURL, Client.getEntryURL, Client.getAssetsURL,
      String.data_append]

theorem Call.path_head (k : Call) : k.path = [] ∨ ∃ t, k.path = '/' :: t := by
  cases k
  · exact Or.inl rfl
  · exact Or.inr ⟨_, rfl⟩
  · exact Or.inr ⟨_, rfl⟩
  · exact Or.inr ⟨_, rfl⟩
  · exact Or.inr ⟨_, rfl⟩
  · exact Or.inr ⟨_, rfl⟩

theorem Call.path_injective (k k1 : Call) (h : k.path = k1.path) : k = k1 := by
  cases k <;> cases k1 <;> first
    | rfl
    | (exfalso; revert h; simp [Call.path]; done)
    | (simp only [Call.path, List.append_cancel_left_eq] at h; rw [String.ext h])

/-- Two lists without `/`, each followed by nothing or by a `/`: equal wholes
have equal parts. -/
theorem split_at_slash (l l1 t t1 : List Char) (hl : '/' ∉ l) (hl1 : '/' ∉ l1)
    (ht : t = [] ∨ ∃ r, t = '/' :: r) (ht1 : t1 = [] ∨ ∃ r, t1 = '/' :: r)
    (h : l ++ t = l1 ++ t1) : l = l1 ∧ t = t1 := by
  induction l generalizing l1 with
  | nil =>
    cases l1 with
    | nil => exact ⟨rfl, by simpa using h⟩
    | cons x xs =>
      exfalso
      rcases ht with ht | ⟨r, ht⟩
      · subst ht; simp at h
      · subst ht
        simp at h
        exact hl1 (h.1 ▸ List.mem_cons_self _ _)
  | cons y ys ih =>
    cases l1 with
    | nil =>
      exfalso
      rcases ht1 with ht1 | ⟨r, ht1⟩
      · subst ht1; simp at h
      · subst ht1
        simp at h
        exact hl (h.1 ▸ List.mem_cons_self _ _)
    | cons x xs =>
      simp only [List.cons_append, List.cons.injEq] at h
      have := ih xs (fun hm => hl (List.mem_cons_of_mem _ hm))
        (fun hm => hl1 (List.mem_cons_of_mem _ hm)) h.2
      exact ⟨by rw [h.1, this.1], this.2⟩

/-- C10: for clients whose space ids contain no `/`, two calls request the same
URL only when they are the same call, with the same id, in the same space: the
six endpoints of a client are pairwise different, `getContentTypeURL` and
`getEntryURL` are injective in the id, and clients of different spaces share
no URL.  The ids need no condition.  The condition on the space id is needed:
the space `x/entries` has the URL of the entries of the space `x`. -/
theorem C10_distinct_endpoints (c c1 : Client) (k k1 : Call)
    (hc : '/' ∉ c.Space.data) (hc1 : '/' ∉ c1.Space.data) :
    (k.url c = k1.url c1 ↔ (k = k1 ∧ c.Space = c1.Space)) ∧
    (Client.mk c.AccessToken "x/entries").getSpaceURL =
      (Client.mk c.AccessToken "x").getEntriesURL := by
  refine ⟨⟨fun h => ?_, fun h => ?_⟩, rfl⟩
  · have h1 := congrArg String.data h
    rw [Call.url_data, Call.url_data, List.append_cancel_left_eq] at h1
    have h2 := split_at_slash _ _ _ _ hc hc1 k.path_head k1.path_head h1
    exact ⟨Call.path_injective k k1 h2.2, String.ext h2.1⟩
  · obtain ⟨hk, hs⟩ := h
    subst hk
    cases k <;>
      simp [Call.url, Client.getSpaceURL, Client.getContentTypesURL,
        Client.getContentTypeURL, Client.getEntriesURL, Client.getEntryURL,
        Client.getAssetsURL, hs]

theorem C10_distinct_endpoints_witness :
    ((Call.entry "nyancat").url exampleClient = (Call.entry "nyancat").url (New "" "cfexampleapi")
      ↔ (Call.entry "nyancat" = Call.entry "nyancat" ∧
        exampleClient.Space = (New "" "cfexampleapi").Space)) ∧
    (Client.mk exampleClient.AccessToken "x/entries").getSpaceURL =
      (Client.mk exampleClient.AccessToken "x").getEntriesURL :=
  C10_distinct_endpoints exampleClient (New "" "cfexampleapi") (Call.entry "nyancat")
    (Call.entry "nyancat") (by decide) (by decide)

/-! ## Unknown keys -/

/-- Members whose keys go to no field leave the decoding of an object as it
is without them. -/
theorem decodeMembers_extended {α : Type} (names : List String) (field : String → Decoder α)
    (hfield : ∀ key j v, fieldIndex names key = none → field key j v = Decoded.mk v [] none)
    {ms ms1 : List (Bytes × JSON)} (h : Extended names ms ms1) (v : α) :
    decodeMembers field ms1 v = decodeMembers field ms v := by
  induction h generalizing v with
  | nil => rfl
  | keep m _ ih =>
    obtain ⟨k, j⟩ := m
    simp only [decodeMembers]
    cases (field (unquote k) j v).stopped with
    | some e => rfl
    | none => simp only [ih]
  | extra k j hk _ ih =>
    simp only [decodeMembers, hfield _ j v hk, List.nil_append]
    exact ih v

theorem Entry.field_unknown {Time Float64 : Type} (lib : Lib Time Float64) (key : String)
    (j : JSON) (v : Entry Time Float64) (h : fieldIndex Entry.names key = none) :
    Entry.field lib key j v = Decoded.mk v [] none := by
  simp [Entry.field, h]

/-- C7: when the body of a `200 OK` response is a JSON object, putting further
top-level members into it whose keys match no field of `Entry` (neither by
name nor by case folding) changes nothing for `getEntry`: it returns the same
value and the same error, so it succeeds with the same `Entry` whenever it
succeeds on the body alone. -/
theorem C7_unknown_fields {Time Float64 : Type} (lib : Lib Time Float64) (c : Client)
    (i : String) (body body1 : Bytes) (ms ms1 : List (Bytes × JSON))
    (hb : parseJSON body = some (.object ms)) (hb1 : parseJSON body1 = some (.object ms1))
    (hx : Extended Entry.names ms ms1) :
    c.getEntry lib (stub (ok200 body1)) i = c.getEntry lib (stub (ok200 body)) i ∧
    (∀ e, (c.getEntry lib (stub (ok200 body)) i).resp = some e →
      (c.getEntry lib (stub (ok200 body)) i).err = none →
      (c.getEntry lib (stub (ok200 body1)) i).resp = some e ∧
      (c.getEntry lib (stub (ok200 body1)) i).err = none) ∧
    (c.getEntry lib (stub (ok200 body1)) i).resp =
      some (decodeMembers (Entry.field lib) ms (Entry.zero lib)).val := by
  have h0 : ∀ (b : Bytes) (l : List (Bytes × JSON)), parseJSON b = some (.object l) →
      c.getEntry lib (stub (ok200 b)) i =
        Outcome.mk (some (decodeMembers (Entry.field lib) l (Entry.zero lib)).val)
          (decodeMembers (Entry.field lib) l (Entry.zero lib)).result c
          [c.request (c.getEntryURL i)] := by
    intro b l hl
    unfold Client.getEntry
    rw [fetch_ok (stub (ok200 b)) c _ _ _ (ok200 b) rfl rfl rfl rfl]
    simp only [ok200]
    rw [Unmarshal_value _ _ _ _ hl (by simp)]
    rfl
  have h1 : c.getEntry lib (stub (ok200 body1)) i = c.getEntry lib (stub (ok200 body)) i := by
    rw [h0 body ms hb, h0 body1 ms1 hb1,
      decodeMembers_extended Entry.names (Entry.field lib) (Entry.field_unknown lib) hx]
  refine ⟨h1, ?_, ?_⟩
  · intro e he hn
    rw [h1]
    exact ⟨he, hn⟩
  · rw [h1, h0 body ms hb]

theorem C7_unknown_fields_witness :
    exampleClient.getEntry textLib (stub (ok200 catBodyExtra)) "nyancat" =
      exampleClient.getEntry textLib (stub (ok200 catBody)) "nyancat" :=
  (C7_unknown_fields textLib exampleClient "nyancat" catBody catBodyExtra catMembers
    catMembersExtra rfl rfl
    (Extended.extra _ _ (by decide) (Extended.keep _ (Extended.extra _ _ (by decide)
      (Extended.keep _ Extended.nil))))).1

/-! ## Missing keys -/

theorem Decoded.result_eq_none {α : Type} (r : Decoded α) :
    r.result = none ↔ r.stopped = none ∧ r.saved = [] := by
  unfold Decoded.result
  cases r.stopped with
  | some e => simp
  | none => simp [List.head?_eq_none_iff]

theorem leaveOut_unknown (names : List String) (K : Nat → Bool) (k : Bytes) (j : JSON)
    (ms : List (Bytes × JSON)) (h : fieldIndex names (unquote k) = none) :
    leaveOut names K ((k, j) :: ms) = (k, j) :: leaveOut names K ms := by
  simp [leaveOut, List.filter_cons, h]

theorem leaveOut_kept (names : List String) (K : Nat → Bool) (k : Bytes) (j : JSON)
    (ms : List (Bytes × JSON)) (n : Nat) (h : fieldIndex names (unquote k) = some n)
    (hK : K n = false) :
    leaveOut names K ((k, j) :: ms) = (k, j) :: leaveOut names K ms := by
  simp [leaveOut, List.filter_cons, h, hK]

theorem leaveOut_left (names : List String) (K : Nat → Bool) (k : Bytes) (j : JSON)
    (ms : List (Bytes × JSON)) (n : Nat) (h : fieldIndex names (unquote k) = some n)
    (hK : K n = true) :
    leaveOut names K ((k, j) :: ms) = leaveOut names K ms := by
  simp [leaveOut, List.filter_cons, h, hK]

theorem decodeMembers_unknown {α : Type} (field : String → Decoder α) (k : Bytes) (j : JSON)
    (ms : List (Bytes × JSON)) (v : α) (h : field (unquote k) j v = Decoded.mk v [] none) :
    decodeMembers field ((k, j) :: ms) v = decodeMembers field ms v := by
  simp only [decodeMembers, h, List.nil_append]

theorem decodeMembers_stopped {α : Type} (field : String → Decoder α) (k : Bytes) (j : JSON)
    (ms : List (Bytes × JSON)) (v : α) (e : GoError)
    (h : (field (unquote k) j v).stopped = some e) :
    decodeMembers field ((k, j) :: ms) v =
      Decoded.mk (field (unquote k) j v).val (field (unquote k) j v).saved (some e) := by
  simp only [decodeMembers, h]

theorem decodeMembers_next {α : Type} (field : String → Decoder α) (k : Bytes) (j : JSON)
    (ms : List (Bytes × JSON)) (v : α) (h : (field (unquote k) j v).stopped = none) :
    decodeMembers field ((k, j) :: ms) v =
      Decoded.mk (decodeMembers field ms (field (unquote k) j v).val).val
        ((field (unquote k) j v).saved ++
          (decodeMembers field ms (field (unquote k) j v).val).saved)
        (decodeMembers field ms (field (unquote k) j v).val).stopped := by
  simp only [decodeMembers, h]

theorem decodeMembers_leaveOut_zero {α : Type} {names : List String}
    {field : String → Decoder α} {agree : (Nat → Bool) → α → α → Prop}
    (fw : FieldWise names field agree) (K : Nat → Bool) (z : α) (ms : List (Bytes × JSON))
    (w : α) (hw : agree K w z) :
    agree K (decodeMembers field (leaveOut names K ms) w).val z := by
  induction ms generalizing w with
  | nil => exact hw
  | cons m ms ih =>
    obtain ⟨k, j⟩ := m
    cases hidx : fieldIndex names (unquote k) with
    | none =>
      rw [leaveOut_unknown names K k j ms hidx,
        decodeMembers_unknown field k j _ w (fw.unknown _ j w hidx)]
      exact ih w hw
    | some n =>
      rcases Bool.eq_false_or_eq_true (K n) with hK | hK
      · rw [leaveOut_left names K k j ms n hidx hK]
        exact ih w hw
      · rw [leaveOut_kept names K k j ms n hidx hK]
        have h1 : agree K (field (unquote k) j w).val z :=
          fw.trans _ _ _ _ (fw.only _ n j w K hidx hK) hw
        cases hr : (field (unquote k) j w).stopped with
        | some e =>
          rw [decodeMembers_stopped field k j _ w e hr]
          exact h1
        | none =>
          rw [decodeMembers_next field k j _ w hr]
          exact ih _ h1

theorem decodeMembers_leaveOut_same {α : Type} {names : List String}
    {field : String → Decoder α} {agree : (Nat → Bool) → α → α → Prop}
    (fw : FieldWise names field agree) (K : Nat → Bool) (ms : List (Bytes × JSON)) (v w : α)
    (hvw : agree (fun n => !K n) w v) (hs : (decodeMembers field ms v).stopped = none) :
    (decodeMembers field (leaveOut names K ms) w).stopped = none ∧
    ((decodeMembers field ms v).saved = [] →
      (decodeMembers field (leaveOut names K ms) w).saved = []) ∧
    agree (fun n => !K n) (decodeMembers field (leaveOut names K ms) w).val
      (decodeMembers field ms v).val := by
  induction ms generalizing v w with
  | nil => exact ⟨rfl, fun _ => rfl, hvw⟩
  | cons m ms ih =>
    obtain ⟨k, j⟩ := m
    cases hidx : fieldIndex names (unquote k) with
    | none =>
      rw [leaveOut_unknown names K k j ms hidx,
        decodeMembers_unknown field k j _ w (fw.unknown _ j w hidx),
        decodeMembers_unknown field k j _ v (fw.unknown _ j v hidx)]
      rw [decodeMembers_unknown field k j _ v (fw.unknown _ j v hidx)] at hs
      exact ih v w hvw hs
    | some n =>
      cases hr : (field (unquote k) j v).stopped with
      | some e =>
        rw [decodeMembers_stopped field k j _ v e hr] at hs
        cases hs
      | none =>
        rw [decodeMembers_next field k j _ v hr] at hs ⊢
        rcases Bool.eq_false_or_eq_true (K n) with hK | hK
        · rw [leaveOut_left names K k j ms n hidx hK]
          have h1 : agree (fun n => !K n) w (field (unquote k) j v).val :=
            fw.trans _ _ _ _ hvw
              (fw.symm _ _ _ (fw.only _ n j v (fun n => !K n) hidx (by simp [hK])))
          obtain ⟨a, b, c⟩ := ih _ w h1 hs
          exact ⟨a, fun h => b (List.append_eq_nil.mp h).2, c⟩
        · rw [leaveOut_kept names K k j ms n hidx hK]
          obtain ⟨c1, c2, c3⟩ :=
            fw.congr _ n j w v (fun n => !K n) hidx (by simp [hK]) hvw
          rw [decodeMembers_next field k j _ w (c2.trans hr)]
          obtain ⟨a, b, c⟩ := ih _ _ c3 hs
          refine ⟨a, fun h => ?_, c⟩
          show (field (unquote k) j w).saved ++ _ = []
          rw [c1, (List.append_eq_nil.mp h).1, b (List.append_eq_nil.mp h).2]
          rfl

theorem SystemProperties_fieldWise {Time Float64 : Type} (lib : Lib Time Float64) :
    FieldWise SystemProperties.names (SystemProperties.field lib) SystemProperties.agree where
  refl := by intro S v; simp [SystemProperties.agree]
  symm := by
    intro S v w h
    exact ⟨fun a => (h.1 a).symm, fun a => (h.2.1 a).symm, fun a => (h.2.2.1 a).symm,
      fun a => (h.2.2.2.1 a).symm, fun a => (h.2.2.2.2.1 a).symm,
      fun a => (h.2.2.2.2.2.1 a).symm, fun a => (h.2.2.2.2.2.2 a).symm⟩
  trans := by
    intro S u v w h g
    exact ⟨fun a => (h.1 a).trans (g.1 a), fun a => (h.2.1 a).trans (g.2.1 a),
      fun a => (h.2.2.1 a).trans (g.2.2.1 a), fun a => (h.2.2.2.1 a).trans (g.2.2.2.1 a),
      fun a => (h.2.2.2.2.1 a).trans (g.2.2.2.2.1 a),
      fun a => (h.2.2.2.2.2.1 a).trans (g.2.2.2.2.2.1 a),
      fun a => (h.2.2.2.2.2.2 a).trans (g.2.2.2.2.2.2 a)⟩
  unknown := by
    intro key j v h
    simp [SystemProperties.field, h]
  only := by
    intro key n j v S h hS
    unfold SystemProperties.field
    rw [h]
    rcases n with _ | _ | _ | _ | _ | _ | _ | n <;> simp_all [SystemProperties.agree, Decoded.store]
  congr := by
    intro key n j v w S h hS hvw
    unfold SystemProperties.field
    rw [h]
    rcases n with _ | _ | _ | _ | _ | _ | _ | n <;> simp_all [SystemProperties.agree, Decoded.store]

theorem Locale_fieldWise :
    FieldWise Locale.names Locale.field Locale.agree where
  refl := by intro S v; simp [Locale.agree]
  symm := by
    intro S v w h
    exact ⟨fun a => (h.1 a).symm, fun a => (h.2.1 a).symm, fun a => (h.2.2 a).symm⟩
  trans := by
    intro S u v w h g
    exact ⟨fun a => (h.1 a).trans (g.1 a), fun a => (h.2.1 a).trans (g.2.1 a),
      fun a => (h.2.2 a).trans (g.2.2 a)⟩
  unknown := by
    intro key j v h
    simp [Locale.field, h]
  only := by
    intro key n j v S h hS
    unfold Locale.field
    rw [h]
    rcases n with _ | _ | _ | n <;> simp_all [Locale.agree, Decoded.store]
  congr := by
    intro key n j v w S h hS hvw
    unfold Locale.field
    rw [h]
    rcases n with _ | _ | _ | n <;> simp_all [Locale.agree, Decoded.store]

theorem Space_fieldWise {Time Float64 : Type} (lib : Lib Time Float64) :
    FieldWise Space.names (Space.field lib) Space.agree where
  refl := by intro S v; simp [Space.agree]
  symm := by
    intro S v w h
    exact ⟨fun a => (h.1 a).symm, fun a => (h.2.1 a).symm, fun a => (h.2.2 a).symm⟩
  trans := by
    intro S u v w h g
    exact ⟨fun a => (h.1 a).trans (g.1 a), fun a => (h.2.1 a).trans (g.2.1 a),
      fun a => (h.2.2 a).trans (g.2.2 a)⟩
  unknown := by
    intro key j v h
    simp [Space.field, h]
  only := by
    intro key n j v S h hS
    unfold Space.field
    rw [h]
    rcases n with _ | _ | _ | n <;> simp_all [Space.agree, Decoded.store]
  congr := by
    intro key n j v w S h hS hvw
    unfold Space.field
    rw [h]
    rcases n with _ | _ | _ | n <;> simp_all [Space.agree, Decoded.store]

theorem FieldItemType_fieldWise :
    FieldWise FieldItemType.names FieldItemType.field FieldItemType.agree where
  refl := by intro S v; simp [FieldItemType.agree]
  symm := by
    intro S v w h
    exact fun a => (h a).symm
  trans := by
    intro S u v w h g
    exact fun a => (h a).trans (g a)
  unknown := by
    intro key j v h
    simp [FieldItemType.field, h]
  only := by
    intro key n j v S h hS
    unfold FieldItemType.field
    rw [h]
    rcases n with _ | n <;> simp_all [FieldItemType.agree, Decoded.store]
  congr := by
    intro key n j v w S h hS hvw
    unfold FieldItemType.field
    rw [h]
    rcases n with _ | n <;> simp_all [FieldItemType.agree, Decoded.store]

theorem Field_fieldWise :
    FieldWise Field.names Field.field Field.agree where
  refl := by intro S v; simp [Field.agree]
  symm := by
    intro S v w h
    exact ⟨fun a => (h.1 a).symm, fun a => (h.2.1 a).symm, fun a => (h.2.2.1 a).symm,
      fun a => (h.2.2.2.1 a).symm, fun a => (h.2.2.2.2.1 a).symm,
      fun a => (h.2.2.2.2.2.1 a).symm, fun a => (h.2.2.2.2.2.2 a).symm⟩
  trans := by
    intro S u v w h g
    exact ⟨fun a => (h.1 a).trans (g.1 a), fun a => (h.2.1 a).trans (g.2.1 a),
      fun a => (h.2.2.1 a).trans (g.2.2.1 a), fun a => (h.2.2.2.1 a).trans (g.2.2.2.1 a),
      fun a => (h.2.2.2.2.1 a).trans (g.2.2.2.2.1 a),
      fun a => (h.2.2.2.2.2.1 a).trans (g.2.2.2.2.2.1 a),
      fun a => (h.2.2.2.2.2.2 a).trans (g.2.2.2.2.2.2 a)⟩
  unknown := by
    intro key j v h
    simp [Field.field, h]
  only := by
    intro key n j v S h hS
    unfold Field.field
    rw [h]
    rcases n with _ | _ | _ | _ | _ | _ | _ | n <;> simp_all [Field.agree, Decoded.store]
  congr := by
    intro key n j v w S h hS hvw
    unfold Field.field
    rw [h]
    rcases n with _ | _ | _ | _ | _ | _ | _ | n <;> simp_all [Field.agree, Decoded.store]

theorem ContentType_fieldWise {Time Float64 : Type} (lib : Lib Time Float64) :
    FieldWise ContentType.names (ContentType.field lib) ContentType.agree where
  refl := by intro S v; simp [ContentType.agree]
  symm := by
    intro S v w h
    exact ⟨fun a => (h.1 a).symm, fun a => (h.2.1 a).symm, fun a => (h.2.2.1 a).symm,
      fun a => (h.2.2.2 a).symm⟩
  trans := by
    intro S u v w h g
    exact ⟨fun a => (h.1 a).trans (g.1 a), fun a => (h.2.1 a).trans (g.2.1 a),
      fun a => (h.2.2.1 a).trans (g.2.2.1 a), fun a => (h.2.2.2 a).trans (g.2.2.2 a)⟩
  unknown := by
    intro key j v h
    simp [ContentType.field, h]
  only := by
    intro key n j v S h hS
    unfold ContentType.field
    rw [h]
    rcases n with _ | _ | _ | _ | n <;> simp_all [ContentType.agree, Decoded.store]
  congr := by
    intro key n j v w S h hS hvw
    unfold ContentType.field
    rw [h]
    rcases n with _ | _ | _ | _ | n <;> simp_all [ContentType.agree, Decoded.store]

theorem ContentTypes_fieldWise {Time Float64 : Type} (lib : Lib Time Float64) :
    FieldWise collectionNames (ContentTypes.field lib) ContentTypes.agree where
  refl := by intro S v; simp [ContentTypes.agree]
  symm := by
    intro S v w h
    exact ⟨fun a => (h.1 a).symm, fun a => (h.2.1 a).symm, fun a => (h.2.2.1 a).symm,
      fun a => (h.2.2.2.1 a).symm, fun a => (h.2.2.2.2 a).symm⟩
  trans := by
    intro S u v w h g
    exact ⟨fun a => (h.1 a).trans (g.1 a), fun a => (h.2.1 a).trans (g.2.1 a),
      fun a => (h.2.2.1 a).trans (g.2.2.1 a), fun a => (h.2.2.2.1 a).trans (g.2.2.2.1 a),
      fun a => (h.2.2.2.2 a).trans (g.2.2.2.2 a)⟩
  unknown := by
    intro key j v h
    simp [ContentTypes.field, h]
  only := by
    intro key n j v S h hS
    unfold ContentTypes.field
    rw [h]
    rcases n with _ | _ | _ | _ | _ | n <;> simp_all [ContentTypes.agree, Decoded.store]
  congr := by
    intro key n j v w S h hS hvw
    unfold ContentTypes.field
    rw [h]
    rcases n with _ | _ | _ | _ | _ | n <;> simp_all [ContentTypes.agree, Decoded.store]

theorem Entry_fieldWise {Time Float64 : Type} (lib : Lib Time Float64) :
    FieldWise Entry.names (Entry.field lib) Entry.agree where
  refl := by intro S v; simp [Entry.agree]
  symm := by
    intro S v w h
    exact ⟨fun a => (h.1 a).symm, fun a => (h.2 a).symm⟩
  trans := by
    intro S u v w h g
    exact ⟨fun a => (h.1 a).trans (g.1 a), fun a => (h.2 a).trans (g.2 a)⟩
  unknown := by
    intro key j v h
    simp [Entry.field, h]
  only := by
    intro key n j v S h hS
    unfold Entry.field
    rw [h]
    rcases n with _ | _ | n <;> simp_all [Entry.agree, Decoded.store]
  congr := by
    intro key n j v w S h hS hvw
    unfold Entry.field
    rw [h]
    rcases n with _ | _ | n <;> simp_all [Entry.agree, Decoded.store]

theorem Entries_fieldWise {Time Float64 : Type} (lib : Lib Time Float64) :
    FieldWise collectionNames (Entries.field lib) Entries.agree where
  refl := by intro S v; simp [Entries.agree]
  symm := by
    intro S v w h
    exact ⟨fun a => (h.1 a).symm, fun a => (h.2.1 a).symm, fun a => (h.2.2.1 a).symm,
      fun a => (h.2.2.2.1 a).symm, fun a => (h.2.2.2.2 a).symm⟩
  trans := by
    intro S u v w h g
    exact ⟨fun a => (h.1 a).trans (g.1 a), fun a => (h.2.1 a).trans (g.2.1 a),
      fun a => (h.2.2.1 a).trans (g.2.2.1 a), fun a => (h.2.2.2.1 a).trans (g.2.2.2.1 a),
      fun a => (h.2.2.2.2 a).trans (g.2.2.2.2 a)⟩
  unknown := by
    intro key j v h
    simp [Entries.field, h]
  only := by
    intro key n j v S h hS
    unfold Entries.field
    rw [h]
    rcases n with _ | _ | _ | _ | _ | n <;> simp_all [Entries.agree, Decoded.store]
  congr := by
    intro key n j v w S h hS hvw
    unfold Entries.field
    rw [h]
    rcases n with _ | _ | _ | _ | _ | n <;> simp_all [Entries.agree, Decoded.store]

theorem File_fieldWise {Time Float64 : Type} (lib : Lib Time Float64) :
    FieldWise File.names (File.field lib) File.agree where
  refl := by intro S v; simp [File.agree]
  symm := by
    intro S v w h
    exact ⟨fun a => (h.1 a).symm, fun a => (h.2.1 a).symm, fun a => (h.2.2.1 a).symm,
      fun a => (h.2.2.2 a).symm⟩
  trans := by
    intro S u v w h g
    exact ⟨fun a => (h.1 a).trans (g.1 a), fun a => (h.2.1 a).trans (g.2.1 a),
      fun a => (h.2.2.1 a).trans (g.2.2.1 a), fun a => (h.2.2.2 a).trans (g.2.2.2 a)⟩
  unknown := by
    intro key j v h
    simp [File.field, h]
  only := by
    intro key n j v S h hS
    unfold File.field
    rw [h]
    rcases n with _ | _ | _ | _ | n <;> simp_all [File.agree, Decoded.store]
  congr := by
    intro key n j v w S h hS hvw
    unfold File.field
    rw [h]
    rcases n with _ | _ | _ | _ | n <;> simp_all [File.agree, Decoded.store]

theorem AssetFields_fieldWise {Time Float64 : Type} (lib : Lib Time Float64) :
    FieldWise AssetFields.names (AssetFields.field lib) AssetFields.agree where
  refl := by intro S v; simp [AssetFields.agree]
  symm := by
    intro S v w h
    exact ⟨fun a => (h.1 a).symm, fun a => (h.2 a).symm⟩
  trans := by
    intro S u v w h g
    exact ⟨fun a => (h.1 a).trans (g.1 a), fun a => (h.2 a).trans (g.2 a)⟩
  unknown := by
    intro key j v h
    simp [AssetFields.field, h]
  only := by
    intro key n j v S h hS
    unfold AssetFields.field
    rw [h]
    rcases n with _ | _ | n <;> simp_all [AssetFields.agree, Decoded.store]
  congr := by
    intro key n j v w S h hS hvw
    unfold AssetFields.field
    rw [h]
    rcases n with _ | _ | n <;> simp_all [AssetFields.agree, Decoded.store]

theorem Asset_fieldWise {Time Float64 : Type} (lib : Lib Time Float64) :
    FieldWise Asset.names (Asset.field lib) Asset.agree where
  refl := by intro S v; simp [Asset.agree]
  symm := by
    intro S v w h
    exact ⟨fun a => (h.1 a).symm, fun a => (h.2 a).symm⟩
  trans := by
    intro S u v w h g
    exact ⟨fun a => (h.1 a).trans (g.1 a), fun a => (h.2 a).trans (g.2 a)⟩
  unknown := by
    intro key j v h
    simp [Asset.field, h]
  only := by
    intro key n j v S h hS
    unfold Asset.field
    rw [h]
    rcases n with _ | _ | n <;> simp_all [Asset.agree, Decoded.store]
  congr := by
    intro key n j v w S h hS hvw
    unfold Asset.field
    rw [h]
    rcases n with _ | _ | n <;> simp_all [Asset.agree, Decoded.store]

theorem Assets_fieldWise {Time Float64 : Type} (lib : Lib Time Float64) :
    FieldWise collectionNames (Assets.field lib) Assets.agree where
  refl := by intro S v; simp [Assets.agree]
  symm := by
    intro S v w h
    exact ⟨fun a => (h.1 a).symm, fun a => (h.2.1 a).symm, fun a => (h.2.2.1 a).symm,
      fun a => (h.2.2.2.1 a).symm, fun a => (h.2.2.2.2 a).symm⟩
  trans := by
    intro S u v w h g
    exact ⟨fun a => (h.1 a).trans (g.1 a), fun a => (h.2.1 a).trans (g.2.1 a),
      fun a => (h.2.2.1 a).trans (g.2.2.1 a), fun a => (h.2.2.2.1 a).trans (g.2.2.2.1 a),
      fun a => (h.2.2.2.2 a).trans (g.2.2.2.2 a)⟩
  unknown := by
    intro key j v h
    simp [Assets.field, h]
  only := by
    intro key n j v S h hS
    unfold Assets.field
    rw [h]
    rcases n with _ | _ | _ | _ | _ | n <;> simp_all [Assets.agree, Decoded.store]
  congr := by
    intro key n j v w S h hS hvw
    unfold Assets.field
    rw [h]
    rcases n with _ | _ | _ | _ | _ | n <;> simp_all [Assets.agree, Decoded.store]

/-! ## String literals -/

theorem toNat_ofNat_byte (n : Nat) (h : n < 256) : (UInt8.ofNat n).toNat = n := by
  show n % 256 = n
  exact Nat.mod_eq_of_lt h

theorem unquoteRune_u (tail : Bytes) :
    unquoteRune (92 :: 117 :: tail) =
      match getu4 (92 :: 117 :: tail) with
      | none => none
      | some rr =>
        if isSurrogate rr then
          if utf16DecodeRune rr ((getu4 (List.drop 6 (92 :: 117 :: tail))).getD RuneError)
              ≠ RuneError then
            some (utf16DecodeRune rr
              ((getu4 (List.drop 6 (92 :: 117 :: tail))).getD RuneError), 12)
          else some (RuneError, 6)
        else some (rr, 6) := rfl

theorem unquoteRune_surrogates (n : Nat) (tail : Bytes) (a b c d : UInt8) (hi lo : Nat)
    (hg : getu4 (92 :: 117 :: a :: b :: c :: d :: tail) = some hi)
    (hg2 : getu4 tail = some lo) (hsur : isSurrogate hi = true)
    (hdec : utf16DecodeRune hi lo = n) (hne : n ≠ RuneError) :
    unquoteRune (92 :: 117 :: a :: b :: c :: d :: tail) = some (n, 12) := by
  rw [unquoteRune_u, hg]
  have hd : List.drop 6 (92 :: 117 :: a :: b :: c :: d :: tail) = tail := rfl
  simp only [hsur, if_true, hd, hg2, Option.getD_some, hdec, ne_eq, hne, not_false_eq_true]

theorem isSurrogate_high (n : Nat) (h1 : 65536 ≤ n) (h2 : n < 1114112) :
    isSurrogate (55296 + (n - 65536) / 1024) = true := by
  simp only [isSurrogate, Bool.and_eq_true, decide_eq_true_eq]
  omega

theorem utf16DecodeRune_pair (n : Nat) (h1 : 65536 ≤ n) (h2 : n < 1114112) :
    utf16DecodeRune (55296 + (n - 65536) / 1024) (56320 + (n - 65536) % 1024) = n := by
  unfold utf16DecodeRune
  rw [if_pos (by omega)]
  omega

theorem char_valid (c : Char) : c.toNat < 55296 ∨ (57343 < c.toNat ∧ c.toNat < 1114112) := by
  have h := c.valid
  unfold UInt32.isValidChar Nat.isValidChar at h
  exact h

theorem unquoteFrom_one (b1 : UInt8) (rest : Bytes) (n : Nat)
    (h : unquoteRune (b1 :: rest) = some (n, 1)) :
    unquoteFrom (b1 :: rest) 0 = Char.ofNat n :: unquoteFrom rest 0 := by
  simp only [unquoteFrom, h]

theorem unquoteFrom_six (b1 b2 b3 b4 b5 b6 : UInt8) (rest : Bytes) (n : Nat)
    (h : unquoteRune (b1 :: b2 :: b3 :: b4 :: b5 :: b6 :: rest) = some (n, 6)) :
    unquoteFrom (b1 :: b2 :: b3 :: b4 :: b5 :: b6 :: rest) 0 =
      Char.ofNat n :: unquoteFrom rest 0 := by
  simp only [unquoteFrom, h]

theorem unquoteFrom_twelve (b1 b2 b3 b4 b5 b6 b7 b8 b9 b10 b11 b12 : UInt8) (rest : Bytes)
    (n : Nat)
    (h : unquoteRune (b1 :: b2 :: b3 :: b4 :: b5 :: b6 :: b7 :: b8 :: b9 :: b10 :: b11 ::
      b12 :: rest) = some (n, 12)) :
    unquoteFrom (b1 :: b2 :: b3 :: b4 :: b5 :: b6 :: b7 :: b8 :: b9 :: b10 :: b11 ::
      b12 :: rest) 0 = Char.ofNat n :: unquoteFrom rest 0 := by
  simp only [unquoteFrom, h]

theorem after_eq (p b rest : Bytes) (h : after p b = some rest) : b = p ++ rest := by
  induction p generalizing b with
  | nil =>
    simp only [after, Option.some.injEq] at h
    simp [h]
  | cons x p ih =>
    cases b with
    | nil => simp [after] at h
    | cons y b =>
      simp only [after] at h
      split_ifs at h with hxy
      rw [ih b h, UInt8.ext_iff.mpr hxy]
      rfl

theorem decodeRune_two (p0 p1 : UInt8) (rest : Bytes) (h0 : 0xC2 ≤ p0.toNat)
    (h1 : p0.toNat < 0xE0) (h2 : 0x80 ≤ p1.toNat) (h3 : p1.toNat ≤ 0xBF) :
    decodeRune (p0 :: p1 :: rest) = ((p0.toNat % 32) * 64 + p1.toNat % 64, 2) := by
  simp only [decodeRune, Bool.or_eq_true, decide_eq_true_eq]
  split_ifs <;> first | (exfalso; omega) | rfl

theorem decodeRune_three (p0 p1 p2 : UInt8) (rest : Bytes) (h0 : 0xE0 ≤ p0.toNat)
    (h1 : p0.toNat < 0xF0) (h2 : 0x80 ≤ p1.toNat) (h3 : p1.toNat ≤ 0xBF)
    (hlo : p0.toNat = 0xE0 → 0xA0 ≤ p1.toNat) (hhi : p0.toNat = 0xED → p1.toNat ≤ 0x9F)
    (h4 : 0x80 ≤ p2.toNat) (h5 : p2.toNat ≤ 0xBF) :
    decodeRune (p0 :: p1 :: p2 :: rest) =
      ((p0.toNat % 16) * 4096 + (p1.toNat % 64) * 64 + p2.toNat % 64, 3) := by
  simp only [decodeRune, Bool.or_eq_true, decide_eq_true_eq]
  split_ifs <;> first | (exfalso; omega) | rfl

set_option maxHeartbeats 800000 in
theorem decodeRune_four (p0 p1 p2 p3 : UInt8) (rest : Bytes) (r : Nat) (h0 : 0xF0 ≤ p0.toNat)
    (h1 : p0.toNat ≤ 0xF4) (h2 : 0x80 ≤ p1.toNat) (h3 : p1.toNat ≤ 0xBF)
    (hlo : p0.toNat = 0xF0 → 0x90 ≤ p1.toNat) (hhi : p0.toNat = 0xF4 → p1.toNat ≤ 0x8F)
    (h4 : 0x80 ≤ p2.toNat) (h5 : p2.toNat ≤ 0xBF) (h6 : 0x80 ≤ p3.toNat)
    (h7 : p3.toNat ≤ 0xBF)
    (hr : r = (p0.toNat % 8) * 262144 + (p1.toNat % 64) * 4096 + (p2.toNat % 64) * 64 +
        p3.toNat % 64) :
    decodeRune (p0 :: p1 :: p2 :: p3 :: rest) = (r, 4) := by
  subst hr
  simp only [decodeRune, Bool.or_eq_true, decide_eq_true_eq]
  split_ifs <;> first | (exfalso; omega) | rfl

theorem unquoteRune_high (p0 : UInt8) (rest : Bytes) (h : 128 ≤ p0.toNat) :
    unquoteRune (p0 :: rest) = some (decodeRune (p0 :: rest)) := by
  simp only [unquoteRune]
  rw [if_neg (by omega), if_neg (by omega), if_neg (by omega)]

theorem unquoteRune_low (p0 : UInt8) (rest : Bytes) (h1 : 32 ≤ p0.toNat)
    (h2 : p0.toNat < 128) (h3 : p0.toNat ≠ 34) (h4 : p0.toNat ≠ 92) :
    unquoteRune (p0 :: rest) = some (p0.toNat, 1) := by
  simp only [unquoteRune]
  rw [if_neg h4, if_neg (by omega), if_pos h2]

theorem unquoteFrom_two (b1 b2 : UInt8) (rest : Bytes) (n : Nat)
    (h : unquoteRune (b1 :: b2 :: rest) = some (n, 2)) :
    unquoteFrom (b1 :: b2 :: rest) 0 = Char.ofNat n :: unquoteFrom rest 0 := by
  simp only [unquoteFrom, h]

theorem unquoteFrom_three (b1 b2 b3 : UInt8) (rest : Bytes) (n : Nat)
    (h : unquoteRune (b1 :: b2 :: b3 :: rest) = some (n, 3)) :
    unquoteFrom (b1 :: b2 :: b3 :: rest) 0 = Char.ofNat n :: unquoteFrom rest 0 := by
  simp only [unquoteFrom, h]

theorem unquoteFrom_four (b1 b2 b3 b4 : UInt8) (rest : Bytes) (n : Nat)
    (h : unquoteRune (b1 :: b2 :: b3 :: b4 :: rest) = some (n, 4)) :
    unquoteFrom (b1 :: b2 :: b3 :: b4 :: rest) 0 = Char.ofNat n :: unquoteFrom rest 0 := by
  simp only [unquoteFrom, h]

/-- A character written as itself is read as itself. -/
theorem unquoteFrom_utf8 (n : Nat) (rest : Bytes) (h1 : 32 ≤ n) (h2 : n ≠ 34) (h3 : n ≠ 92)
    (hv : n < 55296 ∨ (57343 < n ∧ n < 1114112)) :
    unquoteFrom (utf8 n ++ rest) 0 = Char.ofNat n :: unquoteFrom rest 0 := by
  unfold utf8
  by_cases ha : n < 0x80
  · rw [if_pos ha]
    have hp := toNat_ofNat_byte n (by omega)
    generalize UInt8.ofNat n = p0 at hp
    have h := unquoteRune_low p0 rest (by omega) (by omega) (by omega) (by omega)
    rw [hp] at h
    exact unquoteFrom_one p0 rest n h
  · rw [if_neg ha]
    by_cases hb : n < 0x800
    · rw [if_pos hb]
      have hp0 := toNat_ofNat_byte (0xC0 + n / 64) (by omega)
      have hp1 := toNat_ofNat_byte (0x80 + n % 64) (by omega)
      generalize UInt8.ofNat (0xC0 + n / 64) = p0 at hp0
      generalize UInt8.ofNat (0x80 + n % 64) = p1 at hp1
      have h := unquoteRune_high p0 (p1 :: rest) (by omega)
      rw [decodeRune_two p0 p1 rest (by omega) (by omega) (by omega) (by omega)] at h
      have hn : p0.toNat % 32 * 64 + p1.toNat % 64 = n := by omega
      rw [hn] at h
      exact unquoteFrom_two p0 p1 rest n h
    · rw [if_neg hb]
      by_cases hc : n < 0x10000
      · rw [if_pos hc]
        have hp0 := toNat_ofNat_byte (0xE0 + n / 4096) (by omega)
        have hp1 := toNat_ofNat_byte (0x80 + n / 64 % 64) (by omega)
        have hp2 := toNat_ofNat_byte (0x80 + n % 64) (by omega)
        generalize UInt8.ofNat (0xE0 + n / 4096) = p0 at hp0
        generalize UInt8.ofNat (0x80 + n / 64 % 64) = p1 at hp1
        generalize UInt8.ofNat (0x80 + n % 64) = p2 at hp2
        have h := unquoteRune_high p0 (p1 :: p2 :: rest) (by omega)
        rw [decodeRune_three p0 p1 p2 rest (by omega) (by omega) (by omega) (by omega)
          (by omega) (by omega) (by omega) (by omega)] at h
        have hn : p0.toNat % 16 * 4096 + p1.toNat % 64 * 64 + p2.toNat % 64 = n := by omega
        rw [hn] at h
        exact unquoteFrom_three p0 p1 p2 rest n h
      · rw [if_neg hc]
        have hp0 := toNat_ofNat_byte (0xF0 + n / 262144) (by omega)
        have hp1 := toNat_ofNat_byte (0x80 + n / 4096 % 64) (by omega)
        have hp2 := toNat_ofNat_byte (0x80 + n / 64 % 64) (by omega)
        have hp3 := toNat_ofNat_byte (0x80 + n % 64) (by omega)
        generalize UInt8.ofNat (0xF0 + n / 262144) = p0 at hp0
        generalize UInt8.ofNat (0x80 + n / 4096 % 64) = p1 at hp1
        generalize UInt8.ofNat (0x80 + n / 64 % 64) = p2 at hp2
        generalize UInt8.ofNat (0x80 + n % 64) = p3 at hp3
        have h := unquoteRune_high p0 (p1 :: p2 :: p3 :: rest) (by omega)
        rw [decodeRune_four p0 p1 p2 p3 rest n (by omega) (by omega) (by omega) (by omega)
          (by omega) (by omega) (by omega) (by omega) (by omega) (by omega) (by omega)] at h
        exact unquoteFrom_four p0 p1 p2 p3 rest n h

theorem hexValue_of_isHexOf (d : Nat) (b : UInt8) (hd : d < 16) (h : isHexOf d b = true) :
    hexValue b = some d := by
  unfold isHexOf at h
  unfold hexValue
  simp only [Bool.and_eq_true, decide_eq_true_eq]
  split_ifs at h with h10
  · simp only [decide_eq_true_eq] at h
    rw [if_pos (by omega)]
    congr 1
    omega
  · simp only [Bool.or_eq_true, decide_eq_true_eq] at h
    rcases h with h | h
    · rw [if_neg (by omega), if_pos (by omega)]
      congr 1
      omega
    · rw [if_neg (by omega), if_neg (by omega), if_pos (by omega)]
      congr 1
      omega

theorem afterUnit_eq (n : Nat) (b rest : Bytes) (hn : n < 65536)
    (h : afterUnit n b = some rest) :
    ∃ a1 a2 a3 a4, b = 92 :: 117 :: a1 :: a2 :: a3 :: a4 :: rest ∧ getu4 b = some n := by
  match b, h with
  | b0 :: b1 :: a1 :: a2 :: a3 :: a4 :: tail, h =>
    simp only [afterUnit] at h
    split_ifs at h with hc
    obtain ⟨h0, h1, g1, g2, g3, g4⟩ := hc
    cases h
    have e0 : b0 = 92 := UInt8.ext_iff.mpr h0
    have e1 : b1 = 117 := UInt8.ext_iff.mpr h1
    subst e0 e1
    refine ⟨a1, a2, a3, a4, rfl, ?_⟩
    simp only [getu4, hexValue_of_isHexOf _ _ (by omega) g1,
      hexValue_of_isHexOf _ _ (by omega) g2, hexValue_of_isHexOf _ _ (by omega) g3,
      hexValue_of_isHexOf _ _ (by omega) g4]
    rw [if_pos ⟨rfl, rfl⟩]
    congr 1
    omega

theorem unquoteFrom_afterShort (n : Nat) (b rest : Bytes) (h : afterShort n b = some rest) :
    unquoteFrom b 0 = Char.ofNat n :: unquoteFrom rest 0 := by
  unfold afterShort shortEscape at h
  split_ifs at h with h1 h2 h3 h4 h5 h6 h7 h8 <;>
    first
    | cases h
    | (simp only at h
       rw [after_eq _ _ _ h]
       subst n
       exact unquoteFrom_two _ _ rest _ rfl)

theorem unquoteFrom_afterHex (n : Nat) (b rest : Bytes)
    (hv : n < 55296 ∨ (57343 < n ∧ n < 1114112)) (h : afterHex n b = some rest) :
    unquoteFrom b 0 = Char.ofNat n :: unquoteFrom rest 0 := by
  unfold afterHex at h
  by_cases hb : n < 65536
  · rw [if_pos hb] at h
    obtain ⟨a1, a2, a3, a4, rfl, hg⟩ := afterUnit_eq n b rest hb h
    have hs : isSurrogate n = false := by
      simp only [isSurrogate, Bool.and_eq_false_iff, decide_eq_false_iff_not]
      omega
    refine unquoteFrom_six _ _ _ _ _ _ rest n ?_
    rw [unquoteRune_u, hg]
    simp only [hs, Bool.false_eq_true, if_false]
  · rw [if_neg hb] at h
    cases hm : afterUnit (55296 + (n - 65536) / 1024) b with
    | none => simp [hm] at h
    | some mid =>
      rw [hm] at h
      simp only at h
      obtain ⟨a1, a2, a3, a4, rfl, hg⟩ := afterUnit_eq _ b mid (by omega) hm
      obtain ⟨c1, c2, c3, c4, rfl, hg2⟩ := afterUnit_eq _ mid rest (by omega) h
      have hsur := isSurrogate_high n (by omega) (by omega)
      have hdec := utf16DecodeRune_pair n (by omega) (by omega)
      have hne : n ≠ RuneError := by
        unfold RuneError
        omega
      generalize 55296 + (n - 65536) / 1024 = hi at hg hsur hdec
      generalize 56320 + (n - 65536) % 1024 = lo at hg2 hdec
      exact unquoteFrom_twelve _ _ _ _ _ _ _ _ _ _ _ _ rest n
        (unquoteRune_surrogates n _ a1 a2 a3 a4 hi lo hg hg2 hsur hdec hne)

/-- A character in one of its spellings is read as that character. -/
theorem unquoteFrom_spelled (c : Char) (b rest : Bytes) (h : spelled c b = some rest) :
    unquoteFrom b 0 = c :: unquoteFrom rest 0 := by
  have hv := char_valid c
  have hc := Char.ofNat_toNat c
  unfold spelled at h
  generalize c.toNat = n at hv hc h
  rw [← hc]
  cases hp : afterPlain n b with
  | some r =>
    rw [hp] at h
    cases h
    unfold afterPlain at hp
    split_ifs at hp with hn
    rw [after_eq _ _ _ hp]
    exact unquoteFrom_utf8 n rest hn.1 hn.2.1 hn.2.2 hv
  | none =>
    rw [hp] at h
    cases hs : afterShort n b with
    | some r =>
      rw [hs] at h
      cases h
      exact unquoteFrom_afterShort n b rest hs
    | none =>
      rw [hs] at h
      exact unquoteFrom_afterHex n b rest hv h

theorem unquoteFrom_spells (cs : List Char) (b : Bytes) (h : spells cs b = true) :
    unquoteFrom b 0 = cs := by
  induction cs generalizing b with
  | nil =>
    simp only [spells, List.isEmpty_iff] at h
    rw [h]
    rfl
  | cons c cs ih =>
    simp only [spells] at h
    cases hp : spelled c b with
    | none => simp [hp] at h
    | some rest =>
      rw [hp] at h
      rw [unquoteFrom_spelled c b rest hp, ih rest h]

/-- A literal that spells the string `s` is unquoted to `s`. -/
theorem unquote_spells (s : String) (raw : Bytes) (h : spells s.data raw = true) :
    unquote raw = s := by
  unfold unquote
  rw [unquoteFrom_spells s.data raw h]

/-! ## Integer literals -/

theorem digitsValue_digitByte (d : Nat) (h : d < 10) (l : Bytes) (a : Nat) :
    digitsValue (digitByte d :: l) a = digitsValue l (a * 10 + d) := by
  simp only [digitsValue, isDigit, digitByte, toNat_ofNat_byte (48 + d) (by omega)]
  have h1 : 48 ≤ 48 + d := by omega
  have h2 : 48 + d ≤ 57 := by omega
  simp [h1, h2]

theorem digitsValue_natDigits (fuel n : Nat) (acc : Bytes) (h : n < fuel) :
    digitsValue (natDigits fuel n acc) 0 = digitsValue acc n := by
  induction fuel generalizing n acc with
  | zero => omega
  | succ fuel ih =>
    unfold natDigits
    by_cases h10 : n < 10
    · rw [if_pos h10, digitsValue_digitByte n h10]
      simp
    · rw [if_neg h10, ih (n / 10) _ (by omega), digitsValue_digitByte _ (by omega)]
      congr 1
      omega

theorem natDigits_head (fuel n : Nat) (acc : Bytes) (h : n < fuel) :
    ∃ d l, d < 10 ∧ natDigits fuel n acc = digitByte d :: l := by
  induction fuel generalizing n acc with
  | zero => omega
  | succ fuel ih =>
    unfold natDigits
    by_cases h10 : n < 10
    · rw [if_pos h10]
      exact ⟨n, acc, h10, rfl⟩
    · rw [if_neg h10]
      exact ih (n / 10) _ (by omega)

theorem ParseInt_formatNat (n : Nat) (h : n < 2 ^ 63) :
    ParseInt (formatNat n) = some (n : Int) := by
  obtain ⟨d, l, hd, hl⟩ := natDigits_head (n + 1) n [] (by omega)
  have hv : digitsValue (natDigits (n + 1) n []) 0 = some n :=
    digitsValue_natDigits (n + 1) n [] (by omega)
  unfold formatNat
  rw [hl] at hv ⊢
  unfold ParseInt
  have hb : (digitByte d).toNat = 48 + d := toNat_ofNat_byte _ (by omega)
  have h45 : ¬ (48 + d = 45) := by omega
  have h43 : ¬ (48 + d = 43) := by omega
  simp only [hb, h45, h43, or_self, if_false, hv, if_true, h]

theorem ParseInt_neg_formatNat (n : Nat) (h : n ≤ 2 ^ 63) :
    ParseInt (45 :: formatNat n) = some (-(n : Int)) := by
  obtain ⟨d, l, hd, hl⟩ := natDigits_head (n + 1) n [] (by omega)
  have hv : digitsValue (natDigits (n + 1) n []) 0 = some n :=
    digitsValue_natDigits (n + 1) n [] (by omega)
  unfold formatNat
  rw [hl] at hv ⊢
  unfold ParseInt
  have h45 : (45 : UInt8).toNat = 45 := rfl
  simp only [h45, true_or, if_true, hv, h]

/-- The literal `formatInt i` is parsed back to `i` when `i` is an `int64`. -/
theorem ParseInt_formatInt (i : Int) (h1 : -(2 ^ 63) ≤ i) (h2 : i < 2 ^ 63) :
    ParseInt (formatInt i) = some i := by
  unfold formatInt
  by_cases hneg : i < 0
  · rw [if_pos hneg, ParseInt_neg_formatNat _ (by omega)]
    congr 1
    omega
  · rw [if_neg hneg, ParseInt_formatNat _ (by omega)]
    congr 1
    omega

/-! ## The scanner on rendered values -/

theorem run_append (s : Scanner) (a b : Bytes) :
    s.run (a ++ b) = (s.run a).bind (fun s1 => s1.run b) := by
  induction a generalizing s with
  | nil => rfl
  | cons c a ih =>
    simp only [List.cons_append, Scanner.run]
    cases s.next c with
    | none => rfl
    | some s1 => exact ih s1

theorem run_cons (s s1 : Scanner) (c : UInt8) (cs : Bytes) (h : s.next c = some s1) :
    s.run (c :: cs) = s1.run cs := by
  simp only [Scanner.run, h]

theorem stringNext_next (st st1 : Step) (c : UInt8) (h : stringNext st c = some st1)
    (ps : List Frame) (l : Bytes) (top : Option JSON) :
    (Scanner.mk st ps l top).next c = some (Scanner.mk st1 ps (c :: l) top) := by
  cases st <;> simp only [stringNext] at h <;>
    first
    | cases h
    | (simp only [Scanner.next, Scanner.more]
       split_ifs at h ⊢ <;> simp_all)

theorem isStringBody_run (raw : Bytes) (st : Step) (h : isStringBody st raw = true)
    (ps : List Frame) (l : Bytes) (top : Option JSON) :
    (Scanner.mk st ps l top).run raw = some (Scanner.mk .inString ps (raw.reverse ++ l) top) := by
  induction raw generalizing st l with
  | nil =>
    simp only [isStringBody, decide_eq_true_eq] at h
    subst h
    rfl
  | cons c cs ih =>
    simp only [isStringBody] at h
    cases hn : stringNext st c with
    | none => simp [hn] at h
    | some st1 =>
      rw [hn] at h
      simp only [Scanner.run, stringNext_next st st1 c hn, ih st1 h, List.reverse_cons,
        List.append_assoc, List.singleton_append]

theorem numberNext_next (st st1 : Step) (c : UInt8) (hst : st ≠ .beginValue)
    (h : numberNext st c = some st1) (ps : List Frame) (l : Bytes) (top : Option JSON) :
    (Scanner.mk st ps l top).next c = some (Scanner.mk st1 ps (c :: l) top) ∧
      st1 ≠ .beginValue := by
  cases st <;> simp only [numberNext] at h <;>
    first
    | cases h
    | exact absurd rfl hst
    | (simp only [Scanner.next, Scanner.more, state0, stateESign]
       split_ifs at h ⊢ <;> cases h <;> simp_all)

theorem stateBeginValue_number (s : Scanner) (c : UInt8) (st1 : Step)
    (h : (c.toNat = 45 ∧ st1 = .neg) ∨ (c.toNat = 48 ∧ st1 = .num0) ∨
      (49 ≤ c.toNat ∧ c.toNat ≤ 57 ∧ st1 = .num1)) :
    isSpace c = false ∧ c.toNat ≠ 93 ∧
      stateBeginValue s c = some (Scanner.mk st1 s.parseState [c] s.top) := by
  have hsp : isSpace c = false := by
    simp only [isSpace, Bool.or_eq_false_iff, decide_eq_false_iff_not]
    omega
  have h93 : c.toNat ≠ 93 := by omega
  refine ⟨hsp, h93, ?_⟩
  have n1 : c.toNat ≠ 123 := by omega
  have n2 : c.toNat ≠ 91 := by omega
  have n3 : c.toNat ≠ 34 := by omega
  unfold stateBeginValue
  rw [hsp]
  simp only [Bool.false_eq_true, if_false, n1, n2, n3]
  rcases h with ⟨h1, h2⟩ | ⟨h1, h2⟩ | ⟨h1, h2, h3⟩
  · subst h2
    rw [if_pos h1]
  · subst h2
    rw [if_neg (by omega), if_pos h1]
  · subst h3
    have n4 : c.toNat ≠ 116 := by omega
    have n5 : c.toNat ≠ 102 := by omega
    have n6 : c.toNat ≠ 110 := by omega
    rw [if_neg (by omega), if_neg (by omega), if_neg n4, if_neg n5, if_neg n6]
    simp [h1, h2]

theorem numberNext_start (st1 : Step) (c : UInt8) (h : numberNext .beginValue c = some st1)
    (s : Scanner) (hs : s.step = .beginValue ∨ s.step = .beginValueOrEmpty) :
    s.next c = some (Scanner.mk st1 s.parseState [c] s.top) ∧ st1 ≠ .beginValue := by
  simp only [numberNext] at h
  have hc : (c.toNat = 45 ∧ st1 = .neg) ∨ (c.toNat = 48 ∧ st1 = .num0) ∨
      (49 ≤ c.toNat ∧ c.toNat ≤ 57 ∧ st1 = .num1) := by
    split_ifs at h with a b c1
    · cases h
      exact Or.inl ⟨a, rfl⟩
    · cases h
      exact Or.inr (Or.inl ⟨b, rfl⟩)
    · cases h
      simp only [Bool.and_eq_true, decide_eq_true_eq] at c1
      exact Or.inr (Or.inr ⟨c1.1, c1.2, rfl⟩)
  have hne : st1 ≠ .beginValue := by
    rcases hc with ⟨_, h2⟩ | ⟨_, h2⟩ | ⟨_, _, h2⟩ <;> subst h2 <;> simp
  obtain ⟨hsp, h93, hb⟩ := stateBeginValue_number s c st1 hc
  rcases hs with hs | hs
  · simp only [Scanner.next, hs]
    exact ⟨hb, hne⟩
  · simp only [Scanner.next, hs, hsp, h93]
    exact ⟨hb, hne⟩

theorem emit_mk (st : Step) (ps : List Frame) (l : Bytes) (top : Option JSON) (s : Scanner)
    (v : JSON) (hp : s.parseState = ps) (ht : s.top = top) :
    (Scanner.mk st ps l top).emit v = s.emit v := by
  subst hp ht
  rfl

theorem number_end (st : Step) (d : UInt8) (hf : numberFinal st = true) (hd : isDelim d = true)
    (ps : List Frame) (l : Bytes) (top : Option JSON) :
    (Scanner.mk st ps l top).next d =
      stateEndValue ((Scanner.mk st ps l top).emit (.number l.reverse)) d := by
  simp only [isDelim, Bool.or_eq_true, decide_eq_true_eq] at hd
  have h1 : isDigit d = false := by
    unfold isDigit
    simp only [Bool.and_eq_false_iff, decide_eq_false_iff_not]
    omega
  have h2 : d.toNat ≠ 46 := by omega
  have h3 : (d.toNat = 101 || d.toNat = 69) = false := by
    simp only [Bool.or_eq_false_iff, decide_eq_false_iff_not]
    omega
  cases st <;>
    first
    | (simp [numberFinal] at hf; done)
    | simp [Scanner.next, state0, Scanner.endNumber, h1, h2, h3]

theorem isNumberLit_run (raw : Bytes) (st : Step) (hst : st ≠ .beginValue)
    (h : isNumberLit st raw = true) (ps : List Frame) (l : Bytes) (top : Option JSON) :
    ∃ st1, numberFinal st1 = true ∧
      (Scanner.mk st ps l top).run raw = some (Scanner.mk st1 ps (raw.reverse ++ l) top) := by
  induction raw generalizing st l with
  | nil => exact ⟨st, h, rfl⟩
  | cons c cs ih =>
    simp only [isNumberLit] at h
    cases hn : numberNext st c with
    | none => simp [hn] at h
    | some st1 =>
      rw [hn] at h
      obtain ⟨h1, h2⟩ := numberNext_next st st1 c hst hn ps l top
      obtain ⟨st2, hf, hr⟩ := ih st1 h2 h (c :: l)
      refine ⟨st2, hf, ?_⟩
      simp only [Scanner.run, h1, hr, List.reverse_cons, List.append_assoc,
        List.singleton_append]

theorem emit_step (s : Scanner) (v : JSON) : (s.emit v).step = .endValue := by
  unfold Scanner.emit
  split
  · rfl
  · rfl
  · rfl
  · split <;> rfl

/-- The scanner reads a number literal as one value, up to the delimiter. -/
theorem run_number (raw : Bytes) (h : isNumberLit .beginValue raw = true) (s : Scanner)
    (hs : s.step = .beginValue ∨ s.step = .beginValueOrEmpty) (d : UInt8) (rest : Bytes)
    (hd : isDelim d = true) :
    s.run (raw ++ d :: rest) = (s.emit (.number raw)).run (d :: rest) := by
  cases raw with
  | nil => simp [isNumberLit, numberFinal] at h
  | cons c cs =>
    simp only [isNumberLit] at h
    cases hn : numberNext .beginValue c with
    | none => simp [hn] at h
    | some st1 =>
      rw [hn] at h
      obtain ⟨h1, h2⟩ := numberNext_start st1 c hn s hs
      obtain ⟨st2, hf, hr⟩ := isNumberLit_run cs st1 h2 h s.parseState [c] s.top
      have he := number_end st2 d hf hd s.parseState (cs.reverse ++ [c]) s.top
      rw [emit_mk st2 s.parseState _ s.top s _ rfl rfl] at he
      simp only [List.reverse_append, List.reverse_cons, List.reverse_nil, List.nil_append,
        List.reverse_reverse, List.singleton_append] at he
      have hstep : (s.emit (.number (c :: cs))).next d =
          stateEndValue (s.emit (.number (c :: cs))) d := by
        simp only [Scanner.next, emit_step]
      rw [show (c :: cs) ++ d :: rest = c :: (cs ++ d :: rest) from rfl,
        run_cons _ _ _ _ h1, run_append, hr]
      simp only [Option.some_bind, Scanner.run, he, hstep]

theorem emit_next (s : Scanner) (v : JSON) (d : UInt8) :
    (s.emit v).next d = stateEndValue (s.emit v) d := by
  simp only [Scanner.next, emit_step]

theorem isDelim_cases (d : UInt8) (h : isDelim d = true) :
    d.toNat = 44 ∨ d.toNat = 93 ∨ d.toNat = 125 ∨ d.toNat = 32 := by
  simp only [isDelim, Bool.or_eq_true, decide_eq_true_eq] at h
  omega

/-- After the closing bracket the scanner goes on as after any other value. -/
theorem popParseState_run (s : Scanner) (ps : List Frame) (v : JSON) (d : UInt8)
    (rest : Bytes) :
    (s.popParseState ps v).run (d :: rest) =
      ((Scanner.mk .endValue ps [] s.top).emit v).run (d :: rest) := by
  cases ps with
  | nil =>
    simp only [Scanner.popParseState, Scanner.emit, List.isEmpty_nil, if_true, Scanner.run,
      Scanner.next, stateEndValue]
  | cons f ps =>
    simp only [Scanner.popParseState, List.isEmpty_cons, Bool.false_eq_true, if_false]
    rw [emit_mk s.step (f :: ps) [] s.top (Scanner.mk .endValue (f :: ps) [] s.top) v rfl rfl]

theorem next_value (s : Scanner) (c : UInt8)
    (hs : s.step = .beginValue ∨ s.step = .beginValueOrEmpty) (h1 : isSpace c = false)
    (h2 : c.toNat ≠ 93) : s.next c = stateBeginValue s c := by
  rcases hs with hs | hs
  · simp only [Scanner.next, hs]
  · simp only [Scanner.next, hs, h1, h2, Bool.false_eq_true, if_false]

theorem run_string (raw : Bytes) (h : isStringBody .inString raw = true) (s : Scanner)
    (hs : ValueStart s) (rest : Bytes) :
    s.run (34 :: (raw ++ [34]) ++ rest) = (s.emit (.string raw)).run rest := by
  have h1 : s.next 34 = some (Scanner.mk .inString s.parseState [] s.top) := by
    rw [next_value s 34 hs.1 rfl (by decide)]
    rfl
  have h2 := isStringBody_run raw .inString h s.parseState [] s.top
  have h4 : ∀ l, (Scanner.mk .inString s.parseState l s.top).next 34 =
      some (s.emit (.string l.reverse)) := fun _ => rfl
  have h3 : (Scanner.mk .inString s.parseState (raw.reverse ++ []) s.top).next 34 =
      some (s.emit (.string raw)) := by
    rw [h4, List.append_nil, List.reverse_reverse]
  rw [show 34 :: (raw ++ [34]) ++ rest = 34 :: (raw ++ 34 :: rest) by simp,
    run_cons _ _ _ _ h1, run_append, h2, Option.some_bind, run_cons _ _ _ _ h3]

theorem run_null (s : Scanner) (hs : ValueStart s) (rest : Bytes) :
    s.run ([110, 117, 108, 108] ++ rest) = (s.emit .null).run rest := by
  have h1 : s.next 110 = some (Scanner.mk .n s.parseState [] s.top) := by
    rw [next_value s 110 hs.1 rfl (by decide)]
    rfl
  rw [show [110, 117, 108, 108] ++ rest = 110 :: 117 :: 108 :: 108 :: rest from rfl,
    run_cons _ _ _ _ h1]
  rfl

theorem run_true (s : Scanner) (hs : ValueStart s) (rest : Bytes) :
    s.run ([116, 114, 117, 101] ++ rest) = (s.emit (.bool true)).run rest := by
  have h1 : s.next 116 = some (Scanner.mk .t s.parseState [] s.top) := by
    rw [next_value s 116 hs.1 rfl (by decide)]
    rfl
  rw [show [116, 114, 117, 101] ++ rest = 116 :: 114 :: 117 :: 101 :: rest from rfl,
    run_cons _ _ _ _ h1]
  rfl

theorem run_false (s : Scanner) (hs : ValueStart s) (rest : Bytes) :
    s.run ([102, 97, 108, 115, 101] ++ rest) = (s.emit (.bool false)).run rest := by
  have h1 : s.next 102 = some (Scanner.mk .f s.parseState [] s.top) := by
    rw [next_value s 102 hs.1 rfl (by decide)]
    rfl
  rw [show [102, 97, 108, 115, 101] ++ rest = 102 :: 97 :: 108 :: 115 :: 101 :: rest from rfl,
    run_cons _ _ _ _ h1]
  rfl

theorem next_open_array (s : Scanner)
    (hs : s.step = .beginValue ∨ s.step = .beginValueOrEmpty)
    (hd : s.parseState.length + 1 ≤ maxNestingDepth) :
    s.next 91 =
      some (Scanner.mk .beginValueOrEmpty (.parseArrayValue [] :: s.parseState) [] s.top) := by
  rw [next_value s 91 hs rfl (by decide)]
  show s.pushParseState _ _ = _
  unfold Scanner.pushParseState
  rw [if_pos hd]

theorem next_open_object (s : Scanner)
    (hs : s.step = .beginValue ∨ s.step = .beginValueOrEmpty)
    (hd : s.parseState.length + 1 ≤ maxNestingDepth) :
    s.next 123 =
      some (Scanner.mk .beginStringOrEmpty (.parseObjectKey [] [] :: s.parseState) [] s.top) := by
  rw [next_value s 123 hs rfl (by decide)]
  show s.pushParseState _ _ = _
  unfold Scanner.pushParseState
  rw [if_pos hd]

theorem renderTail_head (es : List JSON) :
    ∃ d t, JSON.renderTail es = d :: t ∧ isDelim d = true := by
  cases es with
  | nil => exact ⟨93, [], by simp [JSON.renderTail], rfl⟩
  | cons e es => exact ⟨44, e.render ++ JSON.renderTail es, by simp [JSON.renderTail], rfl⟩

theorem renderMembersTail_head (ms : List (Bytes × JSON)) :
    ∃ d t, JSON.renderMembersTail ms = d :: t ∧ isDelim d = true := by
  cases ms with
  | nil => exact ⟨125, [], by simp [JSON.renderMembersTail], rfl⟩
  | cons m ms =>
    obtain ⟨k, v⟩ := m
    exact ⟨44, 34 :: (k ++ 34 :: 58 :: (v.render ++ JSON.renderMembersTail ms)),
      by simp [JSON.renderMembersTail], rfl⟩

/-- The scanner reads a key and its colon. -/
theorem run_key (key : Bytes) (h : isStringBody .inString key = true) (st : Step)
    (hst : st = .beginString ∨ st = .beginStringOrEmpty) (acc : List (Bytes × JSON))
    (k0 : Bytes) (ps : List Frame) (l : Bytes) (top : Option JSON) (rest : Bytes) :
    (Scanner.mk st (.parseObjectKey acc k0 :: ps) l top).run (34 :: (key ++ 34 :: 58 :: rest)) =
      (Scanner.mk .beginValue (.parseObjectValue acc key :: ps) [] top).run rest := by
  have h1 : (Scanner.mk st (.parseObjectKey acc k0 :: ps) l top).next 34 =
      some (Scanner.mk .inString (.parseObjectKey acc k0 :: ps) [] top) := by
    rcases hst with hst | hst <;> subst hst <;> rfl
  have h2 := isStringBody_run key .inString h (.parseObjectKey acc k0 :: ps) [] top
  have h3 : ∀ l1, (Scanner.mk .inString (.parseObjectKey acc k0 :: ps) l1 top).run
      (34 :: 58 :: rest) =
      (Scanner.mk .beginValue (.parseObjectValue acc l1.reverse :: ps) [] top).run rest :=
    fun _ => rfl
  rw [run_cons _ _ _ _ h1, run_append, h2, Option.some_bind, h3, List.append_nil,
    List.reverse_reverse]

mutual
/-- The scanner reads the text of a value as that value, up to the delimiter
after it. -/
theorem run_render : ∀ (j : JSON), j.wellFormed = true → ∀ (s : Scanner), ValueStart s →
    s.parseState.length + j.depth ≤ maxNestingDepth →
    ∀ (d : UInt8) (rest : Bytes), isDelim d = true →
    s.run (j.render ++ d :: rest) = (s.emit j).run (d :: rest)
  | .null, _, s, hs, _, d, rest, _ => run_null s hs (d :: rest)
  | .bool true, _, s, hs, _, d, rest, _ => run_true s hs (d :: rest)
  | .bool false, _, s, hs, _, d, rest, _ => run_false s hs (d :: rest)
  | .number raw, hw, s, hs, _, d, rest, hd => run_number raw hw s hs.1 d rest hd
  | .string raw, hw, s, hs, _, d, rest, _ => run_string raw hw s hs (d :: rest)
  | .array [], _, s, hs, hdep, d, rest, _ => by
    have h1 := next_open_array s hs.1 (by simp only [JSON.depth] at hdep; omega)
    have h2 : (Scanner.mk .beginValueOrEmpty (.parseArrayValue [] :: s.parseState) [] s.top).next
        93 = some ((Scanner.mk .beginValueOrEmpty (.parseArrayValue [] :: s.parseState) []
          s.top).popParseState s.parseState (.array [])) := rfl
    rw [show (JSON.array []).render ++ d :: rest = 91 :: 93 :: d :: rest from rfl,
      run_cons _ _ _ _ h1, run_cons _ _ _ _ h2, popParseState_run,
      emit_mk _ s.parseState _ s.top s _ rfl rfl]
  | .array (e :: es), hw, s, hs, hdep, d, rest, hd => by
    simp only [JSON.wellFormed, JSON.wellFormedElems, Bool.and_eq_true] at hw
    simp only [JSON.depth, JSON.depthElems] at hdep
    have h1 := next_open_array s hs.1 (by omega)
    obtain ⟨d1, t1, ht, hd1⟩ := renderTail_head es
    have hv : ValueStart
        (Scanner.mk .beginValueOrEmpty (.parseArrayValue [] :: s.parseState) [] s.top) :=
      ⟨Or.inr rfl, by intro ms k ps hc; cases hc⟩
    have h2 := run_render e hw.1 _ hv
      (by simp only [List.length_cons]; omega) d1 (t1 ++ d :: rest) hd1
    have h3 := run_renderTail es hw.2 [e] s.parseState [] s.top (by omega) d rest hd
    rw [show (JSON.array (e :: es)).render ++ d :: rest =
        91 :: (e.render ++ (JSON.renderTail es ++ d :: rest)) by simp [JSON.render],
      run_cons _ _ _ _ h1]
    rw [ht] at h3 ⊢
    rw [List.cons_append, h2]
    exact h3.trans (by rw [emit_mk _ s.parseState _ s.top s _ rfl rfl]; rfl)
  | .object [], _, s, hs, hdep, d, rest, _ => by
    have h1 := next_open_object s hs.1 (by simp only [JSON.depth] at hdep; omega)
    have h2 : (Scanner.mk .beginStringOrEmpty (.parseObjectKey [] [] :: s.parseState) []
        s.top).next 125 = some ((Scanner.mk .beginStringOrEmpty
          (.parseObjectValue [] [] :: s.parseState) [] s.top).popParseState s.parseState
            (.object [])) := rfl
    rw [show (JSON.object []).render ++ d :: rest = 123 :: 125 :: d :: rest from rfl,
      run_cons _ _ _ _ h1, run_cons _ _ _ _ h2, popParseState_run,
      emit_mk _ s.parseState _ s.top s _ rfl rfl]
  | .object ((k, v) :: ms), hw, s, hs, hdep, d, rest, hd => by
    simp only [JSON.wellFormed, JSON.wellFormedMembers, Bool.and_eq_true] at hw
    simp only [JSON.depth, JSON.depthMembers] at hdep
    have h1 := next_open_object s hs.1 (by omega)
    obtain ⟨d1, t1, ht, hd1⟩ := renderMembersTail_head ms
    have hv : ValueStart
        (Scanner.mk .beginValue (.parseObjectValue [] k :: s.parseState) [] s.top) :=
      ⟨Or.inl rfl, by intro ms k ps hc; cases hc⟩
    have h2 := run_render v hw.1.2 _ hv
      (by simp only [List.length_cons]; omega) d1 (t1 ++ d :: rest) hd1
    have h3 := run_renderMembersTail ms hw.2 [(k, v)] k s.parseState [] s.top (by omega) d rest
      hd
    rw [show (JSON.object ((k, v) :: ms)).render ++ d :: rest =
        123 :: 34 :: (k ++ 34 :: 58 :: (v.render ++ (JSON.renderMembersTail ms ++ d :: rest)))
        by simp [JSON.render],
      run_cons _ _ _ _ h1, run_key k hw.1.1 _ (Or.inr rfl)]
    rw [ht] at h3 ⊢
    rw [List.cons_append, h2]
    exact h3.trans (by rw [emit_mk _ s.parseState _ s.top s _ rfl rfl]; rfl)
theorem run_renderTail : ∀ (es : List JSON), JSON.wellFormedElems es = true →
    ∀ (acc : List JSON) (ps : List Frame) (l : Bytes) (top : Option JSON),
    ps.length + 1 + JSON.depthElems es ≤ maxNestingDepth →
    ∀ (d : UInt8) (rest : Bytes), isDelim d = true →
    (Scanner.mk .endValue (.parseArrayValue acc :: ps) l top).run
        (JSON.renderTail es ++ d :: rest) =
      ((Scanner.mk .endValue ps [] top).emit (.array (acc.reverse ++ es))).run (d :: rest)
  | [], _, acc, ps, l, top, _, d, rest, _ => by
    have h2 : (Scanner.mk .endValue (.parseArrayValue acc :: ps) l top).next 93 =
        some ((Scanner.mk .endValue (.parseArrayValue acc :: ps) l top).popParseState ps
          (.array acc.reverse)) := rfl
    rw [show JSON.renderTail [] ++ d :: rest = 93 :: d :: rest from rfl,
      run_cons _ _ _ _ h2, popParseState_run, List.append_nil]
  | e :: es, hw, acc, ps, l, top, hdep, d, rest, hd => by
    simp only [JSON.wellFormedElems, Bool.and_eq_true] at hw
    simp only [JSON.depthElems] at hdep
    have h1 : (Scanner.mk .endValue (.parseArrayValue acc :: ps) l top).next 44 =
        some (Scanner.mk .beginValue (.parseArrayValue acc :: ps) l top) := rfl
    obtain ⟨d1, t1, ht, hd1⟩ := renderTail_head es
    have hv : ValueStart (Scanner.mk .beginValue (.parseArrayValue acc :: ps) l top) :=
      ⟨Or.inl rfl, by intro ms k ps hc; cases hc⟩
    have h2 := run_render e hw.1 _ hv
      (by simp only [List.length_cons]; omega) d1 (t1 ++ d :: rest) hd1
    have h3 := run_renderTail es hw.2 (e :: acc) ps [] top (by omega) d rest hd
    rw [show JSON.renderTail (e :: es) ++ d :: rest =
        44 :: (e.render ++ (JSON.renderTail es ++ d :: rest)) by simp [JSON.renderTail],
      run_cons _ _ _ _ h1]
    rw [ht] at h3 ⊢
    rw [List.cons_append, h2]
    exact h3.trans (by simp)
theorem run_renderMembersTail : ∀ (ms : List (Bytes × JSON)),
    JSON.wellFormedMembers ms = true →
    ∀ (acc : List (Bytes × JSON)) (k0 : Bytes) (ps : List Frame) (l : Bytes)
      (top : Option JSON),
    ps.length + 1 + JSON.depthMembers ms ≤ maxNestingDepth →
    ∀ (d : UInt8) (rest : Bytes), isDelim d = true →
    (Scanner.mk .endValue (.parseObjectValue acc k0 :: ps) l top).run
        (JSON.renderMembersTail ms ++ d :: rest) =
      ((Scanner.mk .endValue ps [] top).emit (.object (acc.reverse ++ ms))).run (d :: rest)
  | [], _, acc, k0, ps, l, top, _, d, rest, _ => by
    have h2 : (Scanner.mk .endValue (.parseObjectValue acc k0 :: ps) l top).next 125 =
        some ((Scanner.mk .endValue (.parseObjectValue acc k0 :: ps) l top).popParseState ps
          (.object acc.reverse)) := rfl
    rw [show JSON.renderMembersTail [] ++ d :: rest = 125 :: d :: rest from rfl,
      run_cons _ _ _ _ h2, popParseState_run, List.append_nil]
  | (k, v) :: ms, hw, acc, k0, ps, l, top, hdep, d, rest, hd => by
    simp only [JSON.wellFormedMembers, Bool.and_eq_true] at hw
    simp only [JSON.depthMembers] at hdep
    have h1 : (Scanner.mk .endValue (.parseObjectValue acc k0 :: ps) l top).next 44 =
        some (Scanner.mk .beginString (.parseObjectKey acc k0 :: ps) l top) := rfl
    obtain ⟨d1, t1, ht, hd1⟩ := renderMembersTail_head ms
    have hv : ValueStart (Scanner.mk .beginValue (.parseObjectValue acc k :: ps) [] top) :=
      ⟨Or.inl rfl, by intro ms k ps hc; cases hc⟩
    have h2 := run_render v hw.1.2 _ hv
      (by simp only [List.length_cons]; omega) d1 (t1 ++ d :: rest) hd1
    have h3 := run_renderMembersTail ms hw.2 ((k, v) :: acc) k ps [] top (by omega) d rest hd
    rw [show JSON.renderMembersTail ((k, v) :: ms) ++ d :: rest =
        44 :: 34 :: (k ++ 34 :: 58 :: (v.render ++ (JSON.renderMembersTail ms ++ d :: rest)))
        by simp [JSON.renderMembersTail],
      run_cons _ _ _ _ h1, run_key k hw.1.1 _ (Or.inl rfl)]
    rw [ht] at h3 ⊢
    rw [List.cons_append, h2]
    exact h3.trans (by simp)
end

theorem eof_eq (s : Scanner) :
    s.eof =
      match s.run [32] with
      | some s2 => if s2.step = .endTop then s2.top else none
      | none => none := by
  unfold Scanner.eof
  by_cases h : s.step = .endTop
  · have h1 : s.next 32 = some s := by
      simp only [Scanner.next, h]
      rfl
    simp only [h, if_true, Scanner.run, h1]
  · simp only [h, if_false, Scanner.run]
    cases s.next 32 <;> rfl

theorem parseJSON_eq (data : Bytes) :
    parseJSON data =
      match (Scanner.mk .beginValue [] [] none).run (data ++ [32]) with
      | some s2 => if s2.step = .endTop then s2.top else none
      | none => none := by
  unfold parseJSON
  rw [run_append]
  cases (Scanner.mk .beginValue [] [] none).run data with
  | none => rfl
  | some s => exact eof_eq s

/-- The scanner reads the compact text of a JSON value as that value, when the
literals of the value are JSON literals and the value is nested no deeper than
the scanner allows. -/
theorem parseJSON_render (j : JSON) (hw : j.wellFormed = true)
    (hd : j.depth ≤ maxNestingDepth) : parseJSON j.render = some j := by
  have hv : ValueStart (Scanner.mk .beginValue [] [] none) :=
    ⟨Or.inl rfl, by intro ms k ps hc; cases hc⟩
  rw [parseJSON_eq,
    run_render j hw _ hv (by simpa using hd) 32 [] rfl]
  rfl

/-! ## Decoding what a JSON value renders -/

theorem decodeString_renders (j : JSON) (s cur : String) (h : rendersString j s) :
    decodeString j cur = Decoded.mk s [] none := by
  cases j with
  | string raw =>
    have h1 : spells s.data raw = true := h
    simp only [decodeString, unquote_spells s raw h1]
  | _ => exact absurd h (by simp [rendersString])

theorem decodeBool_renders (j : JSON) (b cur : Bool) (h : rendersBool j b) :
    decodeBool j cur = Decoded.mk b [] none := by
  unfold rendersBool at h
  subst h
  rfl

theorem decodeInt64_renders (j : JSON) (i cur : Int) (h : rendersInt j i) :
    decodeInt64 j cur = Decoded.mk i [] none := by
  obtain ⟨rfl, h1, h2⟩ := h
  simp only [decodeInt64, ParseInt_formatInt i h1 h2]

section AnyRenders

variable {Time Float64 : Type}

theorem decodeTime_renders (lib : Lib Time Float64) (j : JSON) (t cur : Time)
    (h : rendersTime lib j t) : decodeTime lib j cur = Decoded.mk t [] none := by
  cases j with
  | string raw =>
    have h1 : lib.parseRFC3339 raw = .ok t := h
    simp only [decodeTime, h1]
  | _ => exact absurd h (by simp [rendersTime])

theorem mapSet_new {α : Type} (m : List (String × α)) (key : String) (x : α)
    (h : key ∉ m.map Prod.fst) : mapSet m key x = m ++ [(key, x)] := by
  induction m with
  | nil => rfl
  | cons e m ih =>
    obtain ⟨k, y⟩ := e
    simp only [List.map_cons, List.mem_cons, not_or] at h
    simp only [mapSet, List.cons_append]
    rw [if_neg (fun hk => h.1 hk.symm), ih h.2]

mutual
theorem valueInterface_renders (lib : Lib Time Float64) :
    ∀ (a : GoAny Float64) (j : JSON), GoAny.renders lib j a → valueInterface lib j = (a, [])
  | .nil, j, h => by
    have h1 : j = .null := by simpa only [GoAny.renders] using h
    subst h1
    rfl
  | .bool b, j, h => by
    have h1 : j = .bool b := by simpa only [GoAny.renders] using h
    subst h1
    rfl
  | .float64 f, j, h => by
    cases j with
    | number raw =>
      have h1 : lib.ParseFloat raw = some f := by simpa only [GoAny.renders] using h
      simp only [valueInterface, h1]
    | _ => simp [GoAny.renders] at h
  | .string s, j, h => by
    cases j with
    | string raw =>
      have h1 : spells s.data raw = true := by
        simpa only [GoAny.renders, rendersString] using h
      simp only [valueInterface, unquote_spells s raw h1]
    | _ => simp [GoAny.renders, rendersString] at h
  | .slice xs, j, h => by
    cases j with
    | array js =>
      have h1 : GoAny.rendersElems lib js xs := by simpa only [GoAny.renders] using h
      simp only [valueInterface, arrayInterface_renders lib xs js h1]
    | _ => simp [GoAny.renders] at h
  | .map kvs, j, h => by
    cases j with
    | object ms =>
      have h1 : (kvs.map Prod.fst).Nodup ∧ GoAny.rendersEntries lib ms kvs := by
        simpa only [GoAny.renders] using h
      simp only [valueInterface,
        objectInterface_renders lib kvs ms [] h1.2 h1.1 (by simp), List.nil_append]
    | _ => simp [GoAny.renders] at h
theorem arrayInterface_renders (lib : Lib Time Float64) :
    ∀ (xs : List (GoAny Float64)) (js : List JSON), GoAny.rendersElems lib js xs →
      arrayInterface lib js = (xs, [])
  | [], js, h => by
    have h1 : js = [] := by simpa only [GoAny.rendersElems] using h
    subst h1
    rfl
  | x :: xs, js, h => by
    cases js with
    | nil => simp [GoAny.rendersElems] at h
    | cons j js1 =>
      have h1 : GoAny.renders lib j x ∧ GoAny.rendersElems lib js1 xs := by
        simpa only [GoAny.rendersElems] using h
      simp only [arrayInterface, valueInterface_renders lib x j h1.1,
        arrayInterface_renders lib xs js1 h1.2, List.append_nil]
theorem objectInterface_renders (lib : Lib Time Float64) :
    ∀ (kvs : List (String × GoAny Float64)) (ms : List (Bytes × JSON))
      (m : List (String × GoAny Float64)),
      GoAny.rendersEntries lib ms kvs → (kvs.map Prod.fst).Nodup →
      (∀ k ∈ kvs.map Prod.fst, k ∉ m.map Prod.fst) →
      objectInterface lib ms m = (m ++ kvs, [])
  | [], ms, m, h, _, _ => by
    have h1 : ms = [] := by simpa only [GoAny.rendersEntries] using h
    subst h1
    simp [objectInterface]
  | (key, x) :: kvs, ms, m, h, hn, hd => by
    cases ms with
    | nil => simp [GoAny.rendersEntries] at h
    | cons e ms1 =>
      obtain ⟨k, j⟩ := e
      have h1 : spells key.data k = true ∧ GoAny.renders lib j x ∧
          GoAny.rendersEntries lib ms1 kvs := by
        simpa only [GoAny.rendersEntries] using h
      simp only [List.map_cons, List.nodup_cons] at hn
      have hk : key ∉ m.map Prod.fst := hd key (by simp)
      have hd2 : ∀ k1 ∈ kvs.map Prod.fst, k1 ∉ (m ++ [(key, x)]).map Prod.fst := by
        intro k1 hk1
        simp only [List.map_append, List.map_cons, List.map_nil, List.mem_append,
          List.mem_singleton, not_or]
        refine ⟨hd k1 (by simp [hk1]), ?_⟩
        intro he
        subst he
        exact hn.1 hk1
      simp only [objectInterface, valueInterface_renders lib x j h1.2.1,
        unquote_spells key k h1.1, mapSet_new m key x hk,
        objectInterface_renders lib kvs ms1 (m ++ [(key, x)]) h1.2.2 hn.2 hd2,
        List.append_assoc, List.singleton_append, List.nil_append]
end

/-- A JSON value that renders the Go value `a` is decoded to `a` in an
`interface{}`, whatever it held. -/
theorem decodeAny_renders (lib : Lib Time Float64) (j : JSON) (a cur : GoAny Float64)
    (h : GoAny.renders lib j a) : decodeAny lib j cur = Decoded.mk a [] none := by
  have hv := valueInterface_renders lib a j h
  cases j with
  | number raw =>
    cases a with
    | float64 f =>
      have h1 : lib.ParseFloat raw = some f := by simpa only [GoAny.renders] using h
      simp only [decodeAny, h1]
    | _ => simp [GoAny.renders, rendersString] at h
  | _ => simp only [decodeAny, hv]

end AnyRenders

/-! ## Slices and structs -/

theorem decodeElems_renders {α : Type} (zero : α) (dec : Decoder α)
    (renders : JSON → α → Prop)
    (hdec : ∀ j x, renders j x → dec j zero = Decoded.mk x [] none) (js : List JSON)
    (xs : List α) (h : List.Forall₂ renders js xs) :
    decodeElems zero dec js [] = Decoded.mk (xs, []) [] none := by
  induction h with
  | nil => rfl
  | cons hjx _ ih =>
    simp only [decodeElems, List.headD_nil, List.tail_nil, hdec _ _ hjx, ih, List.append_nil]

/-- An array that renders a slice is decoded to it in a nil slice. -/
theorem decodeSlice_renders {α : Type} (goType : String) (zero : α) (dec : Decoder α)
    (renders : JSON → α → Prop)
    (hdec : ∀ j x, renders j x → dec j zero = Decoded.mk x [] none) (j : JSON) (s : Slice α)
    (h : rendersSlice renders j s) :
    decodeSlice goType zero dec j Slice.nil = Decoded.mk s [] none := by
  cases j with
  | array js =>
    cases s with
    | nil => simp [rendersSlice] at h
    | mk xs spare =>
      cases spare with
      | cons y ys => simp [rendersSlice] at h
      | nil =>
        have h1 : List.Forall₂ renders js xs := h
        have h2 := decodeElems_renders zero dec renders hdec js xs h1
        cases h1 with
        | nil => rfl
        | cons _ _ =>
          simp only [decodeSlice, Slice.elems, Slice.spare, List.append_nil, h2]
  | _ => simp [rendersSlice] at h

theorem pick_cons_true (key : String) (k : Bytes) (j : JSON) (ms : List (Bytes × JSON))
    (h : spells key.data k = true) : pick key ((k, j) :: ms) = j :: pick key ms := by
  simp [pick, List.filter_cons, h]

theorem pick_cons_false (key : String) (k : Bytes) (j : JSON) (ms : List (Bytes × JSON))
    (h : spells key.data k = false) : pick key ((k, j) :: ms) = pick key ms := by
  simp [pick, List.filter_cons, h]

/-- A literal spells one string only. -/
theorem spells_other (key other : String) (k : Bytes) (h : spells key.data k = true)
    (hne : other ≠ key) : spells other.data k = false := by
  cases ho : spells other.data k with
  | false => rfl
  | true =>
    have h1 := unquote_spells key k h
    have h2 := unquote_spells other k ho
    exact absurd (h2.symm.trans h1) hne

theorem pending_cons {β : Type} (renders : JSON → β → Prop) (zero : β) (j : JSON)
    (js : List JSON) (x0 x : β) (h : pending renders zero (j :: js) x0 x) :
    js = [] ∧ x0 = zero ∧ renders j x := by
  cases js with
  | nil => exact ⟨rfl, h⟩
  | cons _ _ => exact absurd h (by simp [pending])

theorem pending_of_fieldIs {β : Type} (renders : JSON → β → Prop) (zero : β) (js : List JSON)
    (x : β) (h : fieldIs renders zero js x) : pending renders zero js zero x := by
  match js, h with
  | [], h => exact h.symm
  | [_], h => exact ⟨rfl, h⟩

/-- The loop of the decoder's `object` over members that render a struct:
`Inv ms v` says what the struct `v` holds when the members `ms` are still to
come. -/
theorem decodeMembers_renders {α : Type} (keys names : List String)
    (fld : String → Decoder α) (target : α) (Inv : List (Bytes × JSON) → α → Prop)
    (hnil : ∀ v0, Inv [] v0 → v0 = target)
    (hskip : ∀ k j ms v0, (∀ key ∈ keys, spells key.data k = false) →
      Inv ((k, j) :: ms) v0 → Inv ms v0)
    (hstep : ∀ key ∈ keys, ∀ k j ms v0, spells key.data k = true → Inv ((k, j) :: ms) v0 →
      ∃ v1, fld key j v0 = Decoded.mk v1 [] none ∧ Inv ms v1)
    (hunk : ∀ key j v0, fieldIndex names key = none → fld key j v0 = Decoded.mk v0 [] none)
    (ms : List (Bytes × JSON)) (v0 : α) (hk : known keys names ms = true) (h : Inv ms v0) :
    decodeMembers fld ms v0 = Decoded.mk target [] none := by
  induction ms generalizing v0 with
  | nil => simp only [decodeMembers, hnil v0 h]
  | cons m ms ih =>
    obtain ⟨k, j⟩ := m
    simp only [known, List.all_cons, Bool.and_eq_true, Bool.or_eq_true, List.any_eq_true,
      Option.isNone_iff_eq_none] at hk
    obtain ⟨hk1, hk2⟩ := hk
    have hk3 : known keys names ms = true := by
      simp only [known, List.all_eq_true, Bool.or_eq_true, List.any_eq_true,
        Option.isNone_iff_eq_none]
      simpa only [List.all_eq_true, Bool.or_eq_true, List.any_eq_true,
        Option.isNone_iff_eq_none] using hk2
    by_cases hany : ∃ key, key ∈ keys ∧ spells key.data k = true
    · obtain ⟨key, hkey, hs⟩ := hany
      obtain ⟨v1, h1, h2⟩ := hstep key hkey k j ms v0 hs h
      simp only [decodeMembers, unquote_spells key k hs, h1, ih v1 hk3 h2, List.append_nil]
    · have hall : ∀ key ∈ keys, spells key.data k = false := by
        intro key hkey
        cases hs : spells key.data k with
        | false => rfl
        | true => exact absurd ⟨key, hkey, hs⟩ hany
      have hnone : fieldIndex names (unquote k) = none := by
        rcases hk1 with hx | hx
        · exact absurd hx hany
        · exact hx
      simp only [decodeMembers, hunk _ j v0 hnone, ih v0 hk3 (hskip k j ms v0 hall h),
        List.append_nil]

section StructRenders

variable {Time Float64 : Type}

theorem SystemProperties_field_space (lib : Lib Time Float64) (j : JSON)
    (v : SystemProperties Time Float64) :
    SystemProperties.field lib "space" j v =
      (decodeAny lib j v.Space).store (fun x => { v with Space := x }) := rfl

theorem SystemProperties_field_type (lib : Lib Time Float64) (j : JSON)
    (v : SystemProperties Time Float64) :
    SystemProperties.field lib "type" j v =
      (decodeString j v.Type_).store (fun x => { v with Type_ := x }) := rfl

theorem SystemProperties_field_id (lib : Lib Time Float64) (j : JSON)
    (v : SystemProperties Time Float64) :
    SystemProperties.field lib "id" j v =
      (decodeString j v.Id).store (fun x => { v with Id := x }) := rfl

theorem SystemProperties_field_contentType (lib : Lib Time Float64) (j : JSON)
    (v : SystemProperties Time Float64) :
    SystemProperties.field lib "contentType" j v =
      (decodeAny lib j v.ContentType).store (fun x => { v with ContentType := x }) := rfl

theorem SystemProperties_field_revision (lib : Lib Time Float64) (j : JSON)
    (v : SystemProperties Time Float64) :
    SystemProperties.field lib "revision" j v =
      (decodeInt64 j v.Revision).store (fun x => { v with Revision := x }) := rfl

theorem SystemProperties_field_createdAt (lib : Lib Time Float64) (j : JSON)
    (v : SystemProperties Time Float64) :
    SystemProperties.field lib "createdAt" j v =
      (decodeTime lib j v.CreatedAt).store (fun x => { v with CreatedAt := x }) := rfl

theorem SystemProperties_field_updatedAt (lib : Lib Time Float64) (j : JSON)
    (v : SystemProperties Time Float64) :
    SystemProperties.field lib "updatedAt" j v =
      (decodeTime lib j v.UpdatedAt).store (fun x => { v with UpdatedAt := x }) := rfl

/-- A JSON value that renders the `SystemProperties` `v` is decoded to `v` in a zero
`SystemProperties`, without an error. -/
theorem SystemProperties_decode_renders (lib : Lib Time Float64) (j : JSON)
    (v : SystemProperties Time Float64) (h : SystemProperties.renders lib j v) :
    SystemProperties.decode lib j (SystemProperties.zero lib) = Decoded.mk v [] none := by
  cases j with
  | object ms =>
    obtain ⟨hk, h0, h1, h2, h3, h4, h5, h6⟩ := h
    refine decodeMembers_renders SystemProperties.keys SystemProperties.names
        (SystemProperties.field lib) v
      (fun ms v0 =>
        pending (GoAny.renders lib) GoAny.nil (pick "space" ms) v0.Space v.Space ∧
        pending rendersString "" (pick "type" ms) v0.Type_ v.Type_ ∧
        pending rendersString "" (pick "id" ms) v0.Id v.Id ∧
        pending (GoAny.renders lib) GoAny.nil (pick "contentType" ms) v0.ContentType v.ContentType ∧
        pending rendersInt 0 (pick "revision" ms) v0.Revision v.Revision ∧
        pending (rendersTime lib) lib.zeroTime (pick "createdAt" ms) v0.CreatedAt v.CreatedAt ∧
        pending (rendersTime lib) lib.zeroTime (pick "updatedAt" ms) v0.UpdatedAt v.UpdatedAt)
      ?_ ?_ ?_ ?_ ms (SystemProperties.zero lib) hk
      ⟨pending_of_fieldIs _ _ _ _ h0, pending_of_fieldIs _ _ _ _ h1, pending_of_fieldIs _ _ _ _ h2,
        pending_of_fieldIs _ _ _ _ h3, pending_of_fieldIs _ _ _ _ h4, pending_of_fieldIs _ _ _ _
        h5, pending_of_fieldIs _ _ _ _ h6⟩
    · intro v0 hv
      obtain ⟨e0, e1, e2, e3, e4, e5, e6⟩ := hv
      rcases v0 with ⟨a0, a1, a2, a3, a4, a5, a6⟩
      rcases v with ⟨b0, b1, b2, b3, b4, b5, b6⟩
      have e0 : a0 = b0 := e0
      have e1 : a1 = b1 := e1
      have e2 : a2 = b2 := e2
      have e3 : a3 = b3 := e3
      have e4 : a4 = b4 := e4
      have e5 : a5 = b5 := e5
      have e6 : a6 = b6 := e6
      subst e0 e1 e2 e3 e4 e5 e6
      rfl
    · intro k j ms v0 hall hv
      obtain ⟨e0, e1, e2, e3, e4, e5, e6⟩ := hv
      rw [pick_cons_false _ k j ms (hall "space" (by decide))] at e0
      rw [pick_cons_false _ k j ms (hall "type" (by decide))] at e1
      rw [pick_cons_false _ k j ms (hall "id" (by decide))] at e2
      rw [pick_cons_false _ k j ms (hall "contentType" (by decide))] at e3
      rw [pick_cons_false _ k j ms (hall "revision" (by decide))] at e4
      rw [pick_cons_false _ k j ms (hall "createdAt" (by decide))] at e5
      rw [pick_cons_false _ k j ms (hall "updatedAt" (by decide))] at e6
      exact ⟨e0, e1, e2, e3, e4, e5, e6⟩
    · intro key hkey k j ms v0 hs hv
      obtain ⟨e0, e1, e2, e3, e4, e5, e6⟩ := hv
      simp only [SystemProperties.keys, List.mem_cons, List.mem_singleton, List.not_mem_nil,
        or_false] at hkey
      rcases hkey with rfl | rfl | rfl | rfl | rfl | rfl | rfl
      · rw [pick_cons_true _ k j ms hs] at e0
        rw [pick_cons_false _ k j ms (spells_other _ _ k hs (by decide))] at e1
        rw [pick_cons_false _ k j ms (spells_other _ _ k hs (by decide))] at e2
        rw [pick_cons_false _ k j ms (spells_other _ _ k hs (by decide))] at e3
        rw [pick_cons_false _ k j ms (spells_other _ _ k hs (by decide))] at e4
        rw [pick_cons_false _ k j ms (spells_other _ _ k hs (by decide))] at e5
        rw [pick_cons_false _ k j ms (spells_other _ _ k hs (by decide))] at e6
        obtain ⟨en, ez, er⟩ := pending_cons _ _ _ _ _ _ e0
        refine ⟨{ v0 with Space := v.Space }, ?_, ?_⟩
        · rw [SystemProperties_field_space, ez,
            decodeAny_renders lib j _ _ er]
          rfl
        · exact ⟨(by rw [en]; exact rfl), e1, e2, e3, e4, e5, e6⟩
      · rw [pick_cons_false _ k j ms (spells_other _ _ k hs (by decide))] at e0
        rw [pick_cons_true _ k j ms hs] at e1
        rw [pick_cons_false _ k j ms (spells_other _ _ k hs (by decide))] at e2
        rw [pick_cons_false _ k j ms (spells_other _ _ k hs (by decide))] at e3
        rw [pick_cons_false _ k j ms (spells_other _ _ k hs (by decide))] at e4
        rw [pick_cons_false _ k j ms (spells_other _ _ k hs (by decide))] at e5
        rw [pick_cons_false _ k j ms (spells_other _ _ k hs (by decide))] at e6
        obtain ⟨en, ez, er⟩ := pending_cons _ _ _ _ _ _ e1
        refine ⟨{ v0 with Type_ := v.Type_ }, ?_, ?_⟩
        · rw [SystemProperties_field_type, ez,
            decodeString_renders j _ _ er]
          rfl
        · exact ⟨e0, (by rw [en]; exact rfl), e2, e3, e4, e5, e6⟩
      · rw [pick_cons_false _ k j ms (spells_other _ _ k hs (by decide))] at e0
        rw [pick_cons_false _ k j ms (spells_other _ _ k hs (by decide))] at e1
        rw [pick_cons_true _ k j ms hs] at e2
        rw [pick_cons_false _ k j ms (spells_other _ _ k hs (by decide))] at e3
        rw [pick_cons_false _ k j ms (spells_other _ _ k hs (by decide))] at e4
        rw [pick_cons_false _ k j ms (spells_other _ _ k hs (by decide))] at e5
        rw [pick_cons_false _ k j ms (spells_other _ _ k hs (by decide))] at e6
        obtain ⟨en, ez, er⟩ := pending_cons _ _ _ _ _ _ e2
        refine ⟨{ v0 with Id := v.Id }, ?_, ?_⟩
        · rw [SystemProperties_field_id, ez,
            decodeString_renders j _ _ er]
          rfl
        · exact ⟨e0, e1, (by rw [en]; exact rfl), e3, e4, e5, e6⟩
      · rw [pick_cons_false _ k j ms (spells_other _ _ k hs (by decide))] at e0
        rw [pick_cons_false _ k j ms (spells_other _ _ k hs (by decide))] at e1
        rw [pick_cons_false _ k j ms (spells_other _ _ k hs (by decide))] at e2
        rw [pick_cons_true _ k j ms hs] at e3
        rw [pick_cons_false _ k j ms (spells_other _ _ k hs (by decide))] at e4
        rw [pick_cons_false _ k j ms (spells_other _ _ k hs (by decide))] at e5
        rw [pick_cons_false _ k j ms (spells_other _ _ k hs (by decide))] at e6
        obtain ⟨en, ez, er⟩ := pending_cons _ _ _ _ _ _ e3
        refine ⟨{ v0 with ContentType := v.ContentType }, ?_, ?_⟩
        · rw [SystemProperties_field_contentType, ez,
            decodeAny_renders lib j _ _ er]
          rfl
        · exact ⟨e0, e1, e2, (by rw [en]; exact rfl), e4, e5, e6⟩
      · rw [pick_cons_false _ k j ms (spells_other _ _ k hs (by decide))] at e0
        rw [pick_cons_false _ k j ms (spells_other _ _ k hs (by decide))] at e1
        rw [pick_cons_false _ k j ms (spells_other _ _ k hs (by decide))] at e2
        rw [pick_cons_false _ k j ms (spells_other _ _ k hs (by decide))] at e3
        rw [pick_cons_true _ k j ms hs] at e4
        rw [pick_cons_false _ k j ms (spells_other _ _ k hs (by decide))] at e5
        rw [pick_cons_false _ k j ms (spells_other _ _ k hs (by decide))] at e6
        obtain ⟨en, ez, er⟩ := pending_cons _ _ _ _ _ _ e4
        refine ⟨{ v0 with Revision := v.Revision }, ?_, ?_⟩
        · rw [SystemProperties_field_revision, ez,
            decodeInt64_renders j _ _ er]
          rfl
        · exact ⟨e0, e1, e2, e3, (by rw [en]; exact rfl), e5, e6⟩
      · rw [pick_cons_false _ k j ms (spells_other _ _ k hs (by decide))] at e0
        rw [pick_cons_false _ k j ms (spells_other _ _ k hs (by decide))] at e1
        rw [pick_cons_false _ k j ms (spells_other _ _ k hs (by decide))] at e2
        rw [pick_cons_false _ k j ms (spells_other _ _ k hs (by decide))] at e3
        rw [pick_cons_false _ k j ms (spells_other _ _ k hs (by decide))] at e4
        rw [pick_cons_true _ k j ms hs] at e5
        rw [pick_cons_false _ k j ms (spells_other _ _ k hs (by decide))] at e6
        obtain ⟨en, ez, er⟩ := pending_cons _ _ _ _ _ _ e5
        refine ⟨{ v0 with CreatedAt := v.CreatedAt }, ?_, ?_⟩
        · rw [SystemProperties_field_createdAt, ez,
            decodeTime_renders lib j _ _ er]
          rfl
        · exact ⟨e0, e1, e2, e3, e4, (by rw [en]; exact rfl), e6⟩
      · rw [pick_cons_false _ k j ms (spells_other _ _ k hs (by decide))] at e0
        rw [pick_cons_false _ k j ms (spells_other _ _ k hs (by decide))] at e1
        rw [pick_cons_false _ k j ms (spells_other _ _ k hs (by decide))] at e2
        rw [pick_cons_false _ k j ms (spells_other _ _ k hs (by decide))] at e3
        rw [pick_cons_false _ k j ms (spells_other _ _ k hs (by decide))] at e4
        rw [pick_cons_false _ k j ms (spells_other _ _ k hs (by decide))] at e5
        rw [pick_cons_true _ k j ms hs] at e6
        obtain ⟨en, ez, er⟩ := pending_cons _ _ _ _ _ _ e6
        refine ⟨{ v0 with UpdatedAt := v.UpdatedAt }, ?_, ?_⟩
        · rw [SystemProperties_field_updatedAt, ez,
            decodeTime_renders lib j _ _ er]
          rfl
        · exact ⟨e0, e1, e2, e3, e4, e5, (by rw [en]; exact rfl)⟩
    · intro key j v0 hnone
      simp only [SystemProperties.field, hnone]
  | _ => exact absurd h (by simp [SystemProperties.renders])

theorem Locale_field_code (j : JSON) (v : Locale) :
    Locale.field "code" j v =
      (decodeString j v.Code).store (fun x => { v with Code := x }) := rfl

theorem Locale_field_default (j : JSON) (v : Locale) :
    Locale.field "default" j v =
      (decodeBool j v.Default).store (fun x => { v with Default := x }) := rfl

theorem Locale_field_name (j : JSON) (v : Locale) :
    Locale.field "name" j v =
      (decodeString j v.Name).store (fun x => { v with Name := x }) := rfl

/-- A JSON value that renders the `Locale` `v` is decoded to `v` in a zero
`Locale`, without an error. -/
theorem Locale_decode_renders (j : JSON)
    (v : Locale) (h : Locale.renders j v) :
    Locale.decode j Locale.zero = Decoded.mk v [] none := by
  cases j with
  | object ms =>
    obtain ⟨hk, h0, h1, h2⟩ := h
    refine decodeMembers_renders Locale.keys Locale.names (Locale.field) v
      (fun ms v0 =>
        pending rendersString "" (pick "code" ms) v0.Code v.Code ∧
        pending rendersBool false (pick "default" ms) v0.Default v.Default ∧
        pending rendersString "" (pick "name" ms) v0.Name v.Name)
      ?_ ?_ ?_ ?_ ms Locale.zero hk
      ⟨pending_of_fieldIs _ _ _ _ h0, pending_of_fieldIs _ _ _ _ h1, pending_of_fieldIs _ _ _ _ h2⟩
    · intro v0 hv
      obtain ⟨e0, e1, e2⟩ := hv
      rcases v0 with ⟨a0, a1, a2⟩
      rcases v with ⟨b0, b1, b2⟩
      have e0 : a0 = b0 := e0
      have e1 : a1 = b1 := e1
      have e2 : a2 = b2 := e2
      subst e0 e1 e2
      rfl
    · intro k j ms v0 hall hv
      obtain ⟨e0, e1, e2⟩ := hv
      rw [pick_cons_false _ k j ms (hall "code" (by decide))] at e0
      rw [pick_cons_false _ k j ms (hall "default" (by decide))] at e1
      rw [pick_cons_false _ k j ms (hall "name" (by decide))] at e2
      exact ⟨e0, e1, e2⟩
    · intro key hkey k j ms v0 hs hv
      obtain ⟨e0, e1, e2⟩ := hv
      simp only [Locale.keys, List.mem_cons, List.mem_singleton, List.not_mem_nil,
        or_false] at hkey
      rcases hkey with rfl | rfl | rfl
      · rw [pick_cons_true _ k j ms hs] at e0
        rw [pick_cons_false _ k j ms (spells_other _ _ k hs (by decide))] at e1
        rw [pick_cons_false _ k j ms (spells_other _ _ k hs (by decide))] at e2
        obtain ⟨en, ez, er⟩ := pending_cons _ _ _ _ _ _ e0
        refine ⟨{ v0 with Code := v.Code }, ?_, ?_⟩
        · rw [Locale_field_code, ez,
            decodeString_renders j _ _ er]
          rfl
        · exact ⟨(by rw [en]; exact rfl), e1, e2⟩
      · rw [pick_cons_false _ k j ms (spells_other _ _ k hs (by decide))] at e0
        rw [pick_cons_true _ k j ms hs] at e1
        rw [pick_cons_false _ k j ms (spells_other _ _ k hs (by decide))] at e2
        obtain ⟨en, ez, er⟩ := pending_cons _ _ _ _ _ _ e1
        refine ⟨{ v0 with Default := v.Default }, ?_, ?_⟩
        · rw [Locale_field_default, ez,
            decodeBool_renders j _ _ er]
          rfl
        · exact ⟨e0, (by rw [en]; exact rfl), e2⟩
      · rw [pick_cons_false _ k j ms (spells_other _ _ k hs (by decide))] at e0
        rw [pick_cons_false _ k j ms (spells_other _ _ k hs (by decide))] at e1
        rw [pick_cons_true _ k j ms hs] at e2
        obtain ⟨en, ez, er⟩ := pending_cons _ _ _ _ _ _ e2
        refine ⟨{ v0 with Name := v.Name }, ?_, ?_⟩
        · rw [Locale_field_name, ez,
            decodeString_renders j _ _ er]
          rfl
        · exact ⟨e0, e1, (by rw [en]; exact rfl)⟩
    · intro key j v0 hnone
      simp only [Locale.field, hnone]
  | _ => exact absurd h (by simp [Locale.renders])

theorem Space_field_sys (lib : Lib Time Float64) (j : JSON) (v : Contentful.Space Time Float64) :
    Contentful.Space.field lib "sys" j v =
      (SystemProperties.decode lib j v.Sys).store (fun x => { v with Sys := x }) := rfl

theorem Space_field_name (lib : Lib Time Float64) (j : JSON) (v : Contentful.Space Time Float64) :
    Contentful.Space.field lib "name" j v =
      (decodeString j v.Name).store (fun x => { v with Name := x }) := rfl

theorem Space_field_locales (lib : Lib Time Float64) (j : JSON)
    (v : Contentful.Space Time Float64) :
    Contentful.Space.field lib "locales" j v =
      (decodeSlice "[]contentful.Locale" Locale.zero Locale.decode j v.Locales).store
        (fun x => { v with Locales := x }) := rfl

/-- A JSON value that renders the `Space` `v` is decoded to `v` in a zero
`Space`, without an error. -/
theorem Space_decode_renders (lib : Lib Time Float64) (j : JSON)
    (v : Contentful.Space Time Float64) (h : Contentful.Space.renders lib j v) :
    Contentful.Space.decode lib j (Contentful.Space.zero lib) = Decoded.mk v [] none := by
  cases j with
  | object ms =>
    obtain ⟨hk, h0, h1, h2⟩ := h
    refine decodeMembers_renders Space.keys Space.names (Contentful.Space.field lib) v
      (fun ms v0 =>
        pending (SystemProperties.renders lib) (SystemProperties.zero lib) (pick "sys" ms)
          v0.Sys v.Sys ∧
        pending rendersString "" (pick "name" ms) v0.Name v.Name ∧
        pending (rendersSlice Locale.renders) Slice.nil (pick "locales" ms) v0.Locales v.Locales)
      ?_ ?_ ?_ ?_ ms (Contentful.Space.zero lib) hk
      ⟨pending_of_fieldIs _ _ _ _ h0, pending_of_fieldIs _ _ _ _ h1, pending_of_fieldIs _ _ _ _ h2⟩
    · intro v0 hv
      obtain ⟨e0, e1, e2⟩ := hv
      rcases v0 with ⟨a0, a1, a2⟩
      rcases v with ⟨b0, b1, b2⟩
      have e0 : a0 = b0 := e0
      have e1 : a1 = b1 := e1
      have e2 : a2 = b2 := e2
      subst e0 e1 e2
      rfl
    · intro k j ms v0 hall hv
      obtain ⟨e0, e1, e2⟩ := hv
      rw [pick_cons_false _ k j ms (hall "sys" (by decide))] at e0
      rw [pick_cons_false _ k j ms (hall "name" (by decide))] at e1
      rw [pick_cons_false _ k j ms (hall "locales" (by decide))] at e2
      exact ⟨e0, e1, e2⟩
    · intro key hkey k j ms v0 hs hv
      obtain ⟨e0, e1, e2⟩ := hv
      simp only [Space.keys, List.mem_cons, List.mem_singleton, List.not_mem_nil,
        or_false] at hkey
      rcases hkey with rfl | rfl | rfl
      · rw [pick_cons_true _ k j ms hs] at e0
        rw [pick_cons_false _ k j ms (spells_other _ _ k hs (by decide))] at e1
        rw [pick_cons_false _ k j ms (spells_other _ _ k hs (by decide))] at e2
        obtain ⟨en, ez, er⟩ := pending_cons _ _ _ _ _ _ e0
        refine ⟨{ v0 with Sys := v.Sys }, ?_, ?_⟩
        · rw [Space_field_sys, ez,
            SystemProperties_decode_renders lib j _ er]
          rfl
        · exact ⟨(by rw [en]; exact rfl), e1, e2⟩
      · rw [pick_cons_false _ k j ms (spells_other _ _ k hs (by decide))] at e0
        rw [pick_cons_true _ k j ms hs] at e1
        rw [pick_cons_false _ k j ms (spells_other _ _ k hs (by decide))] at e2
        obtain ⟨en, ez, er⟩ := pending_cons _ _ _ _ _ _ e1
        refine ⟨{ v0 with Name := v.Name }, ?_, ?_⟩
        · rw [Space_field_name, ez,
            decodeString_renders j _ _ er]
          rfl
        · exact ⟨e0, (by rw [en]; exact rfl), e2⟩
      · rw [pick_cons_false _ k j ms (spells_other _ _ k hs (by decide))] at e0
        rw [pick_cons_false _ k j ms (spells_other _ _ k hs (by decide))] at e1
        rw [pick_cons_true _ k j ms hs] at e2
        obtain ⟨en, ez, er⟩ := pending_cons _ _ _ _ _ _ e2
        refine ⟨{ v0 with Locales := v.Locales }, ?_, ?_⟩
        · rw [Space_field_locales, ez,
            decodeSlice_renders "[]contentful.Locale" Locale.zero Locale.decode Locale.renders
              (fun j x h => Locale_decode_renders j x h) j _ er]
          rfl
        · exact ⟨e0, e1, (by rw [en]; exact rfl)⟩
    · intro key j v0 hnone
      simp only [Contentful.Space.field, hnone]
  | _ => exact absurd h (by simp [Contentful.Space.renders])

theorem FieldItemType_field_type (j : JSON) (v : FieldItemType) :
    FieldItemType.field "type" j v =
      (decodeString j v.Type_).store (fun x => { v with Type_ := x }) := rfl

/-- A JSON value that renders the `FieldItemType` `v` is decoded to `v` in a zero
`FieldItemType`, without an error. -/
theorem FieldItemType_decode_renders (j : JSON)
    (v : FieldItemType) (h : FieldItemType.renders j v) :
    FieldItemType.decode j FieldItemType.zero = Decoded.mk v [] none := by
  cases j with
  | object ms =>
    obtain ⟨hk, h0⟩ := h
    refine decodeMembers_renders FieldItemType.keys FieldItemType.names (FieldItemType.field) v
      (fun ms v0 =>
        pending rendersString "" (pick "type" ms) v0.Type_ v.Type_)
      ?_ ?_ ?_ ?_ ms FieldItemType.zero hk
      (pending_of_fieldIs _ _ _ _ h0)
    · intro v0 hv
      have e0 := hv
      rcases v0 with ⟨a0⟩
      rcases v with ⟨b0⟩
      have e0 : a0 = b0 := e0
      subst e0
      rfl
    · intro k j ms v0 hall hv
      have e0 := hv
      rw [pick_cons_false _ k j ms (hall "type" (by decide))] at e0
      exact e0
    · intro key hkey k j ms v0 hs hv
      have e0 := hv
      simp only [FieldItemType.keys, List.mem_cons, List.mem_singleton, List.not_mem_nil,
        or_false] at hkey
      subst hkey
      rw [pick_cons_true _ k j ms hs] at e0
      obtain ⟨en, ez, er⟩ := pending_cons _ _ _ _ _ _ e0
      refine ⟨{ v0 with Type_ := v.Type_ }, ?_, ?_⟩
      · rw [FieldItemType_field_type, ez,
          decodeString_renders j _ _ er]
        rfl
      · show pending _ _ (pick "type" ms) _ _
        rw [en]
        exact rfl
    · intro key j v0 hnone
      simp only [FieldItemType.field, hnone]
  | _ => exact absurd h (by simp [FieldItemType.renders])

theorem Field_field_id (j : JSON) (v : Field) :
    Field.field "id" j v =
      (decodeString j v.Id).store (fun x => { v with Id := x }) := rfl

theorem Field_field_name (j : JSON) (v : Field) :
    Field.field "name" j v =
      (decodeString j v.Name).store (fun x => { v with Name := x }) := rfl

theorem Field_field_type (j : JSON) (v : Field) :
    Field.field "type" j v =
      (decodeString j v.Type_).store (fun x => { v with Type_ := x }) := rfl

theorem Field_field_linkType (j : JSON) (v : Field) :
    Field.field "linkType" j v =
      (decodeString j v.LinkType).store (fun x => { v with LinkType := x }) := rfl

theorem Field_field_items (j : JSON) (v : Field) :
    Field.field "items" j v =
      (FieldItemType.decode j v.Items).store (fun x => { v with Items := x }) := rfl

theorem Field_field_required (j : JSON) (v : Field) :
    Field.field "required" j v =
      (decodeBool j v.Required).store (fun x => { v with Required := x }) := rfl

theorem Field_field_localized (j : JSON) (v : Field) :
    Field.field "localized" j v =
      (decodeBool j v.Localized).store (fun x => { v with Localized := x }) := rfl

/-- A JSON value that renders the `Field` `v` is decoded to `v` in a zero
`Field`, without an error. -/
theorem Field_decode_renders (j : JSON)
    (v : Field) (h : Field.renders j v) :
    Field.decode j Field.zero = Decoded.mk v [] none := by
  cases j with
  | object ms =>
    obtain ⟨hk, h0, h1, h2, h3, h4, h5, h6⟩ := h
    refine decodeMembers_renders Field.keys Field.names (Field.field) v
      (fun ms v0 =>
        pending rendersString "" (pick "id" ms) v0.Id v.Id ∧
        pending rendersString "" (pick "name" ms) v0.Name v.Name ∧
        pending rendersString "" (pick "type" ms) v0.Type_ v.Type_ ∧
        pending rendersString "" (pick "linkType" ms) v0.LinkType v.LinkType ∧
        pending FieldItemType.renders FieldItemType.zero (pick "items" ms) v0.Items v.Items ∧
        pending rendersBool false (pick "required" ms) v0.Required v.Required ∧
        pending rendersBool false (pick "localized" ms) v0.Localized v.Localized)
      ?_ ?_ ?_ ?_ ms Field.zero hk
      ⟨pending_of_fieldIs _ _ _ _ h0, pending_of_fieldIs _ _ _ _ h1, pending_of_fieldIs _ _ _ _ h2,
        pending_of_fieldIs _ _ _ _ h3, pending_of_fieldIs _ _ _ _ h4, pending_of_fieldIs _ _ _ _
        h5, pending_of_fieldIs _ _ _ _ h6⟩
    · intro v0 hv
      obtain ⟨e0, e1, e2, e3, e4, e5, e6⟩ := hv
      rcases v0 with ⟨a0, a1, a2, a3, a4, a5, a6⟩
      rcases v with ⟨b0, b1, b2, b3, b4, b5, b6⟩
      have e0 : a0 = b0 := e0
      have e1 : a1 = b1 := e1
      have e2 : a2 = b2 := e2
      have e3 : a3 = b3 := e3
      have e4 : a4 = b4 := e4
      have e5 : a5 = b5 := e5
      have e6 : a6 = b6 := e6
      subst e0 e1 e2 e3 e4 e5 e6
      rfl
    · intro k j ms v0 hall hv
      obtain ⟨e0, e1, e2, e3, e4, e5, e6⟩ := hv
      rw [pick_cons_false _ k j ms (hall "id" (by decide))] at e0
      rw [pick_cons_false _ k j ms (hall "name" (by decide))] at e1
      rw [pick_cons_false _ k j ms (hall "type" (by decide))] at e2
      rw [pick_cons_false _ k j ms (hall "linkType" (by decide))] at e3
      rw [pick_cons_false _ k j ms (hall "items" (by decide))] at e4
      rw [pick_cons_false _ k j ms (hall "required" (by decide))] at e5
      rw [pick_cons_false _ k j ms (hall "localized" (by decide))] at e6
      exact ⟨e0, e1, e2, e3, e4, e5, e6⟩
    · intro key hkey k j ms v0 hs hv
      obtain ⟨e0, e1, e2, e3, e4, e5, e6⟩ := hv
      simp only [Field.keys, List.mem_cons, List.mem_singleton, List.not_mem_nil,
        or_false] at hkey
      rcases hkey with rfl | rfl | rfl | rfl | rfl | rfl | rfl
      · rw [pick_cons_true _ k j ms hs] at e0
        rw [pick_cons_false _ k j ms (spells_other _ _ k hs (by decide))] at e1
        rw [pick_cons_false _ k j ms (spells_other _ _ k hs (by decide))] at e2
        rw [pick_cons_false _ k j ms (spells_other _ _ k hs (by decide))] at e3
        rw [pick_cons_false _ k j ms (spells_other _ _ k hs (by decide))] at e4
        rw [pick_cons_false _ k j ms (spells_other _ _ k hs (by decide))] at e5
        rw [pick_cons_false _ k j ms (spells_other _ _ k hs (by decide))] at e6
        obtain ⟨en, ez, er⟩ := pending_cons _ _ _ _ _ _ e0
        refine ⟨{ v0 with Id := v.Id }, ?_, ?_⟩
        · rw [Field_field_id, ez,
            decodeString_renders j _ _ er]
          rfl
        · exact ⟨(by rw [en]; exact rfl), e1, e2, e3, e4, e5, e6⟩
      · rw [pick_cons_false _ k j ms (spells_other _ _ k hs (by decide))] at e0
        rw [pick_cons_true _ k j ms hs] at e1
        rw [pick_cons_false _ k j ms (spells_other _ _ k hs (by decide))] at e2
        rw [pick_cons_false _ k j ms (spells_other _ _ k hs (by decide))] at e3
        rw [pick_cons_false _ k j ms (spells_other _ _ k hs (by decide))] at e4
        rw [pick_cons_false _ k j ms (spells_other _ _ k hs (by decide))] at e5
        rw [pick_cons_false _ k j ms (spells_other _ _ k hs (by decide))] at e6
        obtain ⟨en, ez, er⟩ := pending_cons _ _ _ _ _ _ e1
        refine ⟨{ v0 with Name := v.Name }, ?_, ?_⟩
        · rw [Field_field_name, ez,
            decodeString_renders j _ _ er]
          rfl
        · exact ⟨e0, (by rw [en]; exact rfl), e2, e3, e4, e5, e6⟩
      · rw [pick_cons_false _ k j ms (spells_other _ _ k hs (by decide))] at e0
        rw [pick_cons_false _ k j ms (spells_other _ _ k hs (by decide))] at e1
        rw [pick_cons_true _ k j ms hs] at e2
        rw [pick_cons_false _ k j ms (spells_other _ _ k hs (by decide))] at e3
        rw [pick_cons_false _ k j ms (spells_other _ _ k hs (by decide))] at e4
        rw [pick_cons_false _ k j ms (spells_other _ _ k hs (by decide))] at e5
        rw [pick_cons_false _ k j ms (spells_other _ _ k hs (by decide))] at e6
        obtain ⟨en, ez, er⟩ := pending_cons _ _ _ _ _ _ e2
        refine ⟨{ v0 with Type_ := v.Type_ }, ?_, ?_⟩
        · rw [Field_field_type, ez,
            decodeString_renders j _ _ er]
          rfl
        · exact ⟨e0, e1, (by rw [en]; exact rfl), e3, e4, e5, e6⟩
      · rw [pick_cons_false _ k j ms (spells_other _ _ k hs (by decide))] at e0
        rw [pick_cons_false _ k j ms (spells_other _ _ k hs (by decide))] at e1
        rw [pick_cons_false _ k j ms (spells_other _ _ k hs (by decide))] at e2
        rw [pick_cons_true _ k j ms hs] at e3
        rw [pick_cons_false _ k j ms (spells_other _ _ k hs (by decide))] at e4
        rw [pick_cons_false _ k j ms (spells_other _ _ k hs (by decide))] at e5
        rw [pick_cons_false _ k j ms (spells_other _ _ k hs (by decide))] at e6
        obtain ⟨en, ez, er⟩ := pending_cons _ _ _ _ _ _ e3
        refine ⟨{ v0 with LinkType := v.LinkType }, ?_, ?_⟩
        · rw [Field_field_linkType, ez,
            decodeString_renders j _ _ er]
          rfl
        · exact ⟨e0, e1, e2, (by rw [en]; exact rfl), e4, e5, e6⟩
      · rw [pick_cons_false _ k j ms (spells_other _ _ k hs (by decide))] at e0
        rw [pick_cons_false _ k j ms (spells_other _ _ k hs (by decide))] at e1
        rw [pick_cons_false _ k j ms (spells_other _ _ k hs (by decide))] at e2
        rw [pick_cons_false _ k j ms (spells_other _ _ k hs (by decide))] at e3
        rw [pick_cons_true _ k j ms hs] at e4
        rw [pick_cons_false _ k j ms (spells_other _ _ k hs (by decide))] at e5
        rw [pick_cons_false _ k j ms (spells_other _ _ k hs (by decide))] at e6
        obtain ⟨en, ez, er⟩ := pending_cons _ _ _ _ _ _ e4
        refine ⟨{ v0 with Items := v.Items }, ?_, ?_⟩
        · rw [Field_field_items, ez,
            FieldItemType_decode_renders j _ er]
          rfl
        · exact ⟨e0, e1, e2, e3, (by rw [en]; exact rfl), e5, e6⟩
      · rw [pick_cons_false _ k j ms (spells_other _ _ k hs (by decide))] at e0
        rw [pick_cons_false _ k j ms (spells_other _ _ k hs (by decide))] at e1
        rw [pick_cons_false _ k j ms (spells_other _ _ k hs (by decide))] at e2
        rw [pick_cons_false _ k j ms (spells_other _ _ k hs (by decide))] at e3
        rw [pick_cons_false _ k j ms (spells_other _ _ k hs (by decide))] at e4
        rw [pick_cons_true _ k j ms hs] at e5
        rw [pick_cons_false _ k j ms (spells_other _ _ k hs (by decide))] at e6
        obtain ⟨en, ez, er⟩ := pending_cons _ _ _ _ _ _ e5
        refine ⟨{ v0 with Required := v.Required }, ?_, ?_⟩
        · rw [Field_field_required, ez,
            decodeBool_renders j _ _ er]
          rfl
        · exact ⟨e0, e1, e2, e3, e4, (by rw [en]; exact rfl), e6⟩
      · rw [pick_cons_false _ k j ms (spells_other _ _ k hs (by decide))] at e0
        rw [pick_cons_false _ k j ms (spells_other _ _ k hs (by decide))] at e1
        rw [pick_cons_false _ k j ms (spells_other _ _ k hs (by decide))] at e2
        rw [pick_cons_false _ k j ms (spells_other _ _ k hs (by decide))] at e3
        rw [pick_cons_false _ k j ms (spells_other _ _ k hs (by decide))] at e4
        rw [pick_cons_false _ k j ms (spells_other _ _ k hs (by decide))] at e5
        rw [pick_cons_true _ k j ms hs] at e6
        obtain ⟨en, ez, er⟩ := pending_cons _ _ _ _ _ _ e6
        refine ⟨{ v0 with Localized := v.Localized }, ?_, ?_⟩
        · rw [Field_field_localized, ez,
            decodeBool_renders j _ _ er]
          rfl
        · exact ⟨e0, e1, e2, e3, e4, e5, (by rw [en]; exact rfl)⟩
    · intro key j v0 hnone
      simp only [Field.field, hnone]
  | _ => exact absurd h (by simp [Field.renders])

theorem ContentType_field_sys (lib : Lib Time Float64) (j : JSON) (v : ContentType Time Float64) :
    ContentType.field lib "sys" j v =
      (SystemProperties.decode lib j v.Sys).store (fun x => { v with Sys := x }) := rfl

theorem ContentType_field_name (lib : Lib Time Float64) (j : JSON) (v : ContentType Time Float64) :
    ContentType.field lib "name" j v =
      (decodeString j v.Name).store (fun x => { v with Name := x }) := rfl

theorem ContentType_field_description (lib : Lib Time Float64) (j : JSON)
    (v : ContentType Time Float64) :
    ContentType.field lib "description" j v =
      (decodeString j v.Description).store (fun x => { v with Description := x }) := rfl

theorem ContentType_field_fields (lib : Lib Time Float64) (j : JSON)
    (v : ContentType Time Float64) :
    ContentType.field lib "fields" j v =
      (decodeSlice "[]contentful.Field" Field.zero Field.decode j v.Fields).store
        (fun x => { v with Fields := x }) := rfl

/-- A JSON value that renders the `ContentType` `v` is decoded to `v` in a zero
`ContentType`, without an error. -/
theorem ContentType_decode_renders (lib : Lib Time Float64) (j : JSON)
    (v : ContentType Time Float64) (h : ContentType.renders lib j v) :
    ContentType.decode lib j (ContentType.zero lib) = Decoded.mk v [] none := by
  cases j with
  | object ms =>
    obtain ⟨hk, h0, h1, h2, h3⟩ := h
    refine decodeMembers_renders ContentType.keys ContentType.names (ContentType.field lib) v
      (fun ms v0 =>
        pending (SystemProperties.renders lib) (SystemProperties.zero lib) (pick "sys" ms)
          v0.Sys v.Sys ∧
        pending rendersString "" (pick "name" ms) v0.Name v.Name ∧
        pending rendersString "" (pick "description" ms) v0.Description v.Description ∧
        pending (rendersSlice Field.renders) Slice.nil (pick "fields" ms) v0.Fields v.Fields)
      ?_ ?_ ?_ ?_ ms (ContentType.zero lib) hk
      ⟨pending_of_fieldIs _ _ _ _ h0, pending_of_fieldIs _ _ _ _ h1, pending_of_fieldIs _ _ _ _ h2,
        pending_of_fieldIs _ _ _ _ h3⟩
    · intro v0 hv
      obtain ⟨e0, e1, e2, e3⟩ := hv
      rcases v0 with ⟨a0, a1, a2, a3⟩
      rcases v with ⟨b0, b1, b2, b3⟩
      have e0 : a0 = b0 := e0
      have e1 : a1 = b1 := e1
      have e2 : a2 = b2 := e2
      have e3 : a3 = b3 := e3
      subst e0 e1 e2 e3
      rfl
    · intro k j ms v0 hall hv
      obtain ⟨e0, e1, e2, e3⟩ := hv
      rw [pick_cons_false _ k j ms (hall "sys" (by decide))] at e0
      rw [pick_cons_false _ k j ms (hall "name" (by decide))] at e1
      rw [pick_cons_false _ k j ms (hall "description" (by decide))] at e2
      rw [pick_cons_false _ k j ms (hall "fields" (by decide))] at e3
      exact ⟨e0, e1, e2, e3⟩
    · intro key hkey k j ms v0 hs hv
      obtain ⟨e0, e1, e2, e3⟩ := hv
      simp only [ContentType.keys, List.mem_cons, List.mem_singleton, List.not_mem_nil,
        or_false] at hkey
      rcases hkey with rfl | rfl | rfl | rfl
      · rw [pick_cons_true _ k j ms hs] at e0
        rw [pick_cons_false _ k j ms (spells_other _ _ k hs (by decide))] at e1
        rw [pick_cons_false _ k j ms (spells_other _ _ k hs (by decide))] at e2
        rw [pick_cons_false _ k j ms (spells_other _ _ k hs (by decide))] at e3
        obtain ⟨en, ez, er⟩ := pending_cons _ _ _ _ _ _ e0
        refine ⟨{ v0 with Sys := v.Sys }, ?_, ?_⟩
        · rw [ContentType_field_sys, ez,
            SystemProperties_decode_renders lib j _ er]
          rfl
        · exact ⟨(by rw [en]; exact rfl), e1, e2, e3⟩
      · rw [pick_cons_false _ k j ms (spells_other _ _ k hs (by decide))] at e0
        rw [pick_cons_true _ k j ms hs] at e1
        rw [pick_cons_false _ k j ms (spells_other _ _ k hs (by decide))] at e2
        rw [pick_cons_false _ k j ms (spells_other _ _ k hs (by decide))] at e3
        obtain ⟨en, ez, er⟩ := pending_cons _ _ _ _ _ _ e1
        refine ⟨{ v0 with Name := v.Name }, ?_, ?_⟩
        · rw [ContentType_field_name, ez,
            decodeString_renders j _ _ er]
          rfl
        · exact ⟨e0, (by rw [en]; exact rfl), e2, e3⟩
      · rw [pick_cons_false _ k j ms (spells_other _ _ k hs (by decide))] at e0
        rw [pick_cons_false _ k j ms (spells_other _ _ k hs (by decide))] at e1
        rw [pick_cons_true _ k j ms hs] at e2
        rw [pick_cons_false _ k j ms (spells_other _ _ k hs (by decide))] at e3
        obtain ⟨en, ez, er⟩ := pending_cons _ _ _ _ _ _ e2
        refine ⟨{ v0 with Description := v.Description }, ?_, ?_⟩
        · rw [ContentType_field_description, ez,
            decodeString_renders j _ _ er]
          rfl
        · exact ⟨e0, e1, (by rw [en]; exact rfl), e3⟩
      · rw [pick_cons_false _ k j ms (spells_other _ _ k hs (by decide))] at e0
        rw [pick_cons_false _ k j ms (spells_other _ _ k hs (by decide))] at e1
        rw [pick_cons_false _ k j ms (spells_other _ _ k hs (by decide))] at e2
        rw [pick_cons_true _ k j ms hs] at e3
        obtain ⟨en, ez, er⟩ := pending_cons _ _ _ _ _ _ e3
        refine ⟨{ v0 with Fields := v.Fields }, ?_, ?_⟩
        · rw [ContentType_field_fields, ez,
            decodeSlice_renders "[]contentful.Field" Field.zero Field.decode Field.renders
              (fun j x h => Field_decode_renders j x h) j _ er]
          rfl
        · exact ⟨e0, e1, e2, (by rw [en]; exact rfl)⟩
    · intro key j v0 hnone
      simp only [ContentType.field, hnone]
  | _ => exact absurd h (by simp [ContentType.renders])

theorem ContentTypes_field_sys (lib : Lib Time Float64) (j : JSON) (v : ContentTypes Time Float64) :
    ContentTypes.field lib "sys" j v =
      (SystemProperties.decode lib j v.Sys).store (fun x => { v with Sys := x }) := rfl

theorem ContentTypes_field_total (lib : Lib Time Float64) (j : JSON)
    (v : ContentTypes Time Float64) :
    ContentTypes.field lib "total" j v =
      (decodeInt64 j v.Total).store (fun x => { v with Total := x }) := rfl

theorem ContentTypes_field_skip (lib : Lib Time Float64) (j : JSON)
    (v : ContentTypes Time Float64) :
    ContentTypes.field lib "skip" j v =
      (decodeInt64 j v.Skip).store (fun x => { v with Skip := x }) := rfl

theorem ContentTypes_field_limit (lib : Lib Time Float64) (j : JSON)
    (v : ContentTypes Time Float64) :
    ContentTypes.field lib "limit" j v =
      (decodeInt64 j v.Limit).store (fun x => { v with Limit := x }) := rfl

theorem ContentTypes_field_items (lib : Lib Time Float64) (j : JSON)
    (v : ContentTypes Time Float64) :
    ContentTypes.field lib "items" j v =
      (decodeSlice "[]contentful.ContentType" (ContentType.zero lib) (ContentType.decode lib)
        j v.Items).store
        (fun x => { v with Items := x }) := rfl

/-- A JSON value that renders the `ContentTypes` `v` is decoded to `v` in a zero
`ContentTypes`, without an error. -/
theorem ContentTypes_decode_renders (lib : Lib Time Float64) (j : JSON)
    (v : ContentTypes Time Float64) (h : ContentTypes.renders lib j v) :
    ContentTypes.decode lib j (ContentTypes.zero lib) = Decoded.mk v [] none := by
  cases j with
  | object ms =>
    obtain ⟨hk, h0, h1, h2, h3, h4⟩ := h
    refine decodeMembers_renders ContentTypes.keys collectionNames (ContentTypes.field lib) v
      (fun ms v0 =>
        pending (SystemProperties.renders lib) (SystemProperties.zero lib) (pick "sys" ms)
          v0.Sys v.Sys ∧
        pending rendersInt 0 (pick "total" ms) v0.Total v.Total ∧
        pending rendersInt 0 (pick "skip" ms) v0.Skip v.Skip ∧
        pending rendersInt 0 (pick "limit" ms) v0.Limit v.Limit ∧
        pending (rendersSlice (ContentType.renders lib)) Slice.nil (pick "items" ms)
          v0.Items v.Items)
      ?_ ?_ ?_ ?_ ms (ContentTypes.zero lib) hk
      ⟨pending_of_fieldIs _ _ _ _ h0, pending_of_fieldIs _ _ _ _ h1, pending_of_fieldIs _ _ _ _ h2,
        pending_of_fieldIs _ _ _ _ h3, pending_of_fieldIs _ _ _ _ h4⟩
    · intro v0 hv
      obtain ⟨e0, e1, e2, e3, e4⟩ := hv
      rcases v0 with ⟨a0, a1, a2, a3, a4⟩
      rcases v with ⟨b0, b1, b2, b3, b4⟩
      have e0 : a0 = b0 := e0
      have e1 : a1 = b1 := e1
      have e2 : a2 = b2 := e2
      have e3 : a3 = b3 := e3
      have e4 : a4 = b4 := e4
      subst e0 e1 e2 e3 e4
      rfl
    · intro k j ms v0 hall hv
      obtain ⟨e0, e1, e2, e3, e4⟩ := hv
      rw [pick_cons_false _ k j ms (hall "sys" (by decide))] at e0
      rw [pick_cons_false _ k j ms (hall "total" (by decide))] at e1
      rw [pick_cons_false _ k j ms (hall "skip" (by decide))] at e2
      rw [pick_cons_false _ k j ms (hall "limit" (by decide))] at e3
      rw [pick_cons_false _ k j ms (hall "items" (by decide))] at e4
      exact ⟨e0, e1, e2, e3, e4⟩
    · intro key hkey k j ms v0 hs hv
      obtain ⟨e0, e1, e2, e3, e4⟩ := hv
      simp only [ContentTypes.keys, List.mem_cons, List.mem_singleton, List.not_mem_nil,
        or_false] at hkey
      rcases hkey with rfl | rfl | rfl | rfl | rfl
      · rw [pick_cons_true _ k j ms hs] at e0
        rw [pick_cons_false _ k j ms (spells_other _ _ k hs (by decide))] at e1
        rw [pick_cons_false _ k j ms (spells_other _ _ k hs (by decide))] at e2
        rw [pick_cons_false _ k j ms (spells_other _ _ k hs (by decide))] at e3
        rw [pick_cons_false _ k j ms (spells_other _ _ k hs (by decide))] at e4
        obtain ⟨en, ez, er⟩ := pending_cons _ _ _ _ _ _ e0
        refine ⟨{ v0 with Sys := v.Sys }, ?_, ?_⟩
        · rw [ContentTypes_field_sys, ez,
            SystemProperties_decode_renders lib j _ er]
          rfl
        · exact ⟨(by rw [en]; exact rfl), e1, e2, e3, e4⟩
      · rw [pick_cons_false _ k j ms (spells_other _ _ k hs (by decide))] at e0
        rw [pick_cons_true _ k j ms hs] at e1
        rw [pick_cons_false _ k j ms (spells_other _ _ k hs (by decide))] at e2
        rw [pick_cons_false _ k j ms (spells_other _ _ k hs (by decide))] at e3
        rw [pick_cons_false _ k j ms (spells_other _ _ k hs (by decide))] at e4
        obtain ⟨en, ez, er⟩ := pending_cons _ _ _ _ _ _ e1
        refine ⟨{ v0 with Total := v.Total }, ?_, ?_⟩
        · rw [ContentTypes_field_total, ez,
            decodeInt64_renders j _ _ er]
          rfl
        · exact ⟨e0, (by rw [en]; exact rfl), e2, e3, e4⟩
      · rw [pick_cons_false _ k j ms (spells_other _ _ k hs (by decide))] at e0
        rw [pick_cons_false _ k j ms (spells_other _ _ k hs (by decide))] at e1
        rw [pick_cons_true _ k j ms hs] at e2
        rw [pick_cons_false _ k j ms (spells_other _ _ k hs (by decide))] at e3
        rw [pick_cons_false _ k j ms (spells_other _ _ k hs (by decide))] at e4
        obtain ⟨en, ez, er⟩ := pending_cons _ _ _ _ _ _ e2
        refine ⟨{ v0 with Skip := v.Skip }, ?_, ?_⟩
        · rw [ContentTypes_field_skip, ez,
            decodeInt64_renders j _ _ er]
          rfl
        · exact ⟨e0, e1, (by rw [en]; exact rfl), e3, e4⟩
      · rw [pick_cons_false _ k j ms (spells_other _ _ k hs (by decide))] at e0
        rw [pick_cons_false _ k j ms (spells_other _ _ k hs (by decide))] at e1
        rw [pick_cons_false _ k j ms (spells_other _ _ k hs (by decide))] at e2
        rw [pick_cons_true _ k j ms hs] at e3
        rw [pick_cons_false _ k j ms (spells_other _ _ k hs (by decide))] at e4
        obtain ⟨en, ez, er⟩ := pending_cons _ _ _ _ _ _ e3
        refine ⟨{ v0 with Limit := v.Limit }, ?_, ?_⟩
        · rw [ContentTypes_field_limit, ez,
            decodeInt64_renders j _ _ er]
          rfl
        · exact ⟨e0, e1, e2, (by rw [en]; exact rfl), e4⟩
      · rw [pick_cons_false _ k j ms (spells_other _ _ k hs (by decide))] at e0
        rw [pick_cons_false _ k j ms (spells_other _ _ k hs (by decide))] at e1
        rw [pick_cons_false _ k j ms (spells_other _ _ k hs (by decide))] at e2
        rw [pick_cons_false _ k j ms (spells_other _ _ k hs (by decide))] at e3
        rw [pick_cons_true _ k j ms hs] at e4
        obtain ⟨en, ez, er⟩ := pending_cons _ _ _ _ _ _ e4
        refine ⟨{ v0 with Items := v.Items }, ?_, ?_⟩
        · rw [ContentTypes_field_items, ez,
            decodeSlice_renders "[]contentful.ContentType" (ContentType.zero lib)
                (ContentType.decode lib) (ContentType.renders lib)
              (fun j x h => ContentType_decode_renders lib j x h) j _ er]
          rfl
        · exact ⟨e0, e1, e2, e3, (by rw [en]; exact rfl)⟩
    · intro key j v0 hnone
      simp only [ContentTypes.field, hnone]
  | _ => exact absurd h (by simp [ContentTypes.renders])

theorem Entry_field_sys (lib : Lib Time Float64) (j : JSON) (v : Entry Time Float64) :
    Entry.field lib "sys" j v =
      (SystemProperties.decode lib j v.Sys).store (fun x => { v with Sys := x }) := rfl

theorem Entry_field_fields (lib : Lib Time Float64) (j : JSON) (v : Entry Time Float64) :
    Entry.field lib "fields" j v =
      (decodeAny lib j v.Fields).store (fun x => { v with Fields := x }) := rfl

/-- A JSON value that renders the `Entry` `v` is decoded to `v` in a zero
`Entry`, without an error. -/
theorem Entry_decode_renders (lib : Lib Time Float64) (j : JSON)
    (v : Entry Time Float64) (h : Entry.renders lib j v) :
    Entry.decode lib j (Entry.zero lib) = Decoded.mk v [] none := by
  cases j with
  | object ms =>
    obtain ⟨hk, h0, h1⟩ := h
    refine decodeMembers_renders Entry.keys Entry.names (Entry.field lib) v
      (fun ms v0 =>
        pending (SystemProperties.renders lib) (SystemProperties.zero lib) (pick "sys" ms)
          v0.Sys v.Sys ∧
        pending (GoAny.renders lib) GoAny.nil (pick "fields" ms) v0.Fields v.Fields)
      ?_ ?_ ?_ ?_ ms (Entry.zero lib) hk
      ⟨pending_of_fieldIs _ _ _ _ h0, pending_of_fieldIs _ _ _ _ h1⟩
    · intro v0 hv
      obtain ⟨e0, e1⟩ := hv
      rcases v0 with ⟨a0, a1⟩
      rcases v with ⟨b0, b1⟩
      have e0 : a0 = b0 := e0
      have e1 : a1 = b1 := e1
      subst e0 e1
      rfl
    · intro k j ms v0 hall hv
      obtain ⟨e0, e1⟩ := hv
      rw [pick_cons_false _ k j ms (hall "sys" (by decide))] at e0
      rw [pick_cons_false _ k j ms (hall "fields" (by decide))] at e1
      exact ⟨e0, e1⟩
    · intro key hkey k j ms v0 hs hv
      obtain ⟨e0, e1⟩ := hv
      simp only [Entry.keys, List.mem_cons, List.mem_singleton, List.not_mem_nil,
        or_false] at hkey
      rcases hkey with rfl | rfl
      · rw [pick_cons_true _ k j ms hs] at e0
        rw [pick_cons_false _ k j ms (spells_other _ _ k hs (by decide))] at e1
        obtain ⟨en, ez, er⟩ := pending_cons _ _ _ _ _ _ e0
        refine ⟨{ v0 with Sys := v.Sys }, ?_, ?_⟩
        · rw [Entry_field_sys, ez,
            SystemProperties_decode_renders lib j _ er]
          rfl
        · exact ⟨(by rw [en]; exact rfl), e1⟩
      · rw [pick_cons_false _ k j ms (spells_other _ _ k hs (by decide))] at e0
        rw [pick_cons_true _ k j ms hs] at e1
        obtain ⟨en, ez, er⟩ := pending_cons _ _ _ _ _ _ e1
        refine ⟨{ v0 with Fields := v.Fields }, ?_, ?_⟩
        · rw [Entry_field_fields, ez,
            decodeAny_renders lib j _ _ er]
          rfl
        · exact ⟨e0, (by rw [en]; exact rfl)⟩
    · intro key j v0 hnone
      simp only [Entry.field, hnone]
  | _ => exact absurd h (by simp [Entry.renders])

theorem Entries_field_sys (lib : Lib Time Float64) (j : JSON) (v : Entries Time Float64) :
    Entries.field lib "sys" j v =
      (SystemProperties.decode lib j v.Sys).store (fun x => { v with Sys := x }) := rfl

theorem Entries_field_total (lib : Lib Time Float64) (j : JSON) (v : Entries Time Float64) :
    Entries.field lib "total" j v =
      (decodeInt64 j v.Total).store (fun x => { v with Total := x }) := rfl

theorem Entries_field_skip (lib : Lib Time Float64) (j : JSON) (v : Entries Time Float64) :
    Entries.field lib "skip" j v =
      (decodeInt64 j v.Skip).store (fun x => { v with Skip := x }) := rfl

theorem Entries_field_limit (lib : Lib Time Float64) (j : JSON) (v : Entries Time Float64) :
    Entries.field lib "limit" j v =
      (decodeInt64 j v.Limit).store (fun x => { v with Limit := x }) := rfl

theorem Entries_field_items (lib : Lib Time Float64) (j : JSON) (v : Entries Time Float64) :
    Entries.field lib "items" j v =
      (decodeSlice "[]contentful.Entry" (Entry.zero lib) (Entry.decode lib) j v.Items).store
        (fun x => { v with Items := x }) := rfl

/-- A JSON value that renders the `Entries` `v` is decoded to `v` in a zero
`Entries`, without an error. -/
theorem Entries_decode_renders (lib : Lib Time Float64) (j : JSON)
    (v : Entries Time Float64) (h : Entries.renders lib j v) :
    Entries.decode lib j (Entries.zero lib) = Decoded.mk v [] none := by
  cases j with
  | object ms =>
    obtain ⟨hk, h0, h1, h2, h3, h4⟩ := h
    refine decodeMembers_renders Entries.keys collectionNames (Entries.field lib) v
      (fun ms v0 =>
        pending (SystemProperties.renders lib) (SystemProperties.zero lib) (pick "sys" ms)
          v0.Sys v.Sys ∧
        pending rendersInt 0 (pick "total" ms) v0.Total v.Total ∧
        pending rendersInt 0 (pick "skip" ms) v0.Skip v.Skip ∧
        pending rendersInt 0 (pick "limit" ms) v0.Limit v.Limit ∧
        pending (rendersSlice (Entry.renders lib)) Slice.nil (pick "items" ms) v0.Items v.Items)
      ?_ ?_ ?_ ?_ ms (Entries.zero lib) hk
      ⟨pending_of_fieldIs _ _ _ _ h0, pending_of_fieldIs _ _ _ _ h1, pending_of_fieldIs _ _ _ _ h2,
        pending_of_fieldIs _ _ _ _ h3, pending_of_fieldIs _ _ _ _ h4⟩
    · intro v0 hv
      obtain ⟨e0, e1, e2, e3, e4⟩ := hv
      rcases v0 with ⟨a0, a1, a2, a3, a4⟩
      rcases v with ⟨b0, b1, b2, b3, b4⟩
      have e0 : a0 = b0 := e0
      have e1 : a1 = b1 := e1
      have e2 : a2 = b2 := e2
      have e3 : a3 = b3 := e3
      have e4 : a4 = b4 := e4
      subst e0 e1 e2 e3 e4
      rfl
    · intro k j ms v0 hall hv
      obtain ⟨e0, e1, e2, e3, e4⟩ := hv
      rw [pick_cons_false _ k j ms (hall "sys" (by decide))] at e0
      rw [pick_cons_false _ k j ms (hall "total" (by decide))] at e1
      rw [pick_cons_false _ k j ms (hall "skip" (by decide))] at e2
      rw [pick_cons_false _ k j ms (hall "limit" (by decide))] at e3
      rw [pick_cons_false _ k j ms (hall "items" (by decide))] at e4
      exact ⟨e0, e1, e2, e3, e4⟩
    · intro key hkey k j ms v0 hs hv
      obtain ⟨e0, e1, e2, e3, e4⟩ := hv
      simp only [Entries.keys, List.mem_cons, List.mem_singleton, List.not_mem_nil,
        or_false] at hkey
      rcases hkey with rfl | rfl | rfl | rfl | rfl
      · rw [pick_cons_true _ k j ms hs] at e0
        rw [pick_cons_false _ k j ms (spells_other _ _ k hs (by decide))] at e1
        rw [pick_cons_false _ k j ms (spells_other _ _ k hs (by decide))] at e2
        rw [pick_cons_false _ k j ms (spells_other _ _ k hs (by decide))] at e3
        rw [pick_cons_false _ k j ms (spells_other _ _ k hs (by decide))] at e4
        obtain ⟨en, ez, er⟩ := pending_cons _ _ _ _ _ _ e0
        refine ⟨{ v0 with Sys := v.Sys }, ?_, ?_⟩
        · rw [Entries_field_sys, ez,
            SystemProperties_decode_renders lib j _ er]
          rfl
        · exact ⟨(by rw [en]; exact rfl), e1, e2, e3, e4⟩
      · rw [pick_cons_false _ k j ms (spells_other _ _ k hs (by decide))] at e0
        rw [pick_cons_true _ k j ms hs] at e1
        rw [pick_cons_false _ k j ms (spells_other _ _ k hs (by decide))] at e2
        rw [pick_cons_false _ k j ms (spells_other _ _ k hs (by decide))] at e3
        rw [pick_cons_false _ k j ms (spells_other _ _ k hs (by decide))] at e4
        obtain ⟨en, ez, er⟩ := pending_cons _ _ _ _ _ _ e1
        refine ⟨{ v0 with Total := v.Total }, ?_, ?_⟩
        · rw [Entries_field_total, ez,
            decodeInt64_renders j _ _ er]
          rfl
        · exact ⟨e0, (by rw [en]; exact rfl), e2, e3, e4⟩
      · rw [pick_cons_false _ k j ms (spells_other _ _ k hs (by decide))] at e0
        rw [pick_cons_false _ k j ms (spells_other _ _ k hs (by decide))] at e1
        rw [pick_cons_true _ k j ms hs] at e2
        rw [pick_cons_false _ k j ms (spells_other _ _ k hs (by decide))] at e3
        rw [pick_cons_false _ k j ms (spells_other _ _ k hs (by decide))] at e4
        obtain ⟨en, ez, er⟩ := pending_cons _ _ _ _ _ _ e2
        refine ⟨{ v0 with Skip := v.Skip }, ?_, ?_⟩
        · rw [Entries_field_skip, ez,
            decodeInt64_renders j _ _ er]
          rfl
        · exact ⟨e0, e1, (by rw [en]; exact rfl), e3, e4⟩
      · rw [pick_cons_false _ k j ms (spells_other _ _ k hs (by decide))] at e0
        rw [pick_cons_false _ k j ms (spells_other _ _ k hs (by decide))] at e1
        rw [pick_cons_false _ k j ms (spells_other _ _ k hs (by decide))] at e2
        rw [pick_cons_true _ k j ms hs] at e3
        rw [pick_cons_false _ k j ms (spells_other _ _ k hs (by decide))] at e4
        obtain ⟨en, ez, er⟩ := pending_cons _ _ _ _ _ _ e3
        refine ⟨{ v0 with Limit := v.Limit }, ?_, ?_⟩
        · rw [Entries_field_limit, ez,
            decodeInt64_renders j _ _ er]
          rfl
        · exact ⟨e0, e1, e2, (by rw [en]; exact rfl), e4⟩
      · rw [pick_cons_false _ k j ms (spells_other _ _ k hs (by decide))] at e0
        rw [pick_cons_false _ k j ms (spells_other _ _ k hs (by decide))] at e1
        rw [pick_cons_false _ k j ms (spells_other _ _ k hs (by decide))] at e2
        rw [pick_cons_false _ k j ms (spells_other _ _ k hs (by decide))] at e3
        rw [pick_cons_true _ k j ms hs] at e4
        obtain ⟨en, ez, er⟩ := pending_cons _ _ _ _ _ _ e4
        refine ⟨{ v0 with Items := v.Items }, ?_, ?_⟩
        · rw [Entries_field_items, ez,
            decodeSlice_renders "[]contentful.Entry" (Entry.zero lib) (Entry.decode lib)
                (Entry.renders lib)
              (fun j x h => Entry_decode_renders lib j x h) j _ er]
          rfl
        · exact ⟨e0, e1, e2, e3, (by rw [en]; exact rfl)⟩
    · intro key j v0 hnone
      simp only [Entries.field, hnone]
  | _ => exact absurd h (by simp [Entries.renders])

theorem File_field_fileName (lib : Lib Time Float64) (j : JSON) (v : File Float64) :
    File.field lib "fileName" j v =
      (decodeString j v.FileName).store (fun x => { v with FileName := x }) := rfl

theorem File_field_contentType (lib : Lib Time Float64) (j : JSON) (v : File Float64) :
    File.field lib "contentType" j v =
      (decodeString j v.ContentType).store (fun x => { v with ContentType := x }) := rfl

theorem File_field_url (lib : Lib Time Float64) (j : JSON) (v : File Float64) :
    File.field lib "url" j v =
      (decodeString j v.URL).store (fun x => { v with URL := x }) := rfl

theorem File_field_details (lib : Lib Time Float64) (j : JSON) (v : File Float64) :
    File.field lib "details" j v =
      (decodeAny lib j v.Details).store (fun x => { v with Details := x }) := rfl

/-- A JSON value that renders the `File` `v` is decoded to `v` in a zero
`File`, without an error. -/
theorem File_decode_renders (lib : Lib Time Float64) (j : JSON)
    (v : File Float64) (h : File.renders lib j v) :
    File.decode lib j File.zero = Decoded.mk v [] none := by
  cases j with
  | object ms =>
    obtain ⟨hk, h0, h1, h2, h3⟩ := h
    refine decodeMembers_renders File.keys File.names (File.field lib) v
      (fun ms v0 =>
        pending rendersString "" (pick "fileName" ms) v0.FileName v.FileName ∧
        pending rendersString "" (pick "contentType" ms) v0.ContentType v.ContentType ∧
        pending rendersString "" (pick "url" ms) v0.URL v.URL ∧
        pending (GoAny.renders lib) GoAny.nil (pick "details" ms) v0.Details v.Details)
      ?_ ?_ ?_ ?_ ms File.zero hk
      ⟨pending_of_fieldIs _ _ _ _ h0, pending_of_fieldIs _ _ _ _ h1, pending_of_fieldIs _ _ _ _ h2,
        pending_of_fieldIs _ _ _ _ h3⟩
    · intro v0 hv
      obtain ⟨e0, e1, e2, e3⟩ := hv
      rcases v0 with ⟨a0, a1, a2, a3⟩
      rcases v with ⟨b0, b1, b2, b3⟩
      have e0 : a0 = b0 := e0
      have e1 : a1 = b1 := e1
      have e2 : a2 = b2 := e2
      have e3 : a3 = b3 := e3
      subst e0 e1 e2 e3
      rfl
    · intro k j ms v0 hall hv
      obtain ⟨e0, e1, e2, e3⟩ := hv
      rw [pick_cons_false _ k j ms (hall "fileName" (by decide))] at e0
      rw [pick_cons_false _ k j ms (hall "contentType" (by decide))] at e1
      rw [pick_cons_false _ k j ms (hall "url" (by decide))] at e2
      rw [pick_cons_false _ k j ms (hall "details" (by decide))] at e3
      exact ⟨e0, e1, e2, e3⟩
    · intro key hkey k j ms v0 hs hv
      obtain ⟨e0, e1, e2, e3⟩ := hv
      simp only [File.keys, List.mem_cons, List.mem_singleton, List.not_mem_nil,
        or_false] at hkey
      rcases hkey with rfl | rfl | rfl | rfl
      · rw [pick_cons_true _ k j ms hs] at e0
        rw [pick_cons_false _ k j ms (spells_other _ _ k hs (by decide))] at e1
        rw [pick_cons_false _ k j ms (spells_other _ _ k hs (by decide))] at e2
        rw [pick_cons_false _ k j ms (spells_other _ _ k hs (by decide))] at e3
        obtain ⟨en, ez, er⟩ := pending_cons _ _ _ _ _ _ e0
        refine ⟨{ v0 with FileName := v.FileName }, ?_, ?_⟩
        · rw [File_field_fileName, ez,
            decodeString_renders j _ _ er]
          rfl
        · exact ⟨(by rw [en]; exact rfl), e1, e2, e3⟩
      · rw [pick_cons_false _ k j ms (spells_other _ _ k hs (by decide))] at e0
        rw [pick_cons_true _ k j ms hs] at e1
        rw [pick_cons_false _ k j ms (spells_other _ _ k hs (by decide))] at e2
        rw [pick_cons_false _ k j ms (spells_other _ _ k hs (by decide))] at e3
        obtain ⟨en, ez, er⟩ := pending_cons _ _ _ _ _ _ e1
        refine ⟨{ v0 with ContentType := v.ContentType }, ?_, ?_⟩
        · rw [File_field_contentType, ez,
            decodeString_renders j _ _ er]
          rfl
        · exact ⟨e0, (by rw [en]; exact rfl), e2, e3⟩
      · rw [pick_cons_false _ k j ms (spells_other _ _ k hs (by decide))] at e0
        rw [pick_cons_false _ k j ms (spells_other _ _ k hs (by decide))] at e1
        rw [pick_cons_true _ k j ms hs] at e2
        rw [pick_cons_false _ k j ms (spells_other _ _ k hs (by decide))] at e3
        obtain ⟨en, ez, er⟩ := pending_cons _ _ _ _ _ _ e2
        refine ⟨{ v0 with URL := v.URL }, ?_, ?_⟩
        · rw [File_field_url, ez,
            decodeString_renders j _ _ er]
          rfl
        · exact ⟨e0, e1, (by rw [en]; exact rfl), e3⟩
      · rw [pick_cons_false _ k j ms (spells_other _ _ k hs (by decide))] at e0
        rw [pick_cons_false _ k j ms (spells_other _ _ k hs (by decide))] at e1
        rw [pick_cons_false _ k j ms (spells_other _ _ k hs (by decide))] at e2
        rw [pick_cons_true _ k j ms hs] at e3
        obtain ⟨en, ez, er⟩ := pending_cons _ _ _ _ _ _ e3
        refine ⟨{ v0 with Details := v.Details }, ?_, ?_⟩
        · rw [File_field_details, ez,
            decodeAny_renders lib j _ _ er]
          rfl
        · exact ⟨e0, e1, e2, (by rw [en]; exact rfl)⟩
    · intro key j v0 hnone
      simp only [File.field, hnone]
  | _ => exact absurd h (by simp [File.renders])

theorem AssetFields_field_title (lib : Lib Time Float64) (j : JSON) (v : AssetFields Float64) :
    AssetFields.field lib "title" j v =
      (decodeString j v.Title).store (fun x => { v with Title := x }) := rfl

theorem AssetFields_field_file (lib : Lib Time Float64) (j : JSON) (v : AssetFields Float64) :
    AssetFields.field lib "file" j v =
      (File.decode lib j v.File).store (fun x => { v with File := x }) := rfl

/-- A JSON value that renders the `AssetFields` `v` is decoded to `v` in a zero
`AssetFields`, without an error. -/
theorem AssetFields_decode_renders (lib : Lib Time Float64) (j : JSON)
    (v : AssetFields Float64) (h : AssetFields.renders lib j v) :
    AssetFields.decode lib j AssetFields.zero = Decoded.mk v [] none := by
  cases j with
  | object ms =>
    obtain ⟨hk, h0, h1⟩ := h
    refine decodeMembers_renders AssetFields.keys AssetFields.names (AssetFields.field lib) v
      (fun ms v0 =>
        pending rendersString "" (pick "title" ms) v0.Title v.Title ∧
        pending (File.renders lib) File.zero (pick "file" ms) v0.File v.File)
      ?_ ?_ ?_ ?_ ms AssetFields.zero hk
      ⟨pending_of_fieldIs _ _ _ _ h0, pending_of_fieldIs _ _ _ _ h1⟩
    · intro v0 hv
      obtain ⟨e0, e1⟩ := hv
      rcases v0 with ⟨a0, a1⟩
      rcases v with ⟨b0, b1⟩
      have e0 : a0 = b0 := e0
      have e1 : a1 = b1 := e1
      subst e0 e1
      rfl
    · intro k j ms v0 hall hv
      obtain ⟨e0, e1⟩ := hv
      rw [pick_cons_false _ k j ms (hall "title" (by decide))] at e0
      rw [pick_cons_false _ k j ms (hall "file" (by decide))] at e1
      exact ⟨e0, e1⟩
    · intro key hkey k j ms v0 hs hv
      obtain ⟨e0, e1⟩ := hv
      simp only [AssetFields.keys, List.mem_cons, List.mem_singleton, List.not_mem_nil,
        or_false] at hkey
      rcases hkey with rfl | rfl
      · rw [pick_cons_true _ k j ms hs] at e0
        rw [pick_cons_false _ k j ms (spells_other _ _ k hs (by decide))] at e1
        obtain ⟨en, ez, er⟩ := pending_cons _ _ _ _ _ _ e0
        refine ⟨{ v0 with Title := v.Title }, ?_, ?_⟩
        · rw [AssetFields_field_title, ez,
            decodeString_renders j _ _ er]
          rfl
        · exact ⟨(by rw [en]; exact rfl), e1⟩
      · rw [pick_cons_false _ k j ms (spells_other _ _ k hs (by decide))] at e0
        rw [pick_cons_true _ k j ms hs] at e1
        obtain ⟨en, ez, er⟩ := pending_cons _ _ _ _ _ _ e1
        refine ⟨{ v0 with File := v.File }, ?_, ?_⟩
        · rw [AssetFields_field_file, ez,
            File_decode_renders lib j _ er]
          rfl
        · exact ⟨e0, (by rw [en]; exact rfl)⟩
    · intro key j v0 hnone
      simp only [AssetFields.field, hnone]
  | _ => exact absurd h (by simp [AssetFields.renders])

theorem Asset_field_sys (lib : Lib Time Float64) (j : JSON) (v : Asset Time Float64) :
    Asset.field lib "sys" j v =
      (SystemProperties.decode lib j v.Sys).store (fun x => { v with Sys := x }) := rfl

theorem Asset_field_fields (lib : Lib Time Float64) (j : JSON) (v : Asset Time Float64) :
    Asset.field lib "fields" j v =
      (AssetFields.decode lib j v.Fields).store (fun x => { v with Fields := x }) := rfl

/-- A JSON value that renders the `Asset` `v` is decoded to `v` in a zero
`Asset`, without an error. -/
theorem Asset_decode_renders (lib : Lib Time Float64) (j : JSON)
    (v : Asset Time Float64) (h : Asset.renders lib j v) :
    Asset.decode lib j (Asset.zero lib) = Decoded.mk v [] none := by
  cases j with
  | object ms =>
    obtain ⟨hk, h0, h1⟩ := h
    refine decodeMembers_renders Asset.keys Asset.names (Asset.field lib) v
      (fun ms v0 =>
        pending (SystemProperties.renders lib) (SystemProperties.zero lib) (pick "sys" ms)
          v0.Sys v.Sys ∧
        pending (AssetFields.renders lib) AssetFields.zero (pick "fields" ms) v0.Fields v.Fields)
      ?_ ?_ ?_ ?_ ms (Asset.zero lib) hk
      ⟨pending_of_fieldIs _ _ _ _ h0, pending_of_fieldIs _ _ _ _ h1⟩
    · intro v0 hv
      obtain ⟨e0, e1⟩ := hv
      rcases v0 with ⟨a0, a1⟩
      rcases v with ⟨b0, b1⟩
      have e0 : a0 = b0 := e0
      have e1 : a1 = b1 := e1
      subst e0 e1
      rfl
    · intro k j ms v0 hall hv
      obtain ⟨e0, e1⟩ := hv
      rw [pick_cons_false _ k j ms (hall "sys" (by decide))] at e0
      rw [pick_cons_false _ k j ms (hall "fields" (by decide))] at e1
      exact ⟨e0, e1⟩
    · intro key hkey k j ms v0 hs hv
      obtain ⟨e0, e1⟩ := hv
      simp only [Asset.keys, List.mem_cons, List.mem_singleton, List.not_mem_nil,
        or_false] at hkey
      rcases hkey with rfl | rfl
      · rw [pick_cons_true _ k j ms hs] at e0
        rw [pick_cons_false _ k j ms (spells_other _ _ k hs (by decide))] at e1
        obtain ⟨en, ez, er⟩ := pending_cons _ _ _ _ _ _ e0
        refine ⟨{ v0 with Sys := v.Sys }, ?_, ?_⟩
        · rw [Asset_field_sys, ez,
            SystemProperties_decode_renders lib j _ er]
          rfl
        · exact ⟨(by rw [en]; exact rfl), e1⟩
      · rw [pick_cons_false _ k j ms (spells_other _ _ k hs (by decide))] at e0
        rw [pick_cons_true _ k j ms hs] at e1
        obtain ⟨en, ez, er⟩ := pending_cons _ _ _ _ _ _ e1
        refine ⟨{ v0 with Fields := v.Fields }, ?_, ?_⟩
        · rw [Asset_field_fields, ez,
            AssetFields_decode_renders lib j _ er]
          rfl
        · exact ⟨e0, (by rw [en]; exact rfl)⟩
    · intro key j v0 hnone
      simp only [Asset.field, hnone]
  | _ => exact absurd h (by simp [Asset.renders])

theorem Assets_field_sys (lib : Lib Time Float64) (j : JSON) (v : Assets Time Float64) :
    Assets.field lib "sys" j v =
      (SystemProperties.decode lib j v.Sys).store (fun x => { v with Sys := x }) := rfl

theorem Assets_field_total (lib : Lib Time Float64) (j : JSON) (v : Assets Time Float64) :
    Assets.field lib "total" j v =
      (decodeInt64 j v.Total).store (fun x => { v with Total := x }) := rfl

theorem Assets_field_skip (lib : Lib Time Float64) (j : JSON) (v : Assets Time Float64) :
    Assets.field lib "skip" j v =
      (decodeInt64 j v.Skip).store (fun x => { v with Skip := x }) := rfl

theorem Assets_field_limit (lib : Lib Time Float64) (j : JSON) (v : Assets Time Float64) :
    Assets.field lib "limit" j v =
      (decodeInt64 j v.Limit).store (fun x => { v with Limit := x }) := rfl

theorem Assets_field_items (lib : Lib Time Float64) (j : JSON) (v : Assets Time Float64) :
    Assets.field lib "items" j v =
      (decodeSlice "[]contentful.Asset" (Asset.zero lib) (Asset.decode lib) j v.Items).store
        (fun x => { v with Items := x }) := rfl

/-- A JSON value that renders the `Assets` `v` is decoded to `v` in a zero
`Assets`, without an error. -/
theorem Assets_decode_renders (lib : Lib Time Float64) (j : JSON)
    (v : Assets Time Float64) (h : Assets.renders lib j v) :
    Assets.decode lib j (Assets.zero lib) = Decoded.mk v [] none := by
  cases j with
  | object ms =>
    obtain ⟨hk, h0, h1, h2, h3, h4⟩ := h
    refine decodeMembers_renders Assets.keys collectionNames (Assets.field lib) v
      (fun ms v0 =>
        pending (SystemProperties.renders lib) (SystemProperties.zero lib) (pick "sys" ms)
          v0.Sys v.Sys ∧
        pending rendersInt 0 (pick "total" ms) v0.Total v.Total ∧
        pending rendersInt 0 (pick "skip" ms) v0.Skip v.Skip ∧
        pending rendersInt 0 (pick "limit" ms) v0.Limit v.Limit ∧
        pending (rendersSlice (Asset.renders lib)) Slice.nil (pick "items" ms) v0.Items v.Items)
      ?_ ?_ ?_ ?_ ms (Assets.zero lib) hk
      ⟨pending_of_fieldIs _ _ _ _ h0, pending_of_fieldIs _ _ _ _ h1, pending_of_fieldIs _ _ _ _ h2,
        pending_of_fieldIs _ _ _ _ h3, pending_of_fieldIs _ _ _ _ h4⟩
    · intro v0 hv
      obtain ⟨e0, e1, e2, e3, e4⟩ := hv
      rcases v0 with ⟨a0, a1, a2, a3, a4⟩
      rcases v with ⟨b0, b1, b2, b3, b4⟩
      have e0 : a0 = b0 := e0
      have e1 : a1 = b1 := e1
      have e2 : a2 = b2 := e2
      have e3 : a3 = b3 := e3
      have e4 : a4 = b4 := e4
      subst e0 e1 e2 e3 e4
      rfl
    · intro k j ms v0 hall hv
      obtain ⟨e0, e1, e2, e3, e4⟩ := hv
      rw [pick_cons_false _ k j ms (hall "sys" (by decide))] at e0
      rw [pick_cons_false _ k j ms (hall "total" (by decide))] at e1
      rw [pick_cons_false _ k j ms (hall "skip" (by decide))] at e2
      rw [pick_cons_false _ k j ms (hall "limit" (by decide))] at e3
      rw [pick_cons_false _ k j ms (hall "items" (by decide))] at e4
      exact ⟨e0, e1, e2, e3, e4⟩
    · intro key hkey k j ms v0 hs hv
      obtain ⟨e0, e1, e2, e3, e4⟩ := hv
      simp only [Assets.keys, List.mem_cons, List.mem_singleton, List.not_mem_nil,
        or_false] at hkey
      rcases hkey with rfl | rfl | rfl | rfl | rfl
      · rw [pick_cons_true _ k j ms hs] at e0
        rw [pick_cons_false _ k j ms (spells_other _ _ k hs (by decide))] at e1
        rw [pick_cons_false _ k j ms (spells_other _ _ k hs (by decide))] at e2
        rw [pick_cons_false _ k j ms (spells_other _ _ k hs (by decide))] at e3
        rw [pick_cons_false _ k j ms (spells_other _ _ k hs (by decide))] at e4
        obtain ⟨en, ez, er⟩ := pending_cons _ _ _ _ _ _ e0
        refine ⟨{ v0 with Sys := v.Sys }, ?_, ?_⟩
        · rw [Assets_field_sys, ez,
            SystemProperties_decode_renders lib j _ er]
          rfl
        · exact ⟨(by rw [en]; exact rfl), e1, e2, e3, e4⟩
      · rw [pick_cons_false _ k j ms (spells_other _ _ k hs (by decide))] at e0
        rw [pick_cons_true _ k j ms hs] at e1
        rw [pick_cons_false _ k j ms (spells_other _ _ k hs (by decide))] at e2
        rw [pick_cons_false _ k j ms (spells_other _ _ k hs (by decide))] at e3
        rw [pick_cons_false _ k j ms (spells_other _ _ k hs (by decide))] at e4
        obtain ⟨en, ez, er⟩ := pending_cons _ _ _ _ _ _ e1
        refine ⟨{ v0 with Total := v.Total }, ?_, ?_⟩
        · rw [Assets_field_total, ez,
            decodeInt64_renders j _ _ er]
          rfl
        · exact ⟨e0, (by rw [en]; exact rfl), e2, e3, e4⟩
      · rw [pick_cons_false _ k j ms (spells_other _ _ k hs (by decide))] at e0
        rw [pick_cons_false _ k j ms (spells_other _ _ k hs (by decide))] at e1
        rw [pick_cons_true _ k j ms hs] at e2
        rw [pick_cons_false _ k j ms (spells_other _ _ k hs (by decide))] at e3
        rw [pick_cons_false _ k j ms (spells_other _ _ k hs (by decide))] at e4
        obtain ⟨en, ez, er⟩ := pending_cons _ _ _ _ _ _ e2
        refine ⟨{ v0 with Skip := v.Skip }, ?_, ?_⟩
        · rw [Assets_field_skip, ez,
            decodeInt64_renders j _ _ er]
          rfl
        · exact ⟨e0, e1, (by rw [en]; exact rfl), e3, e4⟩
      · rw [pick_cons_false _ k j ms (spells_other _ _ k hs (by decide))] at e0
        rw [pick_cons_false _ k j ms (spells_other _ _ k hs (by decide))] at e1
        rw [pick_cons_false _ k j ms (spells_other _ _ k hs (by decide))] at e2
        rw [pick_cons_true _ k j ms hs] at e3
        rw [pick_cons_false _ k j ms (spells_other _ _ k hs (by decide))] at e4
        obtain ⟨en, ez, er⟩ := pending_cons _ _ _ _ _ _ e3
        refine ⟨{ v0 with Limit := v.Limit }, ?_, ?_⟩
        · rw [Assets_field_limit, ez,
            decodeInt64_renders j _ _ er]
          rfl
        · exact ⟨e0, e1, e2, (by rw [en]; exact rfl), e4⟩
      · rw [pick_cons_false _ k j ms (spells_other _ _ k hs (by decide))] at e0
        rw [pick_cons_false _ k j ms (spells_other _ _ k hs (by decide))] at e1
        rw [pick_cons_false _ k j ms (spells_other _ _ k hs (by decide))] at e2
        rw [pick_cons_false _ k j ms (spells_other _ _ k hs (by decide))] at e3
        rw [pick_cons_true _ k j ms hs] at e4
        obtain ⟨en, ez, er⟩ := pending_cons _ _ _ _ _ _ e4
        refine ⟨{ v0 with Items := v.Items }, ?_, ?_⟩
        · rw [Assets_field_items, ez,
            decodeSlice_renders "[]contentful.Asset" (Asset.zero lib) (Asset.decode lib)
                (Asset.renders lib)
              (fun j x h => Asset_decode_renders lib j x h) j _ er]
          rfl
        · exact ⟨e0, e1, e2, e3, (by rw [en]; exact rfl)⟩
    · intro key j v0 hnone
      simp only [Assets.field, hnone]
  | _ => exact absurd h (by simp [Assets.renders])

end StructRenders

/-! ## The fixtures -/

theorem spaceJSON_renders : Space.renders textLib spaceJSON spaceValue :=
  ⟨rfl,
    ⟨rfl, rfl, rfl, rfl, rfl, rfl, rfl, rfl⟩,
    rfl,
    List.Forall₂.cons ⟨rfl, rfl, rfl, rfl⟩
      (List.Forall₂.cons ⟨rfl, rfl, rfl, rfl⟩ List.Forall₂.nil)⟩

theorem link_renders (linkType id : String) (h1 : spells linkType.data (ascii linkType) = true)
    (h2 : spells id.data (ascii id) = true) :
    GoAny.renders textLib (linkJSON linkType id) (link linkType id) :=
  ⟨by simp, rfl, ⟨by simp, rfl, rfl, rfl, h1, rfl, h2, rfl⟩, rfl⟩

theorem entryMembers_renders : Entry.renders textLib (.object entryMembers) entryValue :=
  ⟨rfl,
    ⟨rfl, link_renders "Space" "cfexampleapi" rfl rfl, rfl, rfl,
      link_renders "ContentType" "cat" rfl rfl, ⟨rfl, by decide, by decide⟩, rfl, rfl⟩,
    ⟨by decide, rfl, rfl, rfl, ⟨rfl, rfl, rfl⟩, rfl, rfl, rfl, rfl, rfl, rfl, rfl⟩⟩

/-! ## Repeated keys -/

/-- A key that comes again is decoded into what the field holds.  An array
after a longer one cuts the slice and leaves the rest in the backing array,
and a later array that is longer again decodes its elements into what was
left there: the second locale keeps the code `b` of the first array. -/
theorem getSpace_repeated_locales :
    (exampleClient.GetSpace textLib (stub (ok200 (ascii
      ("\x7b\"locales\":[\x7b\"code\":\"a\"\x7d,\x7b\"code\":\"b\"\x7d]," ++
        "\"locales\":[\x7b\"code\":\"c\"\x7d]," ++
        "\"locales\":[\x7b\"code\":\"d\",\"name\":\"A\"\x7d,\x7b\"name\":\"E\"\x7d]\x7d"))))).resp.map
      (fun s => s.Locales) =
      some (Slice.mk [Locale.mk "d" false "A", Locale.mk "b" false "E"] []) ∧
    (exampleClient.GetSpace textLib (stub (ok200 (ascii
      ("\x7b\"locales\":[\x7b\"code\":\"a\"\x7d,\x7b\"code\":\"b\"\x7d]," ++
        "\"locales\":[\x7b\"code\":\"c\"\x7d]\x7d"))))).resp.map (fun s => s.Locales) =
      some (Slice.mk [Locale.mk "c" false ""] [Locale.mk "b" false ""]) ∧
    (exampleClient.GetSpace textLib (stub (ok200 (ascii
      ("\x7b\"locales\":[\x7b\"code\":\"a\"\x7d],\"locales\":[]," ++
        "\"locales\":[\x7b\"name\":\"E\"\x7d]\x7d"))))).resp.map (fun s => s.Locales) =
      some (Slice.mk [Locale.mk "" false "E"] []) :=
  ⟨rfl, rfl, rfl⟩

/-! ## The fetchers on bodies that render a value -/

/-- A `200 OK` response whose body is read as the JSON value `j`: the fetcher
returns what the decoder makes of `j` in a zero struct. -/
theorem fetch_answer {α : Type} (tr : Transport) (c : Client) (u : String) (zero : α)
    (dec : Decoder α) (res : Response) (j : JSON) (ha : Answers tr c u res)
    (hb : parseJSON res.Body = some j) (hj : j ≠ .null) :
    c.fetch tr u zero dec =
      Outcome.mk (some (dec j zero).val) (dec j zero).result c [c.request u] := by
  rw [fetch_ok tr c u zero dec res ha.1 ha.2.1 ha.2.2.1 ha.2.2.2,
    Unmarshal_value zero dec _ j hb hj]

theorem roundTrip_of_decode {α : Type} (c : Client) (u : String) (zero : α) (dec : Decoder α)
    (renders : JSON → α → Prop) (hnull : ∀ v, ¬ renders .null v)
    (hdec : ∀ j v, renders j v → dec j zero = Decoded.mk v [] none) :
    RoundTrip renders (fun tr => c.fetch tr u zero dec) c u := by
  intro tr res j v ha hr hb
  have hj : j ≠ .null := fun h => hnull v (h ▸ hr)
  have hp : parseJSON res.Body = some j := by
    rcases hb with hb | ⟨hb, hw, hd⟩
    · exact hb
    · rw [hb]
      exact parseJSON_render j hw hd
  show c.fetch tr u zero dec = _
  rw [fetch_answer tr c u zero dec res j ha hp hj, hdec j v hr]
  rfl

/-- C6: for each of the six resource types and every value `v` of the type, a
`200 OK` response with a JSON body that renders `v` in the API's shape makes
the fetcher return `v` itself, sequences in their order, and no error.  The
body renders `v` when it is an object with the fields of `v` under their
lower-camel-case keys (`sys`, `name`, `locales`, `fields`, `linkType`,
`fileName`, `contentType`, `url`, `total`, `skip`, `limit`, `items`, ...), in
any order, with strings in any JSON spelling, integers as decimal literals of
an `int64`, times and floats as the texts the library reads them from, and
the structs, sequences and opaque payloads inside rendered in the same way; a
field whose key is left out is zero in `v`, and members under keys of no field
may be there.  This holds for every body the scanner reads as such a JSON
value, whatever its white space, and the compact text of the value is such a
body. -/
theorem C6_round_trip {Time Float64 : Type} (lib : Lib Time Float64) (c : Client)
    (i : String) :
    RoundTrip (Space.renders lib) (fun tr => c.GetSpace lib tr) c c.getSpaceURL ∧
    RoundTrip (ContentTypes.renders lib) (fun tr => c.GetContentTypes lib tr) c
      c.getContentTypesURL ∧
    RoundTrip (ContentType.renders lib) (fun tr => c.GetContentType lib tr i) c
      (c.getContentTypeURL i) ∧
    RoundTrip (Entries.renders lib) (fun tr => c.getEntries lib tr) c c.getEntriesURL ∧
    RoundTrip (Entry.renders lib) (fun tr => c.getEntry lib tr i) c (c.getEntryURL i) ∧
    RoundTrip (Assets.renders lib) (fun tr => c.getAssets lib tr) c c.getAssetsURL :=
  ⟨roundTrip_of_decode c _ _ _ _ (fun _ h => h) (Space_decode_renders lib),
    roundTrip_of_decode c _ _ _ _ (fun _ h => h) (ContentTypes_decode_renders lib),
    roundTrip_of_decode c _ _ _ _ (fun _ h => h) (ContentType_decode_renders lib),
    roundTrip_of_decode c _ _ _ _ (fun _ h => h) (Entries_decode_renders lib),
    roundTrip_of_decode c _ _ _ _ (fun _ h => h) (Entry_decode_renders lib),
    roundTrip_of_decode c _ _ _ _ (fun _ h => h) (Assets_decode_renders lib)⟩

/-! ## Missing keys -/

theorem structMissingZero_of_fieldWise {α : Type} {names : List String}
    {field : String → Decoder α} {agree : (Nat → Bool) → α → α → Prop}
    (fw : FieldWise names field agree) (renders : JSON → α → Prop) (goType : String)
    (zero : α)
    (hdec : ∀ j v, renders j v → decodeStruct goType field j zero = Decoded.mk v [] none) :
    StructMissingZero renders names field zero agree := by
  intro K ms
  refine ⟨decodeMembers_leaveOut_zero fw K zero ms zero (fw.refl _ _), ?_⟩
  intro w hr
  have hw : decodeMembers field ms zero = Decoded.mk w [] none := hdec _ w hr
  have h1 : (decodeMembers field ms zero).stopped = none := by rw [hw]
  obtain ⟨a, b, c1⟩ := decodeMembers_leaveOut_same fw K ms zero zero (fw.refl _ _) h1
  rw [hw] at b c1
  exact ⟨(Decoded.result_eq_none _).mpr ⟨a, b rfl⟩, c1⟩

theorem missingZero_of_fieldWise {α : Type} {names : List String} {field : String → Decoder α}
    {agree : (Nat → Bool) → α → α → Prop} (fw : FieldWise names field agree)
    (renders : JSON → α → Prop) (goType : String) (zero : α)
    (hdec : ∀ j v, renders j v → decodeStruct goType field j zero = Decoded.mk v [] none)
    (c : Client) (u : String) :
    MissingZero renders (fun tr => c.fetch tr u zero (decodeStruct goType field)) c u names
      zero agree := by
  intro tr res K ms ha hb
  obtain ⟨hz, hw⟩ := structMissingZero_of_fieldWise fw renders goType zero hdec K ms
  have hf := fetch_answer tr c u zero (decodeStruct goType field) res _ ha hb (by simp)
  refine ⟨(decodeMembers field (leaveOut names K ms) zero).val, ?_, hz, ?_⟩
  · show (c.fetch tr u zero (decodeStruct goType field)).resp = _
    rw [hf]
    rfl
  · intro w hr
    obtain ⟨he, hv⟩ := hw w hr
    refine ⟨?_, hv⟩
    show c.fetch tr u zero (decodeStruct goType field) = _
    rw [hf]
    have he1 : (decodeStruct goType field (.object (leaveOut names K ms)) zero).result = none :=
      he
    rw [he1]
    rfl

theorem parseJSON_empty_object : parseJSON (ascii "\x7b\x7d") = some (.object []) := rfl

theorem emptyZero_fetch {α : Type} (c : Client) (u : String) (zero : α) (goType : String)
    (field : String → Decoder α) :
    EmptyZero (fun tr => c.fetch tr u zero (decodeStruct goType field)) c u zero := by
  intro tr res ha hb
  show c.fetch tr u zero (decodeStruct goType field) = _
  rw [fetch_answer tr c u zero _ res (.object []) ha (hb ▸ parseJSON_empty_object) (by simp)]
  rfl

/-- C8: on the body `{}` every fetcher returns the zero struct of its type and
no error; and leaving keys out of a JSON object body is no error and leaves
the fields of these keys at their zero value, while the other fields are
decoded to what their members render: when the body is a JSON object without
the members of a set `K` of fields, the fetcher returns a value with the zero
value in the fields in `K`, and when the whole object renders the value `w` the
fetcher returns no error and the values of `w` in the other fields.  The same
holds for the objects inside the body that are decoded into the new structs
inside the result. -/
theorem C8_missing_keys {Time Float64 : Type} (lib : Lib Time Float64) (c : Client)
    (i : String) :
    (EmptyZero (fun tr => c.GetSpace lib tr) c c.getSpaceURL (Space.zero lib) ∧
      EmptyZero (fun tr => c.GetContentTypes lib tr) c c.getContentTypesURL
        (ContentTypes.zero lib) ∧
      EmptyZero (fun tr => c.GetContentType lib tr i) c (c.getContentTypeURL i)
        (ContentType.zero lib) ∧
      EmptyZero (fun tr => c.getEntries lib tr) c c.getEntriesURL (Entries.zero lib) ∧
      EmptyZero (fun tr => c.getEntry lib tr i) c (c.getEntryURL i) (Entry.zero lib) ∧
      EmptyZero (fun tr => c.getAssets lib tr) c c.getAssetsURL (Assets.zero lib)) ∧
    (MissingZero (Space.renders lib) (fun tr => c.GetSpace lib tr) c c.getSpaceURL
        Space.names (Space.zero lib) Space.agree ∧
      MissingZero (ContentTypes.renders lib) (fun tr => c.GetContentTypes lib tr) c
        c.getContentTypesURL collectionNames (ContentTypes.zero lib) ContentTypes.agree ∧
      MissingZero (ContentType.renders lib) (fun tr => c.GetContentType lib tr i) c
        (c.getContentTypeURL i) ContentType.names (ContentType.zero lib) ContentType.agree ∧
      MissingZero (Entries.renders lib) (fun tr => c.getEntries lib tr) c c.getEntriesURL
        collectionNames (Entries.zero lib) Entries.agree ∧
      MissingZero (Entry.renders lib) (fun tr => c.getEntry lib tr i) c (c.getEntryURL i)
        Entry.names (Entry.zero lib) Entry.agree ∧
      MissingZero (Assets.renders lib) (fun tr => c.getAssets lib tr) c c.getAssetsURL
        collectionNames (Assets.zero lib) Assets.agree) ∧
    (StructMissingZero (SystemProperties.renders lib) SystemProperties.names
        (SystemProperties.field lib) (SystemProperties.zero lib) SystemProperties.agree ∧
      StructMissingZero Locale.renders Locale.names Locale.field Locale.zero Locale.agree ∧
      StructMissingZero FieldItemType.renders FieldItemType.names FieldItemType.field
        FieldItemType.zero FieldItemType.agree ∧
      StructMissingZero Field.renders Field.names Field.field Field.zero Field.agree ∧
      StructMissingZero (ContentType.renders lib) ContentType.names (ContentType.field lib)
        (ContentType.zero lib) ContentType.agree ∧
      StructMissingZero (Entry.renders lib) Entry.names (Entry.field lib) (Entry.zero lib)
        Entry.agree ∧
      StructMissingZero (File.renders lib) File.names (File.field lib) File.zero
        File.agree ∧
      StructMissingZero (AssetFields.renders lib) AssetFields.names (AssetFields.field lib)
        AssetFields.zero AssetFields.agree ∧
      StructMissingZero (Asset.renders lib) Asset.names (Asset.field lib) (Asset.zero lib)
        Asset.agree) :=
  ⟨⟨emptyZero_fetch c _ _ _ _, emptyZero_fetch c _ _ _ _, emptyZero_fetch c _ _ _ _,
      emptyZero_fetch c _ _ _ _, emptyZero_fetch c _ _ _ _, emptyZero_fetch c _ _ _ _⟩,
    ⟨missingZero_of_fieldWise (Space_fieldWise lib) _ _ _ (Space_decode_renders lib) c _,
      missingZero_of_fieldWise (ContentTypes_fieldWise lib) _ _ _
        (ContentTypes_decode_renders lib) c _,
      missingZero_of_fieldWise (ContentType_fieldWise lib) _ _ _
        (ContentType_decode_renders lib) c _,
      missingZero_of_fieldWise (Entries_fieldWise lib) _ _ _ (Entries_decode_renders lib) c _,
      missingZero_of_fieldWise (Entry_fieldWise lib) _ _ _ (Entry_decode_renders lib) c _,
      missingZero_of_fieldWise (Assets_fieldWise lib) _ _ _ (Assets_decode_renders lib) c _⟩,
    ⟨structMissingZero_of_fieldWise (SystemProperties_fieldWise lib) _ _ _
        (SystemProperties_decode_renders lib),
      structMissingZero_of_fieldWise Locale_fieldWise _ _ _ Locale_decode_renders,
      structMissingZero_of_fieldWise FieldItemType_fieldWise _ _ _
        FieldItemType_decode_renders,
      structMissingZero_of_fieldWise Field_fieldWise _ _ _ Field_decode_renders,
      structMissingZero_of_fieldWise (ContentType_fieldWise lib) _ _ _
        (ContentType_decode_renders lib),
      structMissingZero_of_fieldWise (Entry_fieldWise lib) _ _ _ (Entry_decode_renders lib),
      structMissingZero_of_fieldWise (File_fieldWise lib) _ _ _ (File_decode_renders lib),
      structMissingZero_of_fieldWise (AssetFields_fieldWise lib) _ _ _
        (AssetFields_decode_renders lib),
      structMissingZero_of_fieldWise (Asset_fieldWise lib) _ _ _ (Asset_decode_renders lib)⟩⟩

theorem C6_round_trip_witness :
    parseJSON spaceBody = some spaceJSON ∧ Space.renders textLib spaceJSON spaceValue ∧
    exampleClient.GetSpace textLib (stub (ok200 spaceBody)) =
      Outcome.mk (some spaceValue) none exampleClient
        [exampleClient.request exampleClient.getSpaceURL] ∧
    exampleClient.GetSpace textLib (stub (ok200 spaceJSON.render)) =
      Outcome.mk (some spaceValue) none exampleClient
        [exampleClient.request exampleClient.getSpaceURL] ∧
    exampleClient.getEntry textLib (stub (ok200 entryBody)) "nyancat" =
      Outcome.mk (some entryValue) none exampleClient
        [exampleClient.request (exampleClient.getEntryURL "nyancat")] :=
  ⟨rfl, spaceJSON_renders,
    (C6_round_trip textLib exampleClient "").1 (stub (ok200 spaceBody)) (ok200 spaceBody)
      spaceJSON spaceValue ⟨rfl, rfl, rfl, rfl⟩ spaceJSON_renders (Or.inl rfl),
    (C6_round_trip textLib exampleClient "").1 (stub (ok200 spaceJSON.render))
      (ok200 spaceJSON.render) spaceJSON spaceValue ⟨rfl, rfl, rfl, rfl⟩ spaceJSON_renders
      (Or.inr ⟨rfl, rfl, by decide⟩),
    (C6_round_trip textLib exampleClient "nyancat").2.2.2.2.1 (stub (ok200 entryBody))
      (ok200 entryBody) (.object entryMembers) entryValue ⟨rfl, rfl, rfl, rfl⟩
      entryMembers_renders (Or.inl rfl)⟩

theorem C8_missing_keys_witness :
    exampleClient.GetSpace textLib (stub (ok200 (ascii "\x7b\x7d"))) =
      Outcome.mk (some (Space.zero textLib)) none exampleClient
        [exampleClient.request exampleClient.getSpaceURL] ∧
    parseJSON entryFieldsBody = some (.object (leaveOut Entry.names sysOnly entryMembers)) ∧
    Entry.renders textLib (.object entryMembers) entryValue ∧
    ∃ v, exampleClient.getEntry textLib (stub (ok200 entryFieldsBody)) "nyancat" =
        Outcome.mk (some v) none exampleClient
          [exampleClient.request (exampleClient.getEntryURL "nyancat")] ∧
      Entry.agree sysOnly v (Entry.zero textLib) ∧
      Entry.agree (fun n => !sysOnly n) v entryValue :=
  ⟨(C8_missing_keys textLib exampleClient "").1.1 (stub (ok200 (ascii "\x7b\x7d")))
      (ok200 (ascii "\x7b\x7d")) ⟨rfl, rfl, rfl, rfl⟩ rfl,
    rfl, entryMembers_renders,
    match (C8_missing_keys textLib exampleClient "nyancat").2.1.2.2.2.2.1
      (stub (ok200 entryFieldsBody)) (ok200 entryFieldsBody) sysOnly entryMembers
      ⟨rfl, rfl, rfl, rfl⟩ rfl with
    | ⟨v, _, hz, hw⟩ =>
      ⟨v, (hw entryValue entryMembers_renders).1, hz, (hw entryValue entryMembers_renders).2⟩⟩

end Contentful
